import Mathlib

/-! ## Verification of the Miniko-Platform interpretation core

This file gives a shallow embedding, in Lean 4, of the interpretation core of
the Miniko-Platform repository (`src/App.tsx` and `src/lib/minikoInterpreter.ts`)
and proves, or refutes, the frozen claims about it.

Modelling conventions:

* Strings are modelled as `List Char` (`Str`); every JavaScript regular
  expression used by the source is translated into an explicit matching
  function on `Str`, following the backtracking semantics of the JS regex
  engine (greedy / lazy quantifiers, ordered alternation).
* JavaScript numbers are modelled by `Frac`, exact rationals in a normalized
  computable representation (IEEE-754 rounding and overflow are outside the
  model; the model is exact arithmetic).  For the toy interpreter, where the
  distinguished values `Infinity`, `-Infinity` and `NaN` are reachable from
  program text and decide a termination claim, numbers are modelled by
  `JSNum`, which is `Frac` extended with those three values, with the exact
  (rounding-free) IEEE rules for them.
* JavaScript `Map` objects (insertion ordered) are modelled by association
  lists with in-place update (`mapSet`).
-/

set_option maxRecDepth 10000

/-- Characters of a JavaScript string, in order. -/
abbrev Str := List Char

/-- The left-brace character (written numerically). -/
def lbrace : Char := Char.ofNat 123

/-- The right-brace character (written numerically). -/
def rbrace : Char := Char.ofNat 125

/-- The single-quote character. -/
def squote : Char := Char.ofNat 39

/-- The backslash character. -/
def bslash : Char := Char.ofNat 92

/-- Whitespace for the purposes of JavaScript `\s`, `trim()` and
`String.prototype.split` behaviour used by the source (space, tab, CR, LF,
vertical tab, form feed; more exotic Unicode space code points never occur in
the inputs the source manipulates). -/
def isJsSpace (c : Char) : Bool :=
  c = ' ' || c = '\t' || c = '\n' || c = '\r' || c = Char.ofNat 11 || c = Char.ofNat 12

/-- A `\w` word character: `[A-Za-z0-9_]`. -/
def isWordChar (c : Char) : Bool :=
  ('a' ≤ c && c ≤ 'z') || ('A' ≤ c && c ≤ 'Z') || ('0' ≤ c && c ≤ '9') || c = '_'

/-- An identifier-start character: `[A-Za-z_]`. -/
def isIdentStart (c : Char) : Bool :=
  ('a' ≤ c && c ≤ 'z') || ('A' ≤ c && c ≤ 'Z') || c = '_'

/-- A decimal digit. -/
def isDigitCh (c : Char) : Bool := '0' ≤ c && c ≤ '9'

/-- `trim()`: strip leading and trailing whitespace. -/
def jsTrim (s : Str) : Str :=
  ((s.dropWhile isJsSpace).reverse.dropWhile isJsSpace).reverse

/-- Drop leading whitespace (the effect of a leading greedy `\s*`). -/
def skipSpaces (s : Str) : Str := s.dropWhile isJsSpace

/-- `String.prototype.split('\n')`: split on a character, keeping empty
pieces (`"".split('\n')` is `[""]`). -/
def splitOnChar (c : Char) : Str → List Str
  | [] => [[]]
  | d :: rest =>
    if d = c then [] :: splitOnChar c rest
    else
      match splitOnChar c rest with
      | [] => [[d]]
      | piece :: pieces => (d :: piece) :: pieces

/-- Whether `pat` occurs as a contiguous substring. -/
def containsSub (s pat : Str) : Bool :=
  match s with
  | [] => pat.isPrefixOf ([] : Str)
  | _ :: rest => pat.isPrefixOf s || containsSub rest pat

/-- `String.prototype.includes` for a single character. -/
def containsChar (s : Str) (c : Char) : Bool := s.contains c

/-- Leading identifier `[A-Za-z_]\w*`: returns the identifier and the rest. -/
def takeIdent : Str → Option (Str × Str)
  | [] => none
  | c :: rest =>
    if isIdentStart c then
      let tail := rest.takeWhile isWordChar
      some (c :: tail, rest.drop tail.length)
    else none

/-- Split on a multi-character separator (as in `split('<<')`); the separator
is assumed non-empty. Empty pieces are kept.  The fuel argument only drives
the structural recursion (each step consumes at least one character, so
`s.length` fuel always suffices). -/
def splitOnSubF (sep : Str) : ℕ → Str → List Str
  | _, [] => [[]]
  | 0, s => [s]
  | fuel + 1, c :: rest =>
    if sep ≠ [] ∧ sep.isPrefixOf (c :: rest) then
      [] :: splitOnSubF sep fuel ((c :: rest).drop sep.length)
    else
      match splitOnSubF sep fuel rest with
      | [] => [[c]]
      | piece :: pieces => (c :: piece) :: pieces

def splitOnSub (sep s : Str) : List Str := splitOnSubF sep s.length s

/-- Remove every (non-overlapping, leftmost-first) occurrence of `pat`,
as `String.prototype.replace(/pat/g, '')` for a literal pattern. -/
def removeAllSubF (pat : Str) : ℕ → Str → Str
  | _, [] => []
  | 0, s => s
  | fuel + 1, c :: rest =>
    if pat.isPrefixOf (c :: rest) ∧ pat ≠ [] then
      removeAllSubF pat fuel ((c :: rest).drop pat.length)
    else
      c :: removeAllSubF pat fuel rest

def removeAllSub (pat s : Str) : Str := removeAllSubF pat s.length s

/-- Join a list of strings with a separator. -/
def joinSep (sep : Str) : List Str → Str
  | [] => []
  | [s] => s
  | s :: rest => s ++ sep ++ joinSep sep rest

/-- Fuel-driven Euclid: `gcdFuel f a b = Nat.gcd a b` whenever `b ≤ f`.
Written with explicit fuel so that it reduces inside the kernel. -/
def gcdFuel : ℕ → ℕ → ℕ → ℕ
  | 0, a, _ => a
  | f + 1, a, b => if b = 0 then a else gcdFuel f b (a % b)

theorem gcdFuel_eq_gcd (f a b : ℕ) (h : b ≤ f) : gcdFuel f a b = Nat.gcd a b := by
  induction f using Nat.strong_induction_on generalizing a b with
  | _ f ih =>
    match f with
    | 0 =>
      interval_cases b
      simp [gcdFuel]
    | g + 1 =>
      rw [gcdFuel]
      by_cases hb : b = 0
      · simp [hb]
      · rw [if_neg hb,
          ih g (by omega) b (a % b)
            (by have := Nat.mod_lt a (Nat.pos_of_ne_zero hb); omega)]
        rw [Nat.gcd_comm b (a % b), ← Nat.gcd_rec b a, Nat.gcd_comm]

/-! ## Exact rational numbers in a kernel-computable representation

`Frac` stands for a finite JavaScript number.  All operations normalize, so
that values admit decidable structural equality matching value equality
(provided denominators are positive, which every constructor guarantees). -/

structure Frac where
  num : ℤ
  den : ℕ
  deriving DecidableEq, Repr

namespace Frac

/-- Normalize: cancel the gcd, send `0/d` to `0/1`. -/
def norm (f : Frac) : Frac :=
  if f.num = 0 then ⟨0, 1⟩
  else
    let g := gcdFuel (f.den + 1) f.num.natAbs f.den
    ⟨f.num / (g : ℤ), f.den / g⟩

def ofInt (n : ℤ) : Frac := ⟨n, 1⟩

def zero : Frac := ⟨0, 1⟩

def one : Frac := ⟨1, 1⟩

def add (a b : Frac) : Frac :=
  norm ⟨a.num * b.den + b.num * a.den, a.den * b.den⟩

def sub (a b : Frac) : Frac :=
  norm ⟨a.num * b.den - b.num * a.den, a.den * b.den⟩

def mul (a b : Frac) : Frac :=
  norm ⟨a.num * b.num, a.den * b.den⟩

/-- Exact division; callers never divide by zero. -/
def div (a b : Frac) : Frac :=
  norm ⟨a.num * b.den * Int.sign b.num, a.den * b.num.natAbs⟩

/-- Value equality (cross multiplication); on normalized values this agrees
with structural equality. -/
def beq (a b : Frac) : Bool := a.num * b.den = b.num * a.den

def ltb (a b : Frac) : Bool := a.num * b.den < b.num * a.den

def leb (a b : Frac) : Bool := a.num * b.den ≤ b.num * a.den

/-- `Math.floor`. -/
def floor (f : Frac) : ℤ := f.num.fdiv f.den

/-- Interpretation into `ℚ` (for reasoning). -/
def toRat (f : Frac) : ℚ := (f.num : ℚ) / (f.den : ℚ)

end Frac

section FracLemmas

theorem Frac.norm_den_pos (f : Frac) (h : 0 < f.den) : 0 < (Frac.norm f).den := by
  unfold Frac.norm
  by_cases h0 : f.num = 0
  · simp [h0]
  · simp only [h0, if_false]
    have hg : gcdFuel (f.den + 1) f.num.natAbs f.den = Nat.gcd f.num.natAbs f.den :=
      gcdFuel_eq_gcd _ _ _ (by omega)
    simp only [hg]
    exact Nat.div_pos (Nat.le_of_dvd h (Nat.gcd_dvd_right _ _))
      (Nat.gcd_pos_of_pos_right _ h)

theorem Frac.norm_toRat (f : Frac) (h : 0 < f.den) :
    (Frac.norm f).toRat = f.toRat := by
  unfold Frac.norm
  by_cases h0 : f.num = 0
  · simp [h0, Frac.toRat]
  · simp only [h0, if_false]
    have hg : gcdFuel (f.den + 1) f.num.natAbs f.den = Nat.gcd f.num.natAbs f.den :=
      gcdFuel_eq_gcd _ _ _ (by omega)
    simp only [hg, Frac.toRat]
    have key : ∀ g : ℕ, 0 < g → (g : ℤ) ∣ f.num → g ∣ f.den →
        ((f.num / (g : ℤ) : ℤ) : ℚ) / ((f.den / g : ℕ) : ℚ) =
          (f.num : ℚ) / (f.den : ℚ) := by
      intro g hgpos hd1 hd2
      obtain ⟨a, ha⟩ := hd1
      obtain ⟨b, hb⟩ := hd2
      have e1 : f.num / (g : ℤ) = a :=
        Int.ediv_eq_of_eq_mul_left (by exact_mod_cast hgpos.ne')
          (by rw [ha, Int.mul_comm])
      have e2 : f.den / g = b :=
        Nat.div_eq_of_eq_mul_left hgpos (by rw [hb, Nat.mul_comm])
      rw [e1, e2, ha, hb]
      push_cast
      rw [mul_div_mul_left _ _ (show (g : ℚ) ≠ 0 by exact_mod_cast hgpos.ne')]
    exact key _ (Nat.gcd_pos_of_pos_right _ h)
      (Int.dvd_natAbs.mp (Int.natCast_dvd_natCast.mpr (Nat.gcd_dvd_left _ _)))
      (Nat.gcd_dvd_right _ _)

end FracLemmas

/-! ## Number rendering (JavaScript `String(n)` / template interpolation)

Integers render exactly as in JavaScript.  Non-integral rationals render with
their exact finite decimal expansion when one exists (this matches JavaScript
for the short decimals actually produced by the source's inputs); rationals
with no finite decimal expansion and exponent-notation outputs are outside
the model and use a fraction fallback spelling. -/

def intToStr (n : ℤ) : Str :=
  if n < 0 then '-' :: Nat.toDigits 10 n.natAbs else Nat.toDigits 10 n.natAbs

/-- Smallest `k` with `1 ≤ k ≤ fuel` such that `den ∣ 10 ^ k`, if any. -/
def findDecExp (fuel k den : ℕ) : Option ℕ :=
  match fuel with
  | 0 => none
  | f + 1 => if den ∣ 10 ^ k then some k else findDecExp f (k + 1) den

def padZeros (k : ℕ) (ds : Str) : Str :=
  List.replicate (k - ds.length) '0' ++ ds

def fracToStr (f : Frac) : Str :=
  if f.den = 1 then intToStr f.num
  else
    match findDecExp 40 1 f.den with
    | some k =>
      let scaled := f.num.natAbs * (10 ^ k) / f.den
      let ip := scaled / 10 ^ k
      let fp := scaled % 10 ^ k
      (if f.num < 0 then ['-'] else []) ++ Nat.toDigits 10 ip ++
        ['.'] ++ padZeros k (Nat.toDigits 10 fp)
    | none => intToStr f.num ++ ['/'] ++ Nat.toDigits 10 f.den

/-! ## JavaScript numbers for the toy interpreter

`JSNum` is a finite exact rational extended with the three distinguished
IEEE values; the rules for the distinguished values are the exact
(rounding-free) ECMAScript rules.  Overflow to `Infinity` of huge finite
results is outside the model (arithmetic on finite values is exact). -/

inductive JSNum where
  | fin (f : Frac)
  | inf
  | ninf
  | nan
  deriving DecidableEq, Repr

namespace JSNum

def isZero : JSNum → Bool
  | fin f => f.num = 0
  | _ => false

def add : JSNum → JSNum → JSNum
  | nan, _ => nan
  | _, nan => nan
  | inf, ninf => nan
  | ninf, inf => nan
  | inf, _ => inf
  | _, inf => inf
  | ninf, _ => ninf
  | _, ninf => ninf
  | fin a, fin b => fin (a.add b)

def sub : JSNum → JSNum → JSNum
  | nan, _ => nan
  | _, nan => nan
  | inf, inf => nan
  | ninf, ninf => nan
  | inf, _ => inf
  | _, inf => ninf
  | ninf, _ => ninf
  | _, ninf => inf
  | fin a, fin b => fin (a.sub b)

def sgn : JSNum → ℤ
  | fin f => Int.sign f.num
  | inf => 1
  | ninf => -1
  | nan => 0

def mul : JSNum → JSNum → JSNum
  | nan, _ => nan
  | _, nan => nan
  | fin a, fin b => fin (a.mul b)
  | x, y =>
    -- at least one infinite operand
    if x.sgn * y.sgn = 1 then inf
    else if x.sgn * y.sgn = -1 then ninf
    else nan

/-- Division; the source only calls this with a non-zero divisor. -/
def div : JSNum → JSNum → JSNum
  | nan, _ => nan
  | _, nan => nan
  | inf, inf => nan
  | inf, ninf => nan
  | ninf, inf => nan
  | ninf, ninf => nan
  | inf, fin b => if b.num < 0 then ninf else inf
  | ninf, fin b => if b.num < 0 then inf else ninf
  | fin _, inf => fin Frac.zero
  | fin _, ninf => fin Frac.zero
  | fin a, fin b => fin (a.div b)

def ltb : JSNum → JSNum → Bool
  | nan, _ => false
  | _, nan => false
  | ninf, ninf => false
  | ninf, _ => true
  | _, ninf => false
  | inf, _ => false
  | _, inf => true
  | fin a, fin b => a.ltb b

def leb (a b : JSNum) : Bool :=
  match a, b with
  | nan, _ => false
  | _, nan => false
  | _, _ => !(ltb b a)

/-- Strict `===` equality on numbers (`NaN === NaN` is false). -/
def eqb : JSNum → JSNum → Bool
  | nan, _ => false
  | _, nan => false
  | inf, inf => true
  | ninf, ninf => true
  | fin a, fin b => a.beq b
  | _, _ => false

/-- `Math.max(0, v)`. -/
def maxZero : JSNum → JSNum
  | nan => nan
  | inf => inf
  | ninf => fin Frac.zero
  | fin f => if f.ltb Frac.zero then fin Frac.zero else fin f

def toStr : JSNum → Str
  | fin f => fracToStr f
  | inf => "Infinity".data
  | ninf => "-Infinity".data
  | nan => "NaN".data

end JSNum

/-! ## `Number(string)` (ECMAScript string-to-number conversion)

Exact model of the grammar cases the source can meet: optional sign,
`Infinity`, decimal literals with optional fraction and exponent, and
(unsigned only) hex/octal/binary literals.  The result is exact (no
IEEE rounding of long literals). -/

def digitsVal (ds : Str) : ℕ :=
  ds.foldl (fun acc c => 10 * acc + (c.toNat - '0'.toNat)) 0

def isHexDigit (c : Char) : Bool :=
  isDigitCh c || ('a' ≤ c && c ≤ 'f') || ('A' ≤ c && c ≤ 'F')

def hexVal (c : Char) : ℕ :=
  if isDigitCh c then c.toNat - '0'.toNat
  else if 'a' ≤ c && c ≤ 'f' then c.toNat - 'a'.toNat + 10
  else c.toNat - 'A'.toNat + 10

def hexDigitsVal (ds : Str) : ℕ :=
  ds.foldl (fun acc c => 16 * acc + hexVal c) 0

def isOctDigit (c : Char) : Bool := '0' ≤ c && c ≤ '7'

def octDigitsVal (ds : Str) : ℕ :=
  ds.foldl (fun acc c => 8 * acc + (c.toNat - '0'.toNat)) 0

def isBinDigit (c : Char) : Bool := c = '0' || c = '1'

def binDigitsVal (ds : Str) : ℕ :=
  ds.foldl (fun acc c => 2 * acc + (c.toNat - '0'.toNat)) 0

/-- Decimal literal after the optional sign: `digits ['.' digits] [e[±]digits]`,
with at least one digit in the integer-or-fraction part. -/
def parseDecimal (s : Str) : Option Frac :=
  let ipart := s.takeWhile isDigitCh
  let rest1 := s.drop ipart.length
  let withFrac :=
    match rest1 with
    | '.' :: r =>
      let fpart := r.takeWhile isDigitCh
      some (ipart, fpart, r.drop fpart.length)
    | _ => some (ipart, [], rest1)
  match withFrac with
  | some (ip, fp, rest2) =>
    if ip = [] ∧ fp = [] then none
    else
      let mant : ℤ := (digitsVal ip * 10 ^ fp.length + digitsVal fp : ℕ)
      let readExp : Option ℤ :=
        match rest2 with
        | [] => some 0
        | e :: r =>
          if e = 'e' ∨ e = 'E' then
            match r with
            | '+' :: d =>
              if d ≠ [] ∧ d.all isDigitCh then some (digitsVal d) else none
            | '-' :: d =>
              if d ≠ [] ∧ d.all isDigitCh then some (-(digitsVal d : ℤ)) else none
            | d =>
              if d ≠ [] ∧ d.all isDigitCh then some (digitsVal d) else none
          else none
      match readExp with
      | none => none
      | some ex =>
        let e' : ℤ := ex - fp.length
        if 0 ≤ e' then some (Frac.norm ⟨mant * 10 ^ e'.toNat, 1⟩)
        else some (Frac.norm ⟨mant, 10 ^ (-e').toNat⟩)
  | none => none

/-- `Number(token)` with the three distinguished values. -/
def jsNumberE (s : Str) : JSNum :=
  let t := jsTrim s
  if t = [] then .fin Frac.zero
  else
    let signed : Option Bool :=
      match t with
      | '+' :: _ => some false
      | '-' :: _ => some true
      | _ => none
    let body := match signed with
      | some _ => t.drop 1
      | none => t
    let core : Option JSNum :=
      if body = "Infinity".data then some .inf
      else
        match signed, body with
        | none, '0' :: x :: ds =>
          if (x = 'x' ∨ x = 'X') ∧ ds ≠ [] ∧ ds.all isHexDigit then
            some (.fin (Frac.ofInt (hexDigitsVal ds)))
          else if (x = 'o' ∨ x = 'O') ∧ ds ≠ [] ∧ ds.all isOctDigit then
            some (.fin (Frac.ofInt (octDigitsVal ds)))
          else if (x = 'b' ∨ x = 'B') ∧ ds ≠ [] ∧ ds.all isBinDigit then
            some (.fin (Frac.ofInt (binDigitsVal ds)))
          else (parseDecimal body).map .fin
        | _, _ => (parseDecimal body).map .fin
    match core, signed with
    | none, _ => .nan
    | some v, some true =>
      match v with
      | .inf => .ninf
      | .fin f => .fin (Frac.norm ⟨-f.num, f.den⟩)
      | x => x
    | some v, _ => v

/-! Basic sanity checks of the number model. -/

example : jsNumberE "3".data = .fin ⟨3, 1⟩ := by decide
example : jsNumberE "".data = .fin ⟨0, 1⟩ := by decide
example : jsNumberE "  12  ".data = .fin ⟨12, 1⟩ := by decide
example : jsNumberE "1.5".data = .fin ⟨3, 2⟩ := by decide
example : jsNumberE "-2.5e1".data = .fin ⟨-25, 1⟩ := by decide
example : jsNumberE "0x10".data = .fin ⟨16, 1⟩ := by decide
example : jsNumberE "-0x10".data = .nan := by decide
example : jsNumberE "Infinity".data = .inf := by decide
example : jsNumberE "-Infinity".data = .ninf := by decide
example : jsNumberE "NaN".data = .nan := by decide
example : jsNumberE "a".data = .nan := by decide
example : jsNumberE "1+2".data = .nan := by decide
example : fracToStr ⟨3, 1⟩ = "3".data := by decide
example : fracToStr ⟨-25, 2⟩ = "-12.5".data := by decide
example : (Frac.ofInt 3).sub (Frac.ofInt 1) = ⟨2, 1⟩ := by decide

namespace App

/-- `Number(value)` as used by the dialect engines.  The engines' number
model is exact finite rationals; the non-finite parses (`"Infinity"` and
friends), which no claim about the dialect engines involves, are folded into
the unresolvable (`NaN`) case `none`. -/
def jsNumber (s : Str) : Option Frac :=
  match jsNumberE s with
  | .fin f => some f
  | _ => none

/-- A Variable Store value: number, string, or list of numbers. -/
inductive TraceValue where
  | num (q : Frac)
  | str (s : Str)
  | list (l : List Frac)
  deriving DecidableEq, Repr

/-- Insertion-ordered map, as a JavaScript `Map` over string keys. -/
abbrev VarMap := List (Str × TraceValue)

def mapGet (vars : VarMap) (k : Str) : Option TraceValue :=
  match vars with
  | [] => none
  | (k', v) :: rest => if k' = k then some v else mapGet rest k

/-- `Map.prototype.set`: update in place if present, else append. -/
def mapSet (vars : VarMap) (k : Str) (v : TraceValue) : VarMap :=
  match vars with
  | [] => [(k, v)]
  | (k', v') :: rest =>
    if k' = k then (k', v) :: rest else (k', v') :: mapSet rest k v

def resolveNumericValue (value : Option TraceValue) : Frac :=
  match value with
  | some (TraceValue.num q) => q
  | some (TraceValue.str s) => (jsNumber s).getD Frac.zero
  | _ => Frac.zero

/-- Split `^([A-Za-z_]\w*)\[([^\]]+)\]$` into identifier and index text. -/
def arrayAccessSplit (s : Str) : Option (Str × Str) :=
  match takeIdent s with
  | some (id, '[' :: rest2) =>
    if rest2.takeWhile (fun c => c ≠ ']') ≠ [] ∧
        rest2.drop (rest2.takeWhile (fun c => c ≠ ']')).length = [']'] then
      some (id, rest2.takeWhile (fun c => c ≠ ']'))
    else none
  | _ => none

/-- Match `^len\((.+)\)$` (greedy:  everything between `len(` and the final
closing parenthesis). -/
def lenSplit (s : Str) : Option Str :=
  if "len(".data.isPrefixOf s ∧ s.getLast? = some ')' ∧ 6 ≤ s.length then
    some ((s.drop 4).dropLast)
  else none

theorem takeWhileLen {α : Type} (p : α → Bool) (l : List α) :
    (l.takeWhile p).length ≤ l.length := by
  induction l with
  | nil => simp
  | cons c rest ih =>
    by_cases hc : p c
    · simp only [List.takeWhile, hc]
      simpa using ih
    · simp only [List.takeWhile]
      rw [show p c = false from by simpa using hc]
      simp

theorem dropWhileLen {α : Type} (p : α → Bool) (l : List α) :
    (l.dropWhile p).length ≤ l.length := by
  induction l with
  | nil => simp
  | cons c rest ih =>
    by_cases hc : p c
    · simp only [List.dropWhile, hc]
      simp only [List.length_cons]
      omega
    · simp only [List.dropWhile]
      rw [show p c = false from by simpa using hc]

theorem jsTrim_length_le (s : Str) : (jsTrim s).length ≤ s.length := by
  unfold jsTrim
  calc ((s.dropWhile isJsSpace).reverse.dropWhile isJsSpace).reverse.length
      = ((s.dropWhile isJsSpace).reverse.dropWhile isJsSpace).length := by
        rw [List.length_reverse]
    _ ≤ (s.dropWhile isJsSpace).reverse.length := dropWhileLen _ _
    _ = (s.dropWhile isJsSpace).length := by rw [List.length_reverse]
    _ ≤ s.length := dropWhileLen _ _

theorem takeIdent_some (s : Str) (id rest : Str)
    (h : takeIdent s = some (id, rest)) : rest.length < s.length := by
  unfold takeIdent at h
  match s with
  | [] => simp at h
  | c :: r =>
    by_cases hc : isIdentStart c
    · simp only [hc, if_true] at h
      injection h with h
      injection h with h1 h2
      subst h2
      simp only [List.length_drop]
      have := takeWhileLen isWordChar r
      simp only [List.length_cons]
      omega
    · simp [hc] at h

theorem arrayAccessSplit_some (s id mid : Str)
    (h : arrayAccessSplit s = some (id, mid)) :
    (jsTrim mid).length < s.length := by
  unfold arrayAccessSplit at h
  split at h
  case _ id' rest2 hti =>
    split at h
    · injection h with h
      injection h with h1 h2
      subst h2
      have h3 := takeIdent_some s id' ('[' :: rest2) hti
      have h4 := takeWhileLen (fun c => c ≠ ']') rest2
      have h5 := jsTrim_length_le (rest2.takeWhile (fun c => c ≠ ']'))
      simp only [List.length_cons] at h3
      omega
    · simp at h
  case _ => simp at h

/-- `resolveNumeric` from `App.tsx`: numeric literal, `.length`/`.Length`,
`len(...)`, array indexing (recursive on the index expression), then plain
variable lookup; unresolvable input is `0`.  The fuel argument only drives
the structural recursion: the recursive call is on the strictly shorter index
expression (`arrayAccessSplit_some`), so `value.length` fuel always
suffices. -/
def resolveNumericF : ℕ → Str → VarMap → Frac
  | fuel, value, vars =>
    match jsNumber value with
    | some q => q
    | none =>
      let lengthHit : Option Frac :=
        match takeIdent value with
        | some (id, rest) =>
          if rest = ".length".data ∨ rest = ".Length".data then
            match mapGet vars id with
            | some (TraceValue.list l) => some (Frac.ofInt l.length)
            | _ => none
          else none
        | none => none
      match lengthHit with
      | some q => q
      | none =>
        let lenHit : Option Frac :=
          match lenSplit value with
          | some mid =>
            match mapGet vars (jsTrim mid) with
            | some (TraceValue.list l) => some (Frac.ofInt l.length)
            | _ => none
          | none => none
        match lenHit with
        | some q => q
        | none =>
          match arrayAccessSplit value with
          | some (id, mid) =>
            (match mapGet vars id with
            | some (TraceValue.list l) =>
              match fuel with
              | 0 => Frac.zero
              | fuel' + 1 =>
                let idx := (resolveNumericF fuel' (jsTrim mid) vars).floor
                if h : 0 ≤ idx ∧ idx.toNat < l.length then l.get ⟨idx.toNat, h.2⟩
                else Frac.zero
            | _ => resolveNumericValue (mapGet vars value))
          | none => resolveNumericValue (mapGet vars value)

def resolveNumeric (value : Str) (vars : VarMap) : Frac :=
  resolveNumericF value.length value vars

/-- The binary-operation payload returned by `parseBinary`. -/
structure BinOp where
  left : Str
  operator : Str
  right : Str
  result : Frac
  deriving DecidableEq, Repr

/-- The `op` payload stored in a trace entry (`BinOp` plus the target). -/
structure OpPayload where
  left : Str
  operator : Str
  right : Str
  result : Frac
  target : Str
  deriving DecidableEq, Repr

def isArithOp (c : Char) : Bool := c = '+' || c = '-' || c = '*' || c = '/'

/-- One backtracking attempt of `^(.+)\s*([+\-*/])\s*(.+)$` with the first
(greedy) group bound to `s.take k`. -/
def parseBinaryCheck (s : Str) (k : ℕ) : Option (Str × Char × Str) :=
  let j := k + ((s.drop k).takeWhile isJsSpace).length
  match s.get? j with
  | some c =>
    if isArithOp c ∧ j + 1 < s.length then some (s.take k, c, s.drop (j + 1))
    else none
  | none => none

/-- Backtracking search: the regex engine maximizes the first `(.+)` group,
so candidate group-1 lengths are tried from the largest down. -/
def parseBinaryGo (s : Str) : ℕ → Option (Str × Char × Str)
  | 0 => none
  | k + 1 =>
    match parseBinaryCheck s (k + 1) with
    | some r => some r
    | none => parseBinaryGo s k

/-- The split performed by `expr.match(/^(.+)\s*([+\-*\/])\s*(.+)$/)`. -/
def parseBinarySplit (s : Str) : Option (Str × Char × Str) :=
  parseBinaryGo s (s.length - 1)

def applyOperator (left right : Frac) (operator : Str) : Frac :=
  if operator = "+".data then left.add right
  else if operator = "-".data then left.sub right
  else if operator = "*".data then left.mul right
  else if operator = "/".data then
    if right.beq Frac.zero then left else left.div right
  else left

def parseBinary (expr : Str) (vars : VarMap) : Option BinOp :=
  match parseBinarySplit expr with
  | none => none
  | some (l, c, r) =>
    let leftRaw := jsTrim l
    let rightRaw := jsTrim r
    let leftValue := resolveNumeric leftRaw vars
    let rightValue := resolveNumeric rightRaw vars
    let result := applyOperator leftValue rightValue [c]
    some ⟨fracToStr leftValue, [c], fracToStr rightValue, result⟩

def comparatorList : List Str :=
  ["==".data, "!=".data, ">=".data, "<=".data, ">".data, "<".data]

/-- One backtracking attempt of `^(.+?)\s*(==|!=|>=|<=|>|<)\s*(.+)$` with the
first (lazy) group bound to `s.take k`; the alternation is tried in order. -/
def condCheck (s : Str) (k : ℕ) : Option (Str × Str × Str) :=
  let j := k + ((s.drop k).takeWhile isJsSpace).length
  (comparatorList.filter
    (fun op => op.isPrefixOf (s.drop j) ∧ j + op.length < s.length)).head?.map
    (fun op => (s.take k, op, s.drop (j + op.length)))

/-- Lazy search: candidate group-1 lengths from the smallest (1) up. -/
def condGo (s : Str) (k : ℕ) : ℕ → Option (Str × Str × Str)
  | 0 => none
  | fuel + 1 =>
    match condCheck s k with
    | some r => some r
    | none => condGo s (k + 1) fuel

def condSplit (s : Str) : Option (Str × Str × Str) := condGo s 1 s.length

def evaluateCondition (condition : Str) (vars : VarMap) : Bool :=
  match condSplit condition with
  | none => false
  | some (l, op, r) =>
    let left := resolveNumeric (jsTrim l) vars
    let right := resolveNumeric (jsTrim r) vars
    if op = "==".data then left.beq right
    else if op = "!=".data then !(left.beq right)
    else if op = ">".data then right.ltb left
    else if op = "<".data then left.ltb right
    else if op = ">=".data then right.leb left
    else if op = "<=".data then left.leb right
    else false

/-- `compare` from `App.tsx` (used by the Java engine's for-loop). -/
def compare (left right : Frac) (op : Str) : Bool :=
  if op = "<".data then left.ltb right
  else if op = "<=".data then left.leb right
  else if op = ">".data then right.ltb left
  else if op = ">=".data then right.leb left
  else if op = "==".data then left.beq right
  else if op = "!=".data then !(left.beq right)
  else false

def natToStr (n : ℕ) : Str := Nat.toDigits 10 n

def parseNumericList (content : Str) (vars : VarMap) : List Frac :=
  if content = [] then []
  else (splitOnChar ',' content).map (fun part => resolveNumeric (jsTrim part) vars)

/-- `^\[(.*)\]$` then `parseNumericList` on the trimmed middle. -/
def parseList (expr : Str) (vars : VarMap) : Option (List Frac) :=
  if 2 ≤ expr.length ∧ expr.head? = some '[' ∧ expr.getLast? = some ']' then
    some (parseNumericList (jsTrim ((expr.drop 1).dropLast)) vars)
  else none

/-- `parseJsArray` is textually the same matcher as `parseList`. -/
def parseJsArray (expr : Str) (vars : VarMap) : Option (List Frac) :=
  if 2 ≤ expr.length ∧ expr.head? = some '[' ∧ expr.getLast? = some ']' then
    some (parseNumericList (jsTrim ((expr.drop 1).dropLast)) vars)
  else none

def stringifyValue : TraceValue → Str
  | .list l =>
    if l.length ≤ 8 then
      ['['] ++ joinSep ", ".data (l.map fracToStr) ++ [']']
    else
      ['['] ++ joinSep ", ".data ((l.take 3).map fracToStr) ++ ", ..., ".data ++
        joinSep ", ".data ((l.drop (l.length - 2)).map fracToStr) ++ "] (".data ++
        natToStr l.length ++ " items)".data
  | .num q => fracToStr q
  | .str s => s

def formatState (state : VarMap) : Str :=
  if state.isEmpty then [lbrace, rbrace]
  else
    [lbrace, ' '] ++
      joinSep ", ".data
        (state.map (fun p => p.1 ++ ": ".data ++ stringifyValue p.2)) ++
      [' ', rbrace]

/-- `snapshotMap`: copy the live `Map` into a fresh `Record`, key by key, in
insertion order.  In this value-level model both are association lists and
the copy is the identity on contents; the object-identity consequences of
the copy are studied separately in the `SnapModel` section. -/
def snapshotMap (vars : VarMap) : VarMap := vars.map (fun p => p)

/-- Quote-aware splitting used by `splitArgs`/`splitPlus`: separators inside
single or double quotes do not split; pieces are trimmed; a trailing piece is
kept only when nonempty after trimming. -/
def splitQA (sep : Char) : Str → Bool → Bool → Str → List Str
  | [], _, _, current => if jsTrim current ≠ [] then [jsTrim current] else []
  | ch :: rest, inS, inD, current =>
    if ch = squote ∧ ¬inD then splitQA sep rest (!inS) inD (current ++ [ch])
    else if ch = '"' ∧ ¬inS then splitQA sep rest inS (!inD) (current ++ [ch])
    else if ch = sep ∧ ¬inS ∧ ¬inD then
      jsTrim current :: splitQA sep rest inS inD []
    else splitQA sep rest inS inD (current ++ [ch])

def splitArgs (input : Str) : List Str := splitQA ',' input false false []

def splitPlus (input : Str) : List Str := splitQA '+' input false false []

def isQuoteCh (c : Char) : Bool := c = '"' || c = squote

/-- `^["'](.*)["']$`. -/
def quotedMiddle (s : Str) : Option Str :=
  match s with
  | c :: rest =>
    if isQuoteCh c ∧ rest ≠ [] ∧ (rest.getLast?.map isQuoteCh).getD false then
      some rest.dropLast
    else none
  | [] => none

def renderValue (expr : Str) (vars : VarMap) : Str :=
  match quotedMiddle expr with
  | some mid => mid
  | none =>
    match parseList expr vars with
    | some l => ['['] ++ joinSep ", ".data (l.map fracToStr) ++ [']']
    | none =>
      match mapGet vars expr with
      | some v => stringifyValue v
      | none =>
        -- `Number.isNaN(numeric)` is never true in the exact model
        fracToStr (resolveNumeric expr vars)

/-- Replace the first occurrence of `%d`, `%s` or `%f`. -/
def replacePercent (s repl : Str) : Str :=
  match s with
  | [] => []
  | '%' :: c :: rest =>
    if c = 'd' ∨ c = 's' ∨ c = 'f' then repl ++ rest
    else '%' :: replacePercent (c :: rest) repl
  | c :: rest => c :: replacePercent rest repl

def renderPrintf (args : Str) (vars : VarMap) : Str :=
  let parts := splitArgs args
  match parts with
  | [] => []
  | p0 :: prest =>
    let format := renderValue p0 vars
    if ¬format.contains '%' then
      jsTrim (joinSep " ".data (format :: prest.map (fun p => renderValue p vars)))
    else
      let output := prest.foldl
        (fun out p => replacePercent out (renderValue p vars)) format
      jsTrim (removeAllSub [bslash, 'n'] output)

def renderConcatArg (expr : Str) (vars : VarMap) : Str :=
  let trimmed := jsTrim expr
  if trimmed.contains '+' then
    let parts := splitPlus trimmed
    if 1 < parts.length then
      (parts.map (fun p => renderValue p vars)).flatten
    else renderValue trimmed vars
  else renderValue trimmed vars

def renderConcatArgs (args : Str) (vars : VarMap) : Str :=
  jsTrim (joinSep " ".data ((splitArgs args).map (fun p => renderConcatArg p vars)))

def renderStream (expr : Str) (vars : VarMap) : Str :=
  let parts := (splitOnSub "<<".data expr).map jsTrim
  let filtered := parts.filter (fun p => p ≠ "std::endl".data)
  jsTrim (joinSep " ".data (filtered.map (fun p => renderValue p vars)))

def renderJavaPrint (expr : Str) (vars : VarMap) : Str :=
  ((splitPlus expr).map (fun p => renderValue (jsTrim p) vars)).flatten

/-- `renderCStylePrint`: the five print syntaxes, tried in source order. -/
def renderCStylePrint (text : Str) (vars : VarMap) : Str :=
  -- printf(...)
  if "printf(".data.isPrefixOf text ∧ ");".data.isSuffixOf text ∧ 9 ≤ text.length then
    renderPrintf ((text.drop 7).dropLast.dropLast) vars
  else if "Console.WriteLine(".data.isPrefixOf text ∧ ");".data.isSuffixOf text ∧
      20 ≤ text.length then
    renderConcatArgs ((text.drop 18).dropLast.dropLast) vars
  else if "Console.Write(".data.isPrefixOf text ∧ ");".data.isSuffixOf text ∧
      16 ≤ text.length then
    renderConcatArgs ((text.drop 14).dropLast.dropLast) vars
  else
    cppCase text
where
  cppCase (text : Str) : Str :=
    if "std::cout".data.isPrefixOf text then
      let t1 := skipSpaces (text.drop 9)
      if "<<".data.isPrefixOf t1 then
        let t2 := skipSpaces (t1.drop 2)
        if t2.getLast? = some ';' ∧ 2 ≤ t2.length then renderStream t2.dropLast vars
        else goCase text
      else goCase text
    else goCase text
  goCase (text : Str) : Str :=
    if "fmt.Print".data.isPrefixOf text then
      let afterP := text.drop 9
      let variant : Option (Str × Str) :=
        if "ln(".data.isPrefixOf afterP then some ("ln".data, afterP.drop 3)
        else if "f(".data.isPrefixOf afterP then some ("f".data, afterP.drop 2)
        else if "(".data.isPrefixOf afterP then some ([], afterP.drop 1)
        else none
      match variant with
      | some (v, inner) =>
        let mid : Option Str :=
          if ");".data.isSuffixOf inner ∧ 2 ≤ inner.length then
            some (inner.dropLast.dropLast)
          else if ")".data.isSuffixOf inner ∧ 1 ≤ inner.length then
            some inner.dropLast
          else none
        match mid with
        | some m => if v = "f".data then renderPrintf m vars else renderConcatArgs m vars
        | none => rustCase text
      | none => rustCase text
    else rustCase text
  rustCase (text : Str) : Str :=
    if "println!(".data.isPrefixOf text ∧ ");".data.isSuffixOf text ∧
        11 ≤ text.length then
      renderPrintf ((text.drop 9).dropLast.dropLast) vars
    else []

/-- Unanchored `pat\((.*)\)`: find the first occurrence of the literal call
prefix, then (greedy group) take everything up to the last `)` after it. -/
def extractCall (pat : Str) : Str → Option Str
  | [] => none
  | c :: rest =>
    if pat.isPrefixOf (c :: rest) then
      let after := (c :: rest).drop pat.length
      let tailLen := (after.reverse.takeWhile (fun x => x ≠ ')')).length
      if tailLen < after.length then some (after.take (after.length - tailLen - 1))
      else none
    else extractCall pat rest

/-- `/^print\b/`. -/
def startsPrintWord (s : Str) : Bool :=
  "print".data.isPrefixOf s &&
    (match s.drop 5 with
     | [] => true
     | c :: _ => !isWordChar c)

/-- `/\bprint\(/` (word boundary before `print(`). -/
def containsPrintCall : Str → Bool → Bool
  | [], _ => false
  | c :: rest, prevWord =>
    (¬prevWord ∧ "print(".data.isPrefixOf (c :: rest)) ∨
      containsPrintCall rest (isWordChar c)

/-- The generic engine's print-statement test:
`/^print\b|\bprint\(/.test(text) || /^console\.log/.test(text)`. -/
def isPrintLine (text : Str) : Bool :=
  startsPrintWord text ∨ containsPrintCall text false ∨
    "console.log".data.isPrefixOf text

/-- `^f["'](.*)["']$`. -/
def fStringMiddle (raw : Str) : Option Str :=
  match raw with
  | 'f' :: q :: rest =>
    if isQuoteCh q ∧ rest ≠ [] ∧ (rest.getLast?.map isQuoteCh).getD false then
      some rest.dropLast
    else none
  | _ => none

/-- Global replacement of `\{([^}]+)\}` spans inside an f-string (each step
consumes at least one character, so `s.length` fuel always suffices). -/
def fstringSubF (vars : VarMap) : ℕ → Str → Str
  | _, [] => []
  | 0, s => s
  | fuel + 1, c :: rest =>
    if c = lbrace then
      let inner := rest.takeWhile (fun x => x ≠ rbrace)
      if inner ≠ [] ∧ rest.drop inner.length ≠ [] then
        (let trimmed := jsTrim inner
         match mapGet vars trimmed with
         | some v => stringifyValue v
         | none =>
           -- `Number.isNaN` is never true in the exact model
           fracToStr (resolveNumeric trimmed vars)) ++
          fstringSubF vars fuel (rest.drop (inner.length + 1))
      else c :: fstringSubF vars fuel rest
    else c :: fstringSubF vars fuel rest

def fstringSub (vars : VarMap) (s : Str) : Str := fstringSubF vars s.length s

def resolvePrint (text : Str) (vars : VarMap) : Str :=
  let grp :=
    match extractCall "print(".data text with
    | some g => some g
    | none => extractCall "console.log(".data text
  match grp with
  | none => []
  | some g =>
    let raw := jsTrim g
    match fStringMiddle raw with
    | some content => fstringSub vars content
    | none =>
      let args := splitArgs raw
      joinSep " ".data
        ((args.map (fun a => renderValue a vars)).filter (fun v => 0 < v.length))

end App

section AppEvalChecks

example : App.parseBinarySplit "1+2+3".data = some ("1+2".data, '+', "3".data) := by
  decide

example : App.parseBinarySplit "a + b".data = some ("a ".data, '+', " b".data) := by
  decide

example : App.parseBinary "1+2+3".data [] =
    some ⟨"0".data, "+".data, "3".data, ⟨3, 1⟩⟩ := by decide

example : App.resolveNumeric "7".data [] = ⟨7, 1⟩ := by decide

example : App.resolveNumeric "xs.length".data
    [("xs".data, App.TraceValue.list [⟨1, 1⟩, ⟨2, 1⟩])] = ⟨2, 1⟩ := by decide

example : App.resolveNumeric "xs[1]".data
    [("xs".data, App.TraceValue.list [⟨1, 1⟩, ⟨5, 1⟩])] = ⟨5, 1⟩ := by decide

example : App.resolveNumeric "nope".data [] = ⟨0, 1⟩ := by decide

example : App.evaluateCondition "0 < 1".data [] = true := by decide

example : App.evaluateCondition "x > 3".data [("x".data, App.TraceValue.num ⟨5, 1⟩)] =
    true := by decide

example : App.applyOperator ⟨5, 1⟩ ⟨0, 1⟩ "/".data = ⟨5, 1⟩ := by decide

example : App.resolvePrint "print(f\"Sumando \x7bnum\x7d\")".data
    [("num".data, App.TraceValue.num ⟨10, 1⟩)] = "Sumando 10".data := by decide

example : App.renderCStylePrint "printf(\"Encontrado en %d\\n\", i);".data
    [("i".data, App.TraceValue.num ⟨3, 1⟩)] = "Encontrado en 3".data := by decide

end AppEvalChecks

namespace App

inductive Locale where
  | es
  | en
  deriving DecidableEq, Repr

def locSel (loc : Locale) (es en : Str) : Str :=
  match loc with
  | .es => es
  | .en => en

/-- The trace entry produced by the dialect engines (`VisualTraceEntry`). -/
structure VisualTraceEntry where
  step : ℕ
  line : Str
  state : Str
  note : Str
  action : Str
  before : VarMap
  after : VarMap
  outputsBefore : List Str
  outputsAfter : List Str
  outputLine : Option Str
  op : Option OpPayload
  deriving DecidableEq, Repr

/-- The mutable state threaded through one engine run: the live Variable
Store, the shared Output Log, the trace being built and the step counter. -/
structure EngSt where
  vars : VarMap
  outputs : List Str
  trace : List VisualTraceEntry
  step : ℕ
  deriving DecidableEq, Repr

def initSt : EngSt := ⟨[], [], [], 1⟩

/-- The engines' local `pushTrace`: append one entry carrying the current
step counter, then increment the counter.  All three dialect engines define
this helper with this same body. -/
def pushTrace (st : EngSt) (text action : Str) (before after : VarMap)
    (outputsBefore outputsAfter : List Str) (op : Option OpPayload)
    (outputLine : Option Str) : EngSt :=
  { st with
    trace := st.trace ++
      [{ step := st.step, line := text, state := formatState before,
         note := action, action := action, before := before, after := after,
         outputsBefore := outputsBefore, outputsAfter := outputsAfter,
         outputLine := outputLine, op := op }],
    step := st.step + 1 }

/-- `^([A-Za-z_]\w*)\s*([+\-*/])=\s*(.+)$`: target, operator, raw right side
(the caller trims the right side). -/
def assignOpSplit (text : Str) : Option (Str × Char × Str) :=
  match takeIdent text with
  | some (target, rest) =>
    (match skipSpaces rest with
    | c :: '=' :: r2 =>
      if isArithOp c ∧ r2 ≠ [] then some (target, c, r2) else none
    | _ => none)
  | none => none

/-- `\s*([A-Za-z_]\w*)\s*=\s*(.+)$` (the part after the optional keyword). -/
def assignSplitCore (s : Str) : Option (Str × Str) :=
  match takeIdent (skipSpaces s) with
  | some (target, rest) =>
    (match skipSpaces rest with
    | '=' :: r2 => if r2 ≠ [] then some (target, r2) else none
    | _ => none)
  | none => none

/-- `^(?:const|let|var)?\s*([A-Za-z_]\w*)\s*=\s*(.+)$` with the regex
engine's ordered backtracking over the optional keyword alternation. -/
def assignSplit (text : Str) : Option (Str × Str) :=
  match (if "const".data.isPrefixOf text then assignSplitCore (text.drop 5) else none) with
  | some r => some r
  | none =>
    match (if "let".data.isPrefixOf text then assignSplitCore (text.drop 3) else none) with
    | some r => some r
    | none =>
      match (if "var".data.isPrefixOf text then assignSplitCore (text.drop 3) else none) with
      | some r => some r
      | none => assignSplitCore text

/-- `^([A-Za-z_]\w*)\.reduce\(.+,\s*([^)]+)\)$`, returning the initial-value
argument text: the regex engine maximizes `.+`, hence takes the last comma
admitting a parenthesis-free final argument. -/
def reduceArgSplit (inner : Str) : Option Str :=
  ((List.range inner.length).reverse.filter
    (fun c => inner.get? c = some ',')).findSome? (fun c =>
    if 1 ≤ c then
      let after := inner.drop (c + 1)
      if after.getLast? = some ')' then
        let g := skipSpaces after.dropLast
        if g ≠ [] ∧ ¬g.contains ')' then some g else none
      else none
    else none)

def parseJsReduce (expr : Str) (vars : VarMap) : Option Frac :=
  match takeIdent expr with
  | some (listName, rest) =>
    if ".reduce(".data.isPrefixOf rest then
      match reduceArgSplit (rest.drop 8) with
      | some arg =>
        let initialValue := resolveNumeric (jsTrim arg) vars
        let list := match mapGet vars listName with
          | some (TraceValue.list l) => l
          | _ => []
        some (list.foldl
          (fun acc item => acc.add (resolveNumericValue (some (TraceValue.num item))))
          initialValue)
      | none => none
    else none
  | none => none

/-- `executeLine` of the generic (indentation) engine `buildGenericTrace`. -/
def genericExecuteLine (loc : Locale) (text : Str) (st : EngSt) : EngSt :=
  let before := snapshotMap st.vars
  let outputsBefore := st.outputs
  match assignOpSplit text with
  | some (target, operator, r2) =>
    let rightRaw := jsTrim r2
    let leftValue := resolveNumericValue (mapGet st.vars target)
    let rightValue := resolveNumeric rightRaw st.vars
    let result := applyOperator leftValue rightValue [operator]
    let st' := { st with vars := mapSet st.vars target (TraceValue.num result) }
    pushTrace st' text
      (locSel loc "Actualiza variable con operador".data "Updates variable with operator".data)
      before (snapshotMap st'.vars) outputsBefore st'.outputs
      (some ⟨fracToStr leftValue, [operator], fracToStr rightValue, result, target⟩)
      none
  | none =>
    match assignSplit text with
    | some (target, r2) =>
      let expr := jsTrim r2
      (match parseJsArray expr st.vars with
      | some jsList =>
        let st' := { st with vars := mapSet st.vars target (TraceValue.list jsList) }
        pushTrace st' text (locSel loc "Asignación de lista".data "List assignment".data)
          before (snapshotMap st'.vars) outputsBefore st'.outputs none none
      | none =>
        match parseJsReduce expr st.vars with
        | some reduceValue =>
          let st' := { st with vars := mapSet st.vars target (TraceValue.num reduceValue) }
          pushTrace st' text (locSel loc "Asignación (reduce)".data "Assignment (reduce)".data)
            before (snapshotMap st'.vars) outputsBefore st'.outputs none none
        | none =>
          match parseList expr st.vars with
          | some listValue =>
            let st' := { st with vars := mapSet st.vars target (TraceValue.list listValue) }
            pushTrace st' text (locSel loc "Asignación de lista".data "List assignment".data)
              before (snapshotMap st'.vars) outputsBefore st'.outputs none none
          | none =>
            let operation := parseBinary expr st.vars
            let result := match operation with
              | some o => o.result
              | none => resolveNumeric expr st.vars
            let st' := { st with vars := mapSet st.vars target (TraceValue.num result) }
            pushTrace st' text (locSel loc "Asignación".data "Assignment".data)
              before (snapshotMap st'.vars) outputsBefore st'.outputs
              (operation.map (fun o => ⟨o.left, o.operator, o.right, o.result, target⟩))
              none)
    | none =>
      if isPrintLine text then
        let out := resolvePrint text st.vars
        let st' := { st with outputs := st.outputs ++ [out] }
        pushTrace st' text (locSel loc "Salida".data "Output".data)
          before (snapshotMap st'.vars) outputsBefore st'.outputs none (some out)
      else
        pushTrace st text (locSel loc "Ejecución".data "Execution".data)
          before (snapshotMap st.vars) outputsBefore st.outputs none none

/-- A parsed Line Record of the generic engine. -/
structure PLine where
  raw : Str
  text : Str
  indent : ℕ
  deriving DecidableEq, Repr

/-- Tab expansion, `#`-comment stripping, indent measurement, trimming and
filtering, as in `buildGenericTrace`'s `parsed`. -/
def parseGenericLines (code : Str) : List PLine :=
  ((splitOnChar '\n' code).map (fun raw0 =>
    let raw := raw0.flatMap (fun ch => if ch = '\t' then "  ".data else [ch])
    let stripped := raw.takeWhile (fun ch => ch ≠ '#')
    let indent := (stripped.takeWhile isJsSpace).length
    let text := jsTrim stripped
    PLine.mk raw text indent)).filter
    (fun l => 0 < l.text.length ∧ ¬"//".data.isPrefixOf l.text)

/-- `findBlockEnd` (fuel-driven while loop; `lines.length` fuel always
suffices since the index grows by one per step). -/
def findBlockEndF (lines : List PLine) (parentIndent : ℕ) : ℕ → ℕ → ℕ
  | 0, index => index
  | fuel + 1, index =>
    match lines.get? index with
    | none => index
    | some l =>
      if l.indent ≤ parentIndent then index
      else findBlockEndF lines parentIndent fuel (index + 1)

def findBlockEnd (lines : List PLine) (start parentIndent : ℕ) : ℕ :=
  findBlockEndF lines parentIndent lines.length start

/-- `findElseIndex` (`-1` becomes `none`). -/
def findElseIndex (lines : List PLine) (start parentIndent : ℕ) : Option ℕ :=
  match lines.get? start with
  | some cand =>
    if cand.indent = parentIndent ∧ "else".data.isPrefixOf cand.text then some start
    else none
  | none => none

/-- `text.replace(/^if\s+/, '').replace(/:\s*$/, '')` for a line that starts
with `"if "`. -/
def stripColonSuffix (s : Str) : Str :=
  let rev := s.reverse
  let sp := rev.takeWhile isJsSpace
  match rev.drop sp.length with
  | ':' :: _ => s.take (s.length - sp.length - 1)
  | _ => s

def ifCondition (text : Str) : Str :=
  stripColonSuffix (skipSpaces (text.drop 2))

/-- `^for\s+([A-Za-z_]\w*)\s+in\s+range\((.+)\)\s*:\s*$`. -/
def forRangeSplit (text : Str) : Option (Str × Str) :=
  if "for".data.isPrefixOf text then
    match text.drop 3 with
    | c :: r1 =>
      if isJsSpace c then
        match takeIdent (skipSpaces r1) with
        | some (it, r2) =>
          (match r2 with
          | c2 :: r3 =>
            if isJsSpace c2 ∧ "in".data.isPrefixOf (skipSpaces r3) then
              (match (skipSpaces r3).drop 2 with
              | c3 :: r4 =>
                if isJsSpace c3 ∧ "range(".data.isPrefixOf (skipSpaces r4) then
                  let body := (skipSpaces r4).drop 6
                  let rev := body.reverse
                  let sp1 := rev.takeWhile isJsSpace
                  (match rev.drop sp1.length with
                  | ':' :: r5 =>
                    (match r5.dropWhile isJsSpace with
                    | ')' :: r6 => if r6 ≠ [] then some (it, r6.reverse) else none
                    | _ => none)
                  | _ => none)
                else none
              | [] => none)
            else none
          | [] => none)
        | none => none
      else none
    | [] => none
  else none

/-- `^for\s+([A-Za-z_]\w*)\s+in\s+([A-Za-z_]\w*)\s*:\s*$`. -/
def forListSplit (text : Str) : Option (Str × Str) :=
  if "for".data.isPrefixOf text then
    match text.drop 3 with
    | c :: r1 =>
      if isJsSpace c then
        match takeIdent (skipSpaces r1) with
        | some (it, r2) =>
          (match r2 with
          | c2 :: r3 =>
            if isJsSpace c2 ∧ "in".data.isPrefixOf (skipSpaces r3) then
              (match (skipSpaces r3).drop 2 with
              | c3 :: r4 =>
                if isJsSpace c3 then
                  match takeIdent (skipSpaces r4) with
                  | some (listName, r5) =>
                    (match skipSpaces r5 with
                    | ':' :: r6 => if skipSpaces r6 = [] then some (it, listName) else none
                    | _ => none)
                  | none => none
                else none
              | [] => none)
            else none
          | [] => none)
        | none => none
      else none
    | [] => none
  else none

def rangeLabel (loc : Locale) (it : Str) (i limit : ℕ) : Str :=
  locSel loc "Bucle ".data "Loop ".data ++ it ++ " = ".data ++ natToStr i ++
    " (".data ++ natToStr (i + 1) ++ "/".data ++ natToStr limit ++ ")".data

def listLabel (loc : Locale) (it : Str) (item : Frac) (i total : ℕ) : Str :=
  locSel loc "Bucle ".data "Loop ".data ++ it ++ " = ".data ++ fracToStr item ++
    " (".data ++ natToStr (i + 1) ++ "/".data ++ natToStr total ++ ")".data

def condLabel (loc : Locale) (result : Bool) : Str :=
  locSel loc
    ("Condición: ".data ++ (if result then "verdadero".data else "falso".data))
    ("Condition: ".data ++ (if result then "true".data else "false".data))

theorem findBlockEndF_ge (lines : List PLine) (pi : ℕ) (fuel index : ℕ) :
    index ≤ findBlockEndF lines pi fuel index := by
  induction fuel generalizing index with
  | zero => simp [findBlockEndF]
  | succ f ih =>
    rw [findBlockEndF]
    match lines.get? index with
    | none => simp
    | some l =>
      by_cases hl : l.indent ≤ pi
      · simp [hl]
      · simp only [hl, if_false]
        exact le_trans (by omega) (ih (index + 1))

theorem findBlockEnd_ge (lines : List PLine) (start pi : ℕ) :
    start ≤ findBlockEnd lines start pi :=
  findBlockEndF_ge lines pi lines.length start

theorem findElseIndex_some_eq (lines : List PLine) (start pi j : ℕ)
    (h : findElseIndex lines start pi = some j) : j = start := by
  unfold findElseIndex at h
  split at h
  · split at h
    · injection h with h
      omega
    · simp at h
  · simp at h

mutual

/-- `runBlock` of the generic engine: walk `[idx, endI)`, dispatching
conditionals, the two `for` forms and plain statements. -/
def genericRunBlock (P : List PLine) (loc : Locale) (idx endI : ℕ) (st : EngSt) :
    EngSt :=
  if h : idx < endI ∧ idx < P.length then
    let line := P.get ⟨idx, h.2⟩
    let nextIndex := idx + 1
    let blockEnd := findBlockEnd P nextIndex line.indent
    if "if ".data.isPrefixOf line.text then
      let condition := ifCondition line.text
      let result := evaluateCondition condition st.vars
      let before := snapshotMap st.vars
      let outputsBefore := st.outputs
      let st1 := pushTrace st line.text (condLabel loc result) before
        (snapshotMap st.vars) outputsBefore st.outputs none none
      if result then
        let st2 := genericRunBlock P loc nextIndex blockEnd st1
        match hElse : findElseIndex P blockEnd line.indent with
        | some elseIdx =>
          genericRunBlock P loc (findBlockEnd P (elseIdx + 1) line.indent) endI st2
        | none => genericRunBlock P loc blockEnd endI st2
      else
        match hElse : findElseIndex P blockEnd line.indent with
        | some elseIdx =>
          let elseBlockEnd := findBlockEnd P (elseIdx + 1) line.indent
          genericRunBlock P loc elseBlockEnd endI
            (genericRunBlock P loc (elseIdx + 1) elseBlockEnd st1)
        | none => genericRunBlock P loc blockEnd endI st1
    else
      match forRangeSplit line.text with
      | some (iter, boundRaw) =>
        let countValue := resolveNumeric (jsTrim boundRaw) st.vars
        let limit := (max 0 countValue.floor).toNat
        let st' := genericRangeIter P loc line.text iter limit nextIndex blockEnd 0 st
        genericRunBlock P loc blockEnd endI st'
      | none =>
        match forListSplit line.text with
        | some (iter, listName) =>
          let list := match mapGet st.vars listName with
            | some (TraceValue.list l) => l
            | _ => []
          let st' := genericListIter P loc line.text iter list.length nextIndex blockEnd
            list 0 st
          genericRunBlock P loc blockEnd endI st'
        | none =>
          genericRunBlock P loc (idx + 1) endI (genericExecuteLine loc line.text st)
  else st
termination_by ((P.length + 1) - idx, 0)
decreasing_by
  · apply Prod.Lex.left
    omega
  · apply Prod.Lex.left
    have h1 := findBlockEnd_ge P (idx + 1) (P.get ⟨idx, h.2⟩).indent
    have h2 := findElseIndex_some_eq P (findBlockEnd P (idx + 1) (P.get ⟨idx, h.2⟩).indent)
      (P.get ⟨idx, h.2⟩).indent _ hElse
    have h3 := findBlockEnd_ge P (elseIdx + 1) (P.get ⟨idx, h.2⟩).indent
    omega
  · apply Prod.Lex.left
    have h1 := findBlockEnd_ge P (idx + 1) (P.get ⟨idx, h.2⟩).indent
    omega
  · apply Prod.Lex.left
    have h1 := findBlockEnd_ge P (idx + 1) (P.get ⟨idx, h.2⟩).indent
    have h2 := findElseIndex_some_eq P (findBlockEnd P (idx + 1) (P.get ⟨idx, h.2⟩).indent)
      (P.get ⟨idx, h.2⟩).indent _ hElse
    omega
  · apply Prod.Lex.left
    have h1 := findBlockEnd_ge P (idx + 1) (P.get ⟨idx, h.2⟩).indent
    have h2 := findElseIndex_some_eq P (findBlockEnd P (idx + 1) (P.get ⟨idx, h.2⟩).indent)
      (P.get ⟨idx, h.2⟩).indent _ hElse
    have h3 := findBlockEnd_ge P (elseIdx + 1) (P.get ⟨idx, h.2⟩).indent
    omega
  · apply Prod.Lex.left
    have h1 := findBlockEnd_ge P (idx + 1) (P.get ⟨idx, h.2⟩).indent
    omega
  · apply Prod.Lex.left
    omega
  · apply Prod.Lex.left
    have h1 := findBlockEnd_ge P (idx + 1) (P.get ⟨idx, h.2⟩).indent
    omega
  · apply Prod.Lex.left
    omega
  · apply Prod.Lex.left
    have h1 := findBlockEnd_ge P (idx + 1) (P.get ⟨idx, h.2⟩).indent
    omega
  · apply Prod.Lex.left
    omega

/-- The range-loop iteration of `runBlock` (`for (let i = 0; i < limit; ...)`
in the source): bind the iterator, push the per-iteration entry, then run
the body. -/
def genericRangeIter (P : List PLine) (loc : Locale) (lineText iter : Str)
    (limit bodyStart bodyEnd : ℕ) (i : ℕ) (st : EngSt) : EngSt :=
  if hi : i < limit then
    let before := snapshotMap st.vars
    let outputsBefore := st.outputs
    let stV := { st with vars := mapSet st.vars iter (TraceValue.num (Frac.ofInt i)) }
    let st1 := pushTrace stV lineText (rangeLabel loc iter i limit) before
      (snapshotMap stV.vars) outputsBefore stV.outputs none none
    let st2 := genericRunBlock P loc bodyStart bodyEnd st1
    genericRangeIter P loc lineText iter limit bodyStart bodyEnd (i + 1) st2
  else st
termination_by ((P.length + 1) - bodyStart, (limit - i) + 1)
decreasing_by
  · apply Prod.Lex.right
    omega
  · apply Prod.Lex.right
    omega

/-- The collection-loop iteration of `runBlock`. -/
def genericListIter (P : List PLine) (loc : Locale) (lineText iter : Str)
    (total bodyStart bodyEnd : ℕ) (items : List Frac) (i : ℕ) (st : EngSt) :
    EngSt :=
  match items with
  | [] => st
  | item :: rest =>
    let before := snapshotMap st.vars
    let outputsBefore := st.outputs
    let stV := { st with vars := mapSet st.vars iter (TraceValue.num item) }
    let st1 := pushTrace stV lineText (listLabel loc iter item i total) before
      (snapshotMap stV.vars) outputsBefore stV.outputs none none
    let st2 := genericRunBlock P loc bodyStart bodyEnd st1
    genericListIter P loc lineText iter total bodyStart bodyEnd rest (i + 1) st2
termination_by ((P.length + 1) - bodyStart, items.length + 1)
decreasing_by
  · apply Prod.Lex.right
    simp only [List.length_cons]
    omega
  · apply Prod.Lex.right
    simp only [List.length_cons]
    omega

end

theorem genericRunBlock_stop (P : List PLine) (loc : Locale) (idx endI : ℕ)
    (st : EngSt) (h : ¬(idx < endI ∧ idx < P.length)) :
    genericRunBlock P loc idx endI st = st := by
  rw [genericRunBlock.eq_def, dif_neg h]

theorem genericRunBlock_execute (P : List PLine) (loc : Locale) (idx endI : ℕ)
    (st : EngSt) (h : idx < endI ∧ idx < P.length)
    (h1 : ¬"if ".data.isPrefixOf (P.get ⟨idx, h.2⟩).text = true)
    (h2 : forRangeSplit (P.get ⟨idx, h.2⟩).text = none)
    (h3 : forListSplit (P.get ⟨idx, h.2⟩).text = none) :
    genericRunBlock P loc idx endI st =
      genericRunBlock P loc (idx + 1) endI
        (genericExecuteLine loc (P.get ⟨idx, h.2⟩).text st) := by
  rw [genericRunBlock.eq_def, dif_pos h]
  simp only [h1, Bool.false_eq_true, if_false, h2, h3]

theorem genericRunBlock_range (P : List PLine) (loc : Locale) (idx endI : ℕ)
    (st : EngSt) (h : idx < endI ∧ idx < P.length) (iter boundRaw : Str)
    (h1 : ¬"if ".data.isPrefixOf (P.get ⟨idx, h.2⟩).text = true)
    (h2 : forRangeSplit (P.get ⟨idx, h.2⟩).text = some (iter, boundRaw)) :
    genericRunBlock P loc idx endI st =
      genericRunBlock P loc (findBlockEnd P (idx + 1) (P.get ⟨idx, h.2⟩).indent) endI
        (genericRangeIter P loc (P.get ⟨idx, h.2⟩).text iter
          ((max 0 (resolveNumeric (jsTrim boundRaw) st.vars).floor).toNat)
          (idx + 1) (findBlockEnd P (idx + 1) (P.get ⟨idx, h.2⟩).indent) 0 st) := by
  rw [genericRunBlock.eq_def, dif_pos h]
  simp only [h1, Bool.false_eq_true, if_false, h2]

/-- `buildGenericTrace`. -/
def buildGenericTrace (code : Str) (loc : Locale) : List VisualTraceEntry :=
  let parsed := parseGenericLines code
  (genericRunBlock parsed loc 0 parsed.length initSt).trace

end App

namespace App

/-- Remove a `//` line comment (from the first occurrence to end of line). -/
def takeUntilSub (pat : Str) : Str → Str
  | [] => []
  | c :: rest => if pat.isPrefixOf (c :: rest) then [] else c :: takeUntilSub pat rest

/-- Line preprocessing of `buildCStyleTrace`: strip `//` comments, trim,
drop empty lines and the listed header lines. -/
def parseCStyleLines (code : Str) : List Str :=
  (((splitOnChar '\n' code).map
    (fun line => jsTrim (takeUntilSub "//".data line))).filter
    (fun l => 0 < l.length)).filter
    (fun l =>
      ¬"package ".data.isPrefixOf l ∧ ¬"import ".data.isPrefixOf l ∧
      ¬"func main()".data.isPrefixOf l ∧ ¬"fn main()".data.isPrefixOf l)

/-- Insertion-ordered `Map<number, number>` update. -/
def natMapSet (m : List (ℕ × ℕ)) (k v : ℕ) : List (ℕ × ℕ) :=
  match m with
  | [] => [(k, v)]
  | (k', v') :: rest =>
    if k' = k then (k', v) :: rest else (k', v') :: natMapSet rest k v

def braceMapGet (m : List (ℕ × ℕ)) (k : ℕ) : Option ℕ :=
  match m with
  | [] => none
  | (k', v) :: rest => if k' = k then some v else braceMapGet rest k

/-- One line of the brace scan (a left fold over the line's characters):
push the line index for `{`, pop and map for `}` (unmatched closers leave
the stack unchanged). -/
def braceScanLine (index : ℕ) : Str → (List ℕ × List (ℕ × ℕ)) →
    List ℕ × List (ℕ × ℕ)
  | [], acc => acc
  | ch :: rest, acc =>
    if ch = lbrace then braceScanLine index rest (index :: acc.1, acc.2)
    else if ch = rbrace then
      match acc.1 with
      | [] => braceScanLine index rest acc
      | o :: strest => braceScanLine index rest (strest, natMapSet acc.2 o index)
    else braceScanLine index rest acc

def braceScan : List Str → ℕ → (List ℕ × List (ℕ × ℕ)) → List (ℕ × ℕ)
  | [], _, acc => acc.2
  | l :: rest, i, acc => braceScan rest (i + 1) (braceScanLine i l acc)

theorem braceScanLine_cons (index : ℕ) (ch : Char) (rest : Str)
    (acc : List ℕ × List (ℕ × ℕ)) :
    braceScanLine index (ch :: rest) acc =
      if ch = lbrace then braceScanLine index rest (index :: acc.1, acc.2)
      else if ch = rbrace then
        (match acc.1 with
        | [] => braceScanLine index rest acc
        | o :: strest => braceScanLine index rest (strest, natMapSet acc.2 o index))
      else braceScanLine index rest acc := rfl

/-- The single forward scan building the open-brace → close-brace line map. -/
def buildBraceMap (lines : List Str) : List (ℕ × ℕ) :=
  braceScan lines 0 ([], [])

theorem natMapSet_get (m : List (ℕ × ℕ)) (k v k' : ℕ) :
    braceMapGet (natMapSet m k v) k' =
      if k' = k then some v else braceMapGet m k' := by
  induction m with
  | nil =>
    by_cases hk : k' = k
    · simp [natMapSet, braceMapGet, hk]
    · simp [natMapSet, braceMapGet, hk, Ne.symm hk]
  | cons p rest ih =>
    obtain ⟨a, b⟩ := p
    by_cases hak : a = k
    · subst hak
      by_cases hk : k' = a
      · subst hk
        simp [natMapSet, braceMapGet]
      · simp [natMapSet, braceMapGet, hk, Ne.symm hk]
    · by_cases hka : a = k'
      · subst hka
        simp [natMapSet, braceMapGet, hak]
      · simp [natMapSet, braceMapGet, hak, hka, ih]

/-- Every pair recorded by the brace scan has its opener at or before its
closer (openers on the stack are at or before the current index). -/
theorem braceScan_le (lines : List Str) (i : ℕ) (stack : List ℕ)
    (bmap : List (ℕ × ℕ))
    (hstack : ∀ s ∈ stack, s ≤ i)
    (hmap : ∀ k v, braceMapGet bmap k = some v → k ≤ v) :
    ∀ k v, braceMapGet (braceScan lines i (stack, bmap)) k = some v → k ≤ v := by
  induction lines generalizing i stack bmap with
  | nil => exact fun k v h => hmap k v h
  | cons l rest ih =>
    intro k v h
    rw [braceScan] at h
    have main : ∀ (cs : Str) (st : List ℕ) (bm : List (ℕ × ℕ)),
        (∀ s ∈ st, s ≤ i) → (∀ k v, braceMapGet bm k = some v → k ≤ v) →
        (∀ s ∈ (braceScanLine i cs (st, bm)).1, s ≤ i) ∧
          (∀ k v, braceMapGet (braceScanLine i cs (st, bm)).2 k = some v → k ≤ v) := by
      intro cs
      induction cs with
      | nil => intro st bm h1 h2; exact ⟨h1, h2⟩
      | cons c cr ihc =>
        intro st bm h1 h2
        rw [braceScanLine_cons]
        by_cases hc : c = lbrace
        · rw [if_pos hc]
          refine ihc (i :: st) bm ?_ h2
          intro s hs
          cases hs with
          | head => omega
          | tail _ h => exact h1 s h
        · rw [if_neg hc]
          by_cases hr : c = rbrace
          · rw [if_pos hr]
            match hst : st with
            | [] =>
              exact ihc [] bm (by intro s hs; simp at hs) h2
            | o :: strest =>
              subst hst
              refine ihc strest (natMapSet bm o i)
                (fun s hs => h1 s (by simp [hs])) ?_
              intro k v hkv
              rw [natMapSet_get] at hkv
              by_cases hko : k = o
              · subst hko
                rw [if_pos rfl] at hkv
                injection hkv with hkv
                have := h1 k (by simp)
                omega
              · rw [if_neg hko] at hkv
                exact h2 k v hkv
          · rw [if_neg hr]
            exact ihc st bm h1 h2
    obtain ⟨hs', hm'⟩ := main l stack bmap hstack hmap
    have hcast : braceScanLine i l (stack, bmap) =
        ((braceScanLine i l (stack, bmap)).1, (braceScanLine i l (stack, bmap)).2) := by
      rfl
    rw [hcast] at h
    exact ih (i + 1) _ _ (fun s hs => le_trans (hs' s hs) (by omega)) hm' k v h

theorem buildBraceMap_le (lines : List Str) (k v : ℕ)
    (h : braceMapGet (buildBraceMap lines) k = some v) : k ≤ v :=
  braceScan_le lines 0 [] [] (by simp) (by simp [braceMapGet]) k v h

/-- JavaScript template interpolation of a possibly-missing store value
(arrays interpolate as their comma join). -/
def jsInterp : Option TraceValue → Str
  | some (TraceValue.num q) => fracToStr q
  | some (TraceValue.str s) => s
  | some (TraceValue.list l) => joinSep ",".data (l.map fracToStr)
  | none => "undefined".data

/-- The trimmed third group of the lazy tail `\s*(.+?);?$` (the lazy group
plus the optional semicolon drop exactly one trailing `;` when the remainder
has one). `none` when there is no character for `(.+?)`. -/
def lazySemiSplit (r2 : Str) : Option Str :=
  if r2 = [] then none
  else
    let sp := skipSpaces r2
    let g := if sp.getLast? = some ';' ∧ 2 ≤ sp.length then sp.dropLast else sp
    some (jsTrim g)

/-- `^([A-Za-z_]\w*)\s*([+\-*/])=\s*(.+?);?$`. -/
def compoundSplit (text : Str) : Option (Str × Char × Str) :=
  match takeIdent text with
  | some (target, rest) =>
    (match skipSpaces rest with
    | c :: '=' :: r2 =>
      if isArithOp c then
        match lazySemiSplit r2 with
        | some g => some (target, c, g)
        | none => none
      else none
    | _ => none)
  | none => none

/-- `^([A-Za-z_]\w*)\s*\+\+;$` (and the `--;` analogue). -/
def incDecSplit (opc : Char) (text : Str) : Option Str :=
  match takeIdent text with
  | some (target, rest) =>
    if skipSpaces rest = [opc, opc, ';'] then some target else none
  | none => none

/-- `^([A-Za-z_]\w*)\s*:=\s*(.+?);?$`. -/
def goDeclSplit (text : Str) : Option (Str × Str) :=
  match takeIdent text with
  | some (target, rest) =>
    (match skipSpaces rest with
    | ':' :: '=' :: r2 =>
      (match lazySemiSplit r2 with
      | some g => some (target, g)
      | none => none)
    | _ => none)
  | none => none

/-- `^\[\]\w+\s*\{(.*)\}$` (Go slice literal). -/
def sliceSplit (expr : Str) : Option Str :=
  if "[]".data.isPrefixOf expr then
    let w := (expr.drop 2).takeWhile isWordChar
    if w ≠ [] then
      match skipSpaces ((expr.drop 2).drop w.length) with
      | c :: rest2 =>
        if c = lbrace ∧ rest2.getLast? = some rbrace then some rest2.dropLast
        else none
      | [] => none
    else none
  else none

/-- The tail `([A-Za-z_]\w*)\s*=\s*(.+?);$` of the Rust declaration: the
lazy group plus the mandatory semicolon take everything before a final `;`. -/
def rustDeclCore (s : Str) : Option (Str × Str) :=
  match takeIdent s with
  | some (target, rest) =>
    (match skipSpaces rest with
    | '=' :: r2 =>
      let g := skipSpaces r2
      if g.getLast? = some ';' ∧ 2 ≤ g.length then some (target, jsTrim g.dropLast)
      else none
    | _ => none)
  | none => none

/-- `^let\s+(?:mut\s+)?([A-Za-z_]\w*)\s*=\s*(.+?);$` with ordered
backtracking over the optional `mut`. -/
def rustDeclSplit (text : Str) : Option (Str × Str) :=
  if "let".data.isPrefixOf text then
    match text.drop 3 with
    | c :: r1 =>
      if isJsSpace c then
        let s1 := skipSpaces r1
        let withMut : Option (Str × Str) :=
          if "mut".data.isPrefixOf s1 then
            match s1.drop 3 with
            | c2 :: r2 => if isJsSpace c2 then rustDeclCore (skipSpaces r2) else none
            | [] => none
          else none
        match withMut with
        | some r => some r
        | none => rustDeclCore s1
      else none
    | [] => none
  else none

/-- `^vec!\[(.*)\]$`. -/
def vecSplit (expr : Str) : Option Str :=
  if "vec![".data.isPrefixOf expr ∧ expr.getLast? = some ']' ∧ 6 ≤ expr.length then
    some ((expr.drop 5).dropLast)
  else none

def cTypeKw : List Str := ["int".data, "long".data, "float".data, "double".data]

def declTypeKw : List Str :=
  ["int".data, "long".data, "float".data, "double".data, "var".data, "let".data,
   "auto".data]

/-- After the type keyword of the C array initialization:
`\s*(?:\[\])?\s+([A-Za-z_]\w*)(?:\[\])?\s*=\s*\{([^}]+)\};$`. -/
def arrayInitAfterKw (s : Str) : Option (Str × Str) :=
  let attempt : Str → Option (Str × Str) := fun afterSp =>
    match afterSp with
    | c :: r =>
      if isJsSpace c then
        match takeIdent (skipSpaces r) with
        | some (target, rest) =>
          let restNoBrk :=
            if "[]".data.isPrefixOf rest then some (rest.drop 2) else none
          let tailOf : Str → Option (Str × Str) := fun rr =>
            match skipSpaces rr with
            | '=' :: r2 =>
              (match skipSpaces r2 with
              | b :: inner =>
                if b = lbrace ∧ "\x7d;".data.isSuffixOf inner ∧ 3 ≤ inner.length then
                  let content := inner.dropLast.dropLast
                  if content ≠ [] ∧ ¬content.contains rbrace then
                    some (target, content)
                  else none
                else none
              | [] => none)
            | _ => none
          (match restNoBrk with
          | some rr =>
            (match tailOf rr with
            | some res => some res
            | none => tailOf rest)
          | none => tailOf rest)
        | none => none
      else none
    | [] => none
  let sp := skipSpaces s
  if "[]".data.isPrefixOf sp then
    match attempt (sp.drop 2) with
    | some r => some r
    | none => attempt s
  else attempt s

/-- `^(?:int|long|float|double)\s*(?:\[\])?\s+...` array initialization. -/
def arrayInitSplit (text : Str) : Option (Str × Str) :=
  cTypeKw.findSome? (fun kw =>
    if kw.isPrefixOf text then arrayInitAfterKw (text.drop kw.length) else none)

/-- `^(?:int|long|float|double|var|let|auto)\s+([A-Za-z_]\w*)\s*=\s*(.+);$`. -/
def declAssignSplit (text : Str) : Option (Str × Str) :=
  declTypeKw.findSome? (fun kw =>
    if kw.isPrefixOf text then
      match text.drop kw.length with
      | c :: r =>
        if isJsSpace c then
          match takeIdent (skipSpaces r) with
          | some (target, rest) =>
            (match skipSpaces rest with
            | '=' :: r2 =>
              let g := skipSpaces r2
              if g.getLast? = some ';' ∧ 2 ≤ g.length then
                some (target, jsTrim g.dropLast)
              else none
            | _ => none)
          | none => none
        else none
      | [] => none
    else none)

/-- `^([A-Za-z_]\w*)\s*=\s*(.+?);?$`. -/
def plainAssignSplit (text : Str) : Option (Str × Str) :=
  match takeIdent text with
  | some (target, rest) =>
    (match skipSpaces rest with
    | '=' :: r2 =>
      (match lazySemiSplit r2 with
      | some g => some (target, g)
      | none => none)
    | _ => none)
  | none => none

/-- `executeLine` of `buildCStyleTrace`. -/
def cstyleExecuteLine (loc : Locale) (text : Str) (st : EngSt) : EngSt :=
  let before := snapshotMap st.vars
  let outputsBefore := st.outputs
  match compoundSplit text with
  | some (target, operator, rightTrimmed) =>
    let rightValue := resolveNumeric rightTrimmed st.vars
    let leftValue := resolveNumericValue (mapGet st.vars target)
    let result := applyOperator leftValue rightValue [operator]
    let st' := { st with vars := mapSet st.vars target (TraceValue.num result) }
    pushTrace st' text (locSel loc "Actualiza variable".data "Update variable".data)
      before (snapshotMap st'.vars) outputsBefore st'.outputs
      (some ⟨fracToStr leftValue, [operator], fracToStr rightValue, result, target⟩)
      none
  | none =>
    match incDecSplit '+' text with
    | some target =>
      let leftValue := resolveNumericValue (mapGet st.vars target)
      let result := leftValue.add Frac.one
      let st' := { st with vars := mapSet st.vars target (TraceValue.num result) }
      pushTrace st' text (locSel loc "Incremento".data "Increment".data)
        before (snapshotMap st'.vars) outputsBefore st'.outputs
        (some ⟨fracToStr leftValue, "+".data, "1".data, result, target⟩) none
    | none =>
      match incDecSplit '-' text with
      | some target =>
        let leftValue := resolveNumericValue (mapGet st.vars target)
        let result := leftValue.sub Frac.one
        let st' := { st with vars := mapSet st.vars target (TraceValue.num result) }
        pushTrace st' text (locSel loc "Decremento".data "Decrement".data)
          before (snapshotMap st'.vars) outputsBefore st'.outputs
          (some ⟨fracToStr leftValue, "-".data, "1".data, result, target⟩) none
      | none =>
        match goDeclSplit text with
        | some (target, expr) =>
          (match sliceSplit expr with
          | some mid =>
            let list := parseNumericList (jsTrim mid) st.vars
            let st' := { st with vars := mapSet st.vars target (TraceValue.list list) }
            pushTrace st' text
              (locSel loc "Declaración de lista".data "List declaration".data)
              before (snapshotMap st'.vars) outputsBefore st'.outputs none none
          | none =>
            let result := resolveNumeric expr st.vars
            let st' := { st with vars := mapSet st.vars target (TraceValue.num result) }
            pushTrace st' text
              (locSel loc "Declaración y asignación".data "Declaration and assignment".data)
              before (snapshotMap st'.vars) outputsBefore st'.outputs none none)
        | none =>
          match rustDeclSplit text with
          | some (target, expr) =>
            (match vecSplit expr with
            | some mid =>
              let list := parseNumericList (jsTrim mid) st.vars
              let st' := { st with vars := mapSet st.vars target (TraceValue.list list) }
              pushTrace st' text
                (locSel loc "Declaración de vector".data "Vector declaration".data)
                before (snapshotMap st'.vars) outputsBefore st'.outputs none none
            | none =>
              let result := resolveNumeric expr st.vars
              let st' := { st with vars := mapSet st.vars target (TraceValue.num result) }
              pushTrace st' text
                (locSel loc "Declaración y asignación".data "Declaration and assignment".data)
                before (snapshotMap st'.vars) outputsBefore st'.outputs none none)
          | none =>
            match arrayInitSplit text with
            | some (target, content) =>
              let list := parseNumericList (jsTrim content) st.vars
              let st' := { st with vars := mapSet st.vars target (TraceValue.list list) }
              pushTrace st' text
                (locSel loc "Declaración de array".data "Array declaration".data)
                before (snapshotMap st'.vars) outputsBefore st'.outputs none none
            | none =>
              match declAssignSplit text with
              | some (target, expr) =>
                (match arrayAccessSplit expr with
                | some (arrName, idxRaw) =>
                  (match mapGet st.vars arrName with
                  | some (TraceValue.list l) =>
                    let index := (resolveNumeric (jsTrim idxRaw) st.vars).floor
                    let value :=
                      if h : 0 ≤ index ∧ index.toNat < l.length then
                        l.get ⟨index.toNat, h.2⟩
                      else Frac.zero
                    let st' :=
                      { st with vars := mapSet st.vars target (TraceValue.num value) }
                    pushTrace st' text
                      (locSel loc "Declaración y asignación desde array".data
                        "Declaration and assignment from array".data)
                      before (snapshotMap st'.vars) outputsBefore st'.outputs none none
                  | _ => cstyleDeclAssignTail loc text st before outputsBefore target expr)
                | none => cstyleDeclAssignTail loc text st before outputsBefore target expr)
              | none =>
                match plainAssignSplit text with
                | some (target, expr) =>
                  (match arrayAccessSplit expr with
                  | some (arrName, idxRaw) =>
                    (match mapGet st.vars arrName with
                    | some (TraceValue.list l) =>
                      let index := (resolveNumeric (jsTrim idxRaw) st.vars).floor
                      let value :=
                        if h : 0 ≤ index ∧ index.toNat < l.length then
                          l.get ⟨index.toNat, h.2⟩
                        else Frac.zero
                      let st' :=
                        { st with vars := mapSet st.vars target (TraceValue.num value) }
                      pushTrace st' text
                        (locSel loc "Asignación desde array".data
                          "Assignment from array".data)
                        before (snapshotMap st'.vars) outputsBefore st'.outputs none none
                    | _ => cstylePlainAssignTail loc text st before outputsBefore target expr)
                  | none => cstylePlainAssignTail loc text st before outputsBefore target expr)
                | none =>
                  let out := renderCStylePrint text st.vars
                  if out ≠ [] then
                    let st' := { st with outputs := st.outputs ++ [out] }
                    pushTrace st' text (locSel loc "Salida".data "Output".data)
                      before (snapshotMap st'.vars) outputsBefore st'.outputs none
                      (some out)
                  else
                    pushTrace st text (locSel loc "Ejecución".data "Execution".data)
                      before (snapshotMap st.vars) outputsBefore st.outputs none none
where
  cstyleDeclAssignTail (loc : Locale) (text : Str) (st : EngSt) (before : VarMap)
      (outputsBefore : List Str) (target expr : Str) : EngSt :=
    let result := resolveNumeric expr st.vars
    let st' := { st with vars := mapSet st.vars target (TraceValue.num result) }
    pushTrace st' text
      (locSel loc "Declaración y asignación".data "Declaration and assignment".data)
      before (snapshotMap st'.vars) outputsBefore st'.outputs none none
  cstylePlainAssignTail (loc : Locale) (text : Str) (st : EngSt) (before : VarMap)
      (outputsBefore : List Str) (target expr : Str) : EngSt :=
    let operation := parseBinary expr st.vars
    let result := match operation with
      | some o => o.result
      | none => resolveNumeric expr st.vars
    let st' := { st with vars := mapSet st.vars target (TraceValue.num result) }
    pushTrace st' text (locSel loc "Asignación".data "Assignment".data)
      before (snapshotMap st'.vars) outputsBefore st'.outputs
      (operation.map (fun o => ⟨o.left, o.operator, o.right, o.result, target⟩)) none

end App

namespace App

/-- `line.replace(/^if\s*\(/, '')`. -/
def stripIfParen (line : Str) : Str :=
  if "if".data.isPrefixOf line then
    match skipSpaces (line.drop 2) with
    | '(' :: rest => rest
    | _ => line
  else line

/-- `.replace(/\)\s*\{?$/, '')`: strip a trailing `)` possibly followed by
spaces and one `{`; no change when the pattern is absent. -/
def stripParenSuffix (s : Str) : Str :=
  let rev := s.reverse
  let rev1 := match rev with
    | c :: r => if c = lbrace then r else rev
    | [] => rev
  let rev2 := rev1.dropWhile isJsSpace
  match rev2 with
  | ')' :: r => r.reverse
  | _ => s

/-- `findElseBlock` of the brace engines: the close line itself (when it
contains `else`) or the following line (when it starts with `else`), with
the else body delimited by that line's brace-map entry. -/
def findElseBlock (L : List Str) (bmap : List (ℕ × ℕ)) (ifEndIndex : ℕ) :
    Option (ℕ × ℕ) :=
  let sameLine := (L.get? ifEndIndex).getD []
  let elseLineIndex : Option ℕ :=
    if containsSub sameLine "else".data then some ifEndIndex
    else if "else".data.isPrefixOf ((L.get? (ifEndIndex + 1)).getD []) then
      some (ifEndIndex + 1)
    else none
  match elseLineIndex with
  | none => none
  | some eli =>
    match braceMapGet bmap eli with
    | none => none
    | some elseEnd => some (eli + 1, elseEnd)

theorem findElseBlock_some (L : List Str) (bmap : List (ℕ × ℕ))
    (hb : ∀ k v, braceMapGet bmap k = some v → k ≤ v) (ifEnd estart eend : ℕ)
    (h : findElseBlock L bmap ifEnd = some (estart, eend)) :
    ifEnd < estart ∧ ifEnd ≤ eend ∧ estart ≤ eend + 1 := by
  unfold findElseBlock at h
  by_cases h1 : containsSub ((L.get? ifEnd).getD []) "else".data = true
  · simp only [h1, if_true] at h
    match hbm : braceMapGet bmap ifEnd with
    | none => rw [hbm] at h; simp at h
    | some elseEnd =>
      rw [hbm] at h
      injection h with h
      injection h with h1' h2'
      have := hb _ _ hbm
      omega
  · simp only [h1, Bool.false_eq_true, if_false] at h
    by_cases h2 : "else".data.isPrefixOf ((L.get? (ifEnd + 1)).getD []) = true
    · simp only [h2, if_true] at h
      match hbm : braceMapGet bmap (ifEnd + 1) with
      | none => rw [hbm] at h; simp at h
      | some elseEnd =>
        rw [hbm] at h
        injection h with h
        injection h with h1' h2'
        have := hb _ _ hbm
        omega
    · simp only [h2, Bool.false_eq_true, if_false] at h
      simp at h

theorem braceGetD_ge (bmap : List (ℕ × ℕ))
    (hb : ∀ k v, braceMapGet bmap k = some v → k ≤ v) (idx : ℕ) :
    idx ≤ (braceMapGet bmap idx).getD idx := by
  match h : braceMapGet bmap idx with
  | none => simp
  | some v => simpa using hb _ _ h

/-- `^for\s*\((.+);(.+);(.+)\)\s*\{?$`, the three-clause split: the
greedy groups make the engine split at the last two admissible
semicolons. -/
def cForSplit (text : Str) : Option (Str × Str × Str) :=
  if "for".data.isPrefixOf text then
    match skipSpaces (text.drop 3) with
    | '(' :: inner0 =>
      let rev := inner0.reverse
      let rev1 := match rev with
        | c :: r => if c = lbrace then r else rev
        | [] => rev
      let rev2 := rev1.dropWhile isJsSpace
      (match rev2 with
      | ')' :: r =>
        let core := r.reverse
        let semis := ((List.range core.length).filter
          (fun p => core.get? p = some ';')).reverse
        semis.findSome? (fun a =>
          if 1 ≤ a then
            (semis.findSome? (fun b =>
              if a + 2 ≤ b ∧ b + 2 ≤ core.length then some b else none)).map
              (fun b =>
                (jsTrim (core.take a),
                 jsTrim ((core.drop (a + 1)).take (b - a - 1)),
                 jsTrim (core.drop (b + 1))))
          else none)
      | _ => none)
    | _ => none
  else none

/-- Lazy `(.+?);`: the shortest nonempty prefix followed by `;`. -/
def splitFirstSemi (s : Str) : Option (Str × Str) :=
  match s with
  | [] => none
  | c :: rest =>
    let q := rest.takeWhile (fun x => x ≠ ';')
    if q.length < rest.length then some (c :: q, rest.drop (q.length + 1))
    else none

/-- `^for\s+([A-Za-z_]\w*)\s*:=\s*(.+?);\s*(.+?);\s*(.+?)\s*\{?$`. -/
def goForSplit (text : Str) : Option (Str × Str × Str × Str) :=
  if "for".data.isPrefixOf text then
    match text.drop 3 with
    | c :: r1 =>
      if isJsSpace c then
        match takeIdent (skipSpaces r1) with
        | some (it, r2) =>
          (match skipSpaces r2 with
          | ':' :: '=' :: r3 =>
            (match splitFirstSemi (skipSpaces r3) with
            | some (g2, r5) =>
              (match splitFirstSemi (skipSpaces r5) with
              | some (g3, r6) =>
                let r7 := skipSpaces r6
                let rev := r7.reverse
                let rev1 := match rev with
                  | ch :: rr => if ch = lbrace then rr else rev
                  | [] => rev
                let rev2 := rev1.dropWhile isJsSpace
                if rev2 ≠ [] then
                  some (it, jsTrim g2, jsTrim g3, jsTrim rev2.reverse)
                else none
              | none => none)
            | none => none)
          | _ => none)
        | none => none
      else none
    | [] => none
  else none

/-- `^for\s+([A-Za-z_]\w*)\s+in\s+(\d+)\.\.=(\d+)\s*\{?$`; the two
bounds are digit literals, returned as their numeric values (a digit literal
resolves to exactly that integer). -/
def rustForSplit (text : Str) : Option (Str × ℕ × ℕ) :=
  if "for".data.isPrefixOf text then
    match text.drop 3 with
    | c :: r1 =>
      if isJsSpace c then
        match takeIdent (skipSpaces r1) with
        | some (it, r2) =>
          (match r2 with
          | c2 :: r3 =>
            if isJsSpace c2 ∧ "in".data.isPrefixOf (skipSpaces r3) then
              (match (skipSpaces r3).drop 2 with
              | c3 :: r4 =>
                if isJsSpace c3 then
                  let r5 := skipSpaces r4
                  let d1 := r5.takeWhile isDigitCh
                  if d1 ≠ [] ∧ "..=".data.isPrefixOf (r5.drop d1.length) then
                    let r6 := (r5.drop d1.length).drop 3
                    let d2 := r6.takeWhile isDigitCh
                    if d2 ≠ [] then
                      let t := skipSpaces (r6.drop d2.length)
                      if t = [] ∨ t = [lbrace] then
                        some (it, digitsVal d1, digitsVal d2)
                      else none
                    else none
                  else none
                else none
              | [] => none)
            else none
          | [] => none)
        | none => none
      else none
    | [] => none
  else none

/-- `^for\s+([A-Za-z_]\w*)\s+in\s+([A-Za-z_]\w*)\s*\{?$`. -/
def rustListSplit (text : Str) : Option (Str × Str) :=
  if "for".data.isPrefixOf text then
    match text.drop 3 with
    | c :: r1 =>
      if isJsSpace c then
        match takeIdent (skipSpaces r1) with
        | some (it, r2) =>
          (match r2 with
          | c2 :: r3 =>
            if isJsSpace c2 ∧ "in".data.isPrefixOf (skipSpaces r3) then
              (match (skipSpaces r3).drop 2 with
              | c3 :: r4 =>
                if isJsSpace c3 then
                  match takeIdent (skipSpaces r4) with
                  | some (listName, r5) =>
                    let t := skipSpaces r5
                    if t = [] ∨ t = [lbrace] then some (it, listName) else none
                  | none => none
                else none
              | [] => none)
            else none
          | [] => none)
        | none => none
      else none
    | [] => none
  else none

def goLoopLabel (loc : Locale) (iter cur : Str) : Str :=
  locSel loc "Bucle ".data "Loop ".data ++ iter ++ " = ".data ++ cur

def rustRangeLabel (loc : Locale) (iter : Str) (i a b : ℕ) : Str :=
  locSel loc "Bucle ".data "Loop ".data ++ iter ++ " = ".data ++ natToStr i ++
    " (".data ++ natToStr (i - a + 1) ++ "/".data ++ natToStr (b - a + 1) ++
    ")".data

mutual

/-- `runBlock` of the brace engine `buildCStyleTrace`.  The extra argument
`hb` is only the proof that brace-map closers are at or after their openers
(needed for termination); it does not influence the computation. -/
def cstyleRunBlock (L : List Str) (bmap : List (ℕ × ℕ))
    (hb : ∀ k v, braceMapGet bmap k = some v → k ≤ v) (loc : Locale)
    (idx endI : ℕ) (st : EngSt) : EngSt :=
  if h : idx < endI ∧ idx < L.length then
    let line := L.get ⟨idx, h.2⟩
    if line = [lbrace] ∨ line = [rbrace] ∨ line = [rbrace, ';'] then
      cstyleRunBlock L bmap hb loc (idx + 1) endI (cstyleExecuteLine loc line st)
    else if "if ".data.isPrefixOf line then
      let condition := stripParenSuffix (stripIfParen line)
      let result := evaluateCondition condition st.vars
      let before := snapshotMap st.vars
      let outputsBefore := st.outputs
      let st1 := pushTrace st line (condLabel loc result) before
        (snapshotMap st.vars) outputsBefore st.outputs none none
      let blockEnd := (braceMapGet bmap idx).getD idx
      if result then
        let st2 := cstyleRunBlock L bmap hb loc (idx + 1) blockEnd st1
        match hE : findElseBlock L bmap blockEnd with
        | some eb => cstyleRunBlock L bmap hb loc (eb.2 + 1) endI st2
        | none => cstyleRunBlock L bmap hb loc (blockEnd + 1) endI st2
      else
        match hE : findElseBlock L bmap blockEnd with
        | some eb =>
          cstyleRunBlock L bmap hb loc (eb.2 + 1) endI
            (cstyleRunBlock L bmap hb loc eb.1 eb.2 st1)
        | none => cstyleRunBlock L bmap hb loc (blockEnd + 1) endI st1
    else if "for ".data.isPrefixOf line then
      match cForSplit line with
      | some (init, cond, update) =>
        let blockEnd := (braceMapGet bmap idx).getD idx
        let st1 := if init ≠ [] then cstyleExecuteLine loc (init ++ [';']) st else st
        let st2 := csForIter L bmap hb loc idx blockEnd cond update 0 st1
        cstyleRunBlock L bmap hb loc (blockEnd + 1) endI st2
      | none =>
        match goForSplit line with
        | some (it, startE, cond, update) =>
          let blockEnd := (braceMapGet bmap idx).getD idx
          let startValue := resolveNumeric startE st.vars
          let st1 := { st with vars := mapSet st.vars it (TraceValue.num startValue) }
          let st2 := goForIter L bmap hb loc idx blockEnd line it cond update 0 st1
          cstyleRunBlock L bmap hb loc (blockEnd + 1) endI st2
        | none =>
          match rustForSplit line with
          | some (it, a, b) =>
            let blockEnd := (braceMapGet bmap idx).getD idx
            let st2 := rustRangeIter L bmap hb loc idx blockEnd line it a b a st
            cstyleRunBlock L bmap hb loc (blockEnd + 1) endI st2
          | none =>
            match rustListSplit line with
            | some (it, listName) =>
              let blockEnd := (braceMapGet bmap idx).getD idx
              let list := match mapGet st.vars listName with
                | some (TraceValue.list l) => l
                | _ => []
              let st2 := rustListIter L bmap hb loc idx blockEnd line it list.length
                list 0 st
              cstyleRunBlock L bmap hb loc (blockEnd + 1) endI st2
            | none =>
              cstyleRunBlock L bmap hb loc (idx + 1) endI
                (cstyleExecuteLine loc line st)
    else
      cstyleRunBlock L bmap hb loc (idx + 1) endI (cstyleExecuteLine loc line st)
  else st
termination_by ((L.length + 1) - idx, 0)
decreasing_by
  · apply Prod.Lex.left
    omega
  · apply Prod.Lex.left
    omega
  · apply Prod.Lex.left
    have h1 := braceGetD_ge bmap hb idx
    have h2 := findElseBlock_some L bmap hb _ _ _ hE
    omega
  · apply Prod.Lex.left
    have h1 := braceGetD_ge bmap hb idx
    omega
  · apply Prod.Lex.left
    have h1 := braceGetD_ge bmap hb idx
    have h2 := findElseBlock_some L bmap hb _ _ _ hE
    omega
  · apply Prod.Lex.left
    have h1 := braceGetD_ge bmap hb idx
    have h2 := findElseBlock_some L bmap hb _ _ _ hE
    omega
  · apply Prod.Lex.left
    have h1 := braceGetD_ge bmap hb idx
    omega
  · apply Prod.Lex.left
    omega
  · apply Prod.Lex.left
    have h1 := braceGetD_ge bmap hb idx
    omega
  · apply Prod.Lex.left
    omega
  · apply Prod.Lex.left
    have h1 := braceGetD_ge bmap hb idx
    omega
  · apply Prod.Lex.left
    omega
  · apply Prod.Lex.left
    have h1 := braceGetD_ge bmap hb idx
    omega
  · apply Prod.Lex.left
    omega
  · apply Prod.Lex.left
    have h1 := braceGetD_ge bmap hb idx
    omega
  · apply Prod.Lex.left
    omega
  · apply Prod.Lex.left
    omega

/-- The guarded while-loop of the C-style three-clause `for`: at most 100
rounds of body-then-update. -/
def csForIter (L : List Str) (bmap : List (ℕ × ℕ))
    (hb : ∀ k v, braceMapGet bmap k = some v → k ≤ v) (loc : Locale)
    (forIdx blockEnd : ℕ) (cond update : Str) (guard : ℕ) (st : EngSt) : EngSt :=
  if hg : guard < 100 ∧ evaluateCondition cond st.vars then
    let st1 := cstyleRunBlock L bmap hb loc (forIdx + 1) blockEnd st
    let st2 := cstyleExecuteLine loc (update ++ [';']) st1
    csForIter L bmap hb loc forIdx blockEnd cond update (guard + 1) st2
  else st
termination_by ((L.length + 1) - (forIdx + 1), (100 - guard) + 1)
decreasing_by
  · apply Prod.Lex.right
    omega
  · apply Prod.Lex.right
    omega

/-- The guarded while-loop of the Go-style `for`. -/
def goForIter (L : List Str) (bmap : List (ℕ × ℕ))
    (hb : ∀ k v, braceMapGet bmap k = some v → k ≤ v) (loc : Locale)
    (forIdx blockEnd : ℕ) (lineText iter cond update : Str) (guard : ℕ)
    (st : EngSt) : EngSt :=
  if hg : guard < 100 ∧ evaluateCondition cond st.vars then
    let before := snapshotMap st.vars
    let outputsBefore := st.outputs
    let st1 := pushTrace st lineText
      (goLoopLabel loc iter (jsInterp (mapGet st.vars iter))) before
      (snapshotMap st.vars) outputsBefore st.outputs none none
    let st2 := cstyleRunBlock L bmap hb loc (forIdx + 1) blockEnd st1
    let st3 :=
      if containsSub update "++".data then
        let current := resolveNumericValue (mapGet st2.vars iter)
        { st2 with vars := mapSet st2.vars iter (TraceValue.num (current.add Frac.one)) }
      else if containsSub update "--".data then
        let current := resolveNumericValue (mapGet st2.vars iter)
        { st2 with vars := mapSet st2.vars iter (TraceValue.num (current.sub Frac.one)) }
      else cstyleExecuteLine loc (update ++ [';']) st2
    goForIter L bmap hb loc forIdx blockEnd lineText iter cond update (guard + 1) st3
  else st
termination_by ((L.length + 1) - (forIdx + 1), (100 - guard) + 1)
decreasing_by
  · apply Prod.Lex.right
    omega
  · apply Prod.Lex.right
    omega

/-- The Rust inclusive-range loop `for i in a..=b` (integer digit bounds). -/
def rustRangeIter (L : List Str) (bmap : List (ℕ × ℕ))
    (hb : ∀ k v, braceMapGet bmap k = some v → k ≤ v) (loc : Locale)
    (forIdx blockEnd : ℕ) (lineText iter : Str) (a b : ℕ) (i : ℕ) (st : EngSt) :
    EngSt :=
  if hi : i ≤ b then
    let before := snapshotMap st.vars
    let outputsBefore := st.outputs
    let stV := { st with vars := mapSet st.vars iter (TraceValue.num (Frac.ofInt i)) }
    let st1 := pushTrace stV lineText (rustRangeLabel loc iter i a b) before
      (snapshotMap stV.vars) outputsBefore stV.outputs none none
    let st2 := cstyleRunBlock L bmap hb loc (forIdx + 1) blockEnd st1
    rustRangeIter L bmap hb loc forIdx blockEnd lineText iter a b (i + 1) st2
  else st
termination_by ((L.length + 1) - (forIdx + 1), (b + 1 - i) + 1)
decreasing_by
  · apply Prod.Lex.right
    omega
  · apply Prod.Lex.right
    omega

/-- The Rust collection loop `for x in xs`. -/
def rustListIter (L : List Str) (bmap : List (ℕ × ℕ))
    (hb : ∀ k v, braceMapGet bmap k = some v → k ≤ v) (loc : Locale)
    (forIdx blockEnd : ℕ) (lineText iter : Str) (total : ℕ) (items : List Frac)
    (i : ℕ) (st : EngSt) : EngSt :=
  match items with
  | [] => st
  | item :: rest =>
    let before := snapshotMap st.vars
    let outputsBefore := st.outputs
    let stV := { st with
      vars := mapSet st.vars iter
        (TraceValue.num (resolveNumericValue (some (TraceValue.num item)))) }
    let st1 := pushTrace stV lineText (listLabel loc iter item i total) before
      (snapshotMap stV.vars) outputsBefore stV.outputs none none
    let st2 := cstyleRunBlock L bmap hb loc (forIdx + 1) blockEnd st1
    rustListIter L bmap hb loc forIdx blockEnd lineText iter total rest (i + 1) st2
termination_by ((L.length + 1) - (forIdx + 1), items.length + 1)
decreasing_by
  · apply Prod.Lex.right
    omega
  · apply Prod.Lex.right
    simp only [List.length_cons]
    omega

end

/-- `buildCStyleTrace`. -/
def buildCStyleTrace (code : Str) (loc : Locale) : List VisualTraceEntry :=
  let lines := parseCStyleLines code
  let bmap := buildBraceMap lines
  (cstyleRunBlock lines bmap (buildBraceMap_le lines) loc 0 lines.length initSt).trace

end App

namespace App

/-- Line preprocessing of `buildJavaTrace`. -/
def parseJavaLines (code : Str) : List Str :=
  (((splitOnChar '\n' code).map
    (fun line => jsTrim (takeUntilSub "//".data line))).filter
    (fun l => 0 < l.length)).filter
    (fun l =>
      ¬"public class".data.isPrefixOf l ∧
      ¬"public static void main".data.isPrefixOf l)

/-- `^int\[\]\s+([A-Za-z_]\w*)\s*=\s*\{([^}]+)\};$`. -/
def javaArrayInitSplit (text : Str) : Option (Str × Str) :=
  if "int[]".data.isPrefixOf text then
    match text.drop 5 with
    | c :: r =>
      if isJsSpace c then
        match takeIdent (skipSpaces r) with
        | some (target, rest) =>
          (match skipSpaces rest with
          | '=' :: r2 =>
            (match skipSpaces r2 with
            | b :: inner =>
              if b = lbrace ∧ "\x7d;".data.isSuffixOf inner ∧ 3 ≤ inner.length then
                let content := inner.dropLast.dropLast
                if content ≠ [] ∧ ¬content.contains rbrace then some (target, content)
                else none
              else none
            | [] => none)
          | _ => none)
        | none => none
      else none
    | [] => none
  else none

/-- `^int\s+([A-Za-z_]\w*)\s*=\s*(.+);$`. -/
def intAssignSplit (text : Str) : Option (Str × Str) :=
  if "int".data.isPrefixOf text then
    match text.drop 3 with
    | c :: r =>
      if isJsSpace c then
        match takeIdent (skipSpaces r) with
        | some (target, rest) =>
          (match skipSpaces rest with
          | '=' :: r2 =>
            let g := skipSpaces r2
            if g.getLast? = some ';' ∧ 2 ≤ g.length then some (target, jsTrim g.dropLast)
            else none
          | _ => none)
        | none => none
      else none
    | [] => none
  else none

/-- `^int\s+([A-Za-z_]\w*)\s*;$`. -/
def intDeclSplit (text : Str) : Option Str :=
  if "int".data.isPrefixOf text then
    match text.drop 3 with
    | c :: r =>
      if isJsSpace c then
        match takeIdent (skipSpaces r) with
        | some (target, rest) =>
          if skipSpaces rest = [';'] then some target else none
        | none => none
      else none
    | [] => none
  else none

/-- `^([A-Za-z_]\w*)\s*=\s*(.+);$` (semicolon mandatory). -/
def javaAssignSplit (text : Str) : Option (Str × Str) :=
  match takeIdent text with
  | some (target, rest) =>
    (match skipSpaces rest with
    | '=' :: r2 =>
      let g := skipSpaces r2
      if g.getLast? = some ';' ∧ 2 ≤ g.length then some (target, jsTrim g.dropLast)
      else none
    | _ => none)
  | none => none

/-- `^System\.out\.println\((.*)\);$`. -/
def printlnSplit (text : Str) : Option Str :=
  if "System.out.println(".data.isPrefixOf text ∧ ");".data.isSuffixOf text ∧
      21 ≤ text.length then
    some ((text.drop 19).dropLast.dropLast)
  else none

/-- The array-access read used by Java assignments (`expr` is the whole
right side): on a list binding, read the floored index (out of range gives
0). -/
def javaExecuteLine (loc : Locale) (text : Str) (st : EngSt) : EngSt :=
  let before := snapshotMap st.vars
  let outputsBefore := st.outputs
  match compoundSplit text with
  | some (target, operator, rightTrimmed) =>
    let rightValue := resolveNumeric rightTrimmed st.vars
    let leftValue := resolveNumericValue (mapGet st.vars target)
    let result := applyOperator leftValue rightValue [operator]
    let st' := { st with vars := mapSet st.vars target (TraceValue.num result) }
    pushTrace st' text (locSel loc "Actualiza variable".data "Update variable".data)
      before (snapshotMap st'.vars) outputsBefore st'.outputs
      (some ⟨fracToStr leftValue, [operator], fracToStr rightValue, result, target⟩)
      none
  | none =>
    match incDecSplit '+' text with
    | some target =>
      let leftValue := resolveNumericValue (mapGet st.vars target)
      let result := leftValue.add Frac.one
      let st' := { st with vars := mapSet st.vars target (TraceValue.num result) }
      pushTrace st' text (locSel loc "Incremento".data "Increment".data)
        before (snapshotMap st'.vars) outputsBefore st'.outputs
        (some ⟨fracToStr leftValue, "+".data, "1".data, result, target⟩) none
    | none =>
      match incDecSplit '-' text with
      | some target =>
        let leftValue := resolveNumericValue (mapGet st.vars target)
        let result := leftValue.sub Frac.one
        let st' := { st with vars := mapSet st.vars target (TraceValue.num result) }
        pushTrace st' text (locSel loc "Decremento".data "Decrement".data)
          before (snapshotMap st'.vars) outputsBefore st'.outputs
          (some ⟨fracToStr leftValue, "-".data, "1".data, result, target⟩) none
      | none =>
        match javaArrayInitSplit text with
        | some (target, content) =>
          let values := parseNumericList (jsTrim content) st.vars
          let st' := { st with vars := mapSet st.vars target (TraceValue.list values) }
          pushTrace st' text
            (locSel loc "Declaración de array".data "Array declaration".data)
            before (snapshotMap st'.vars) outputsBefore st'.outputs none none
        | none =>
          match intAssignSplit text with
          | some (target, expr) =>
            (match arrayAccessSplit expr with
            | some (arrName, idxRaw) =>
              (match mapGet st.vars arrName with
              | some (TraceValue.list l) =>
                let index := (resolveNumeric (jsTrim idxRaw) st.vars).floor
                let value :=
                  if h : 0 ≤ index ∧ index.toNat < l.length then
                    l.get ⟨index.toNat, h.2⟩
                  else Frac.zero
                let st' := { st with vars := mapSet st.vars target (TraceValue.num value) }
                pushTrace st' text
                  (locSel loc "Declaración y asignación desde array".data
                    "Declaration and assignment from array".data)
                  before (snapshotMap st'.vars) outputsBefore st'.outputs none none
              | _ => javaIntAssignTail loc text st before outputsBefore target expr)
            | none => javaIntAssignTail loc text st before outputsBefore target expr)
          | none =>
            match intDeclSplit text with
            | some target =>
              let st' := { st with vars := mapSet st.vars target (TraceValue.num Frac.zero) }
              pushTrace st' text (locSel loc "Declaración".data "Declaration".data)
                before (snapshotMap st'.vars) outputsBefore st'.outputs none none
            | none =>
              match javaAssignSplit text with
              | some (target, expr) =>
                (match arrayAccessSplit expr with
                | some (arrName, idxRaw) =>
                  (match mapGet st.vars arrName with
                  | some (TraceValue.list l) =>
                    let index := (resolveNumeric (jsTrim idxRaw) st.vars).floor
                    let value :=
                      if h : 0 ≤ index ∧ index.toNat < l.length then
                        l.get ⟨index.toNat, h.2⟩
                      else Frac.zero
                    let st' :=
                      { st with vars := mapSet st.vars target (TraceValue.num value) }
                    pushTrace st' text
                      (locSel loc "Asignación desde array".data
                        "Assignment from array".data)
                      before (snapshotMap st'.vars) outputsBefore st'.outputs none none
                  | _ => javaAssignTail loc text st before outputsBefore target expr)
                | none => javaAssignTail loc text st before outputsBefore target expr)
              | none =>
                match printlnSplit text with
                | some inner =>
                  let out := renderJavaPrint inner st.vars
                  let st' := { st with outputs := st.outputs ++ [out] }
                  pushTrace st' text (locSel loc "Salida".data "Output".data)
                    before (snapshotMap st'.vars) outputsBefore st'.outputs none
                    (some out)
                | none =>
                  pushTrace st text (locSel loc "Ejecución".data "Execution".data)
                    before (snapshotMap st.vars) outputsBefore st.outputs none none
where
  javaIntAssignTail (loc : Locale) (text : Str) (st : EngSt) (before : VarMap)
      (outputsBefore : List Str) (target expr : Str) : EngSt :=
    let operation := parseBinary expr st.vars
    let result := match operation with
      | some o => o.result
      | none => resolveNumeric expr st.vars
    let st' := { st with vars := mapSet st.vars target (TraceValue.num result) }
    pushTrace st' text
      (locSel loc "Declaración y asignación".data "Declaration and assignment".data)
      before (snapshotMap st'.vars) outputsBefore st'.outputs
      (operation.map (fun o => ⟨o.left, o.operator, o.right, o.result, target⟩)) none
  javaAssignTail (loc : Locale) (text : Str) (st : EngSt) (before : VarMap)
      (outputsBefore : List Str) (target expr : Str) : EngSt :=
    let operation := parseBinary expr st.vars
    let result := match operation with
      | some o => o.result
      | none => resolveNumeric expr st.vars
    let st' := { st with vars := mapSet st.vars target (TraceValue.num result) }
    pushTrace st' text (locSel loc "Asignación".data "Assignment".data)
      before (snapshotMap st'.vars) outputsBefore st'.outputs
      (operation.map (fun o => ⟨o.left, o.operator, o.right, o.result, target⟩)) none

/-- The global replace `condition.replace(/([A-Za-z_]\w*)\[([^\]]+)\]/g, ...)`
resolving array accesses inside a Java condition (non-array bindings keep
the original text).  Fuel-driven scan; each step consumes at least one
character. -/
def javaCondResolveF (vars : VarMap) : ℕ → Str → Str
  | _, [] => []
  | 0, s => s
  | fuel + 1, c :: rest =>
    match takeIdent (c :: rest) with
    | some (id, '[' :: r2) =>
      let mid := r2.takeWhile (fun x => x ≠ ']')
      if mid ≠ [] ∧ r2.drop mid.length ≠ [] then
        (match mapGet vars id with
        | some (TraceValue.list l) =>
          let index := (resolveNumeric (jsTrim mid) vars).floor
          let value :=
            if h : 0 ≤ index ∧ index.toNat < l.length then l.get ⟨index.toNat, h.2⟩
            else Frac.zero
          fracToStr value
        | _ => id ++ ['['] ++ mid ++ [']']) ++
          javaCondResolveF vars fuel ((r2.drop mid.length).drop 1)
      else c :: javaCondResolveF vars fuel rest
    | _ => c :: javaCondResolveF vars fuel rest

def javaCondResolve (vars : VarMap) (s : Str) : Str := javaCondResolveF vars s.length s

/-- `^for\s*\(\s*int\s+([A-Za-z_]\w*)\s*=\s*(.+?);\s*\1\s*([<>=!]+)\s*(.+?);\s*\1\+\+\s*\)\s*\{?$`. -/
def jForSplit (text : Str) : Option (Str × Str × Str × Str) :=
  if "for".data.isPrefixOf text then
    match skipSpaces (text.drop 3) with
    | '(' :: r1 =>
      let r2 := skipSpaces r1
      if "int".data.isPrefixOf r2 then
        match r2.drop 3 with
        | c :: r3 =>
          if isJsSpace c then
            match takeIdent (skipSpaces r3) with
            | some (it, r4) =>
              (match skipSpaces r4 with
              | '=' :: r5 =>
                (match splitFirstSemi (skipSpaces r5) with
                | some (g2, r6) =>
                  let r7 := skipSpaces r6
                  if it.isPrefixOf r7 then
                    let r8 := skipSpaces (r7.drop it.length)
                    let op := r8.takeWhile
                      (fun x => x = '<' || x = '>' || x = '=' || x = '!')
                    if op ≠ [] then
                      match splitFirstSemi (skipSpaces (r8.drop op.length)) with
                      | some (g4, r10) =>
                        let r11 := skipSpaces r10
                        if it.isPrefixOf r11 ∧
                            "++".data.isPrefixOf (skipSpaces (r11.drop it.length)) then
                          let r12 := skipSpaces
                            ((skipSpaces (r11.drop it.length)).drop 2)
                          (match r12 with
                          | ')' :: r13 =>
                            let t := skipSpaces r13
                            if t = [] ∨ t = [lbrace] then
                              some (it, jsTrim g2, op, jsTrim g4)
                            else none
                          | _ => none)
                        else none
                      | none => none
                    else none
                  else none
                | none => none)
              | _ => none)
            | none => none
          else none
        | [] => none
      else none
    | _ => none
  else none

mutual

/-- `runBlock` of `buildJavaTrace`.  Structural braces are skipped without a
trace entry; the for-loop (whose condition can hold forever) is driven by
the `fuel` iteration allowance. -/
def javaRunBlock (L : List Str) (bmap : List (ℕ × ℕ))
    (hb : ∀ k v, braceMapGet bmap k = some v → k ≤ v) (loc : Locale) (fuel : ℕ)
    (idx endI : ℕ) (st : EngSt) : EngSt :=
  if h : idx < endI ∧ idx < L.length then
    let line := L.get ⟨idx, h.2⟩
    if line = [lbrace] ∨ line = [rbrace] ∨ line = [rbrace, ';'] then
      javaRunBlock L bmap hb loc fuel (idx + 1) endI st
    else if "if ".data.isPrefixOf line then
      let condition := stripParenSuffix (stripIfParen line)
      let resolvedCondition := javaCondResolve st.vars condition
      let result := evaluateCondition resolvedCondition st.vars
      let before := snapshotMap st.vars
      let outputsBefore := st.outputs
      let st1 := pushTrace st line (condLabel loc result) before
        (snapshotMap st.vars) outputsBefore st.outputs none none
      let blockEnd := (braceMapGet bmap idx).getD idx
      if result then
        let st2 := javaRunBlock L bmap hb loc fuel (idx + 1) blockEnd st1
        match hE : findElseBlock L bmap blockEnd with
        | some eb => javaRunBlock L bmap hb loc fuel (eb.2 + 1) endI st2
        | none => javaRunBlock L bmap hb loc fuel (blockEnd + 1) endI st2
      else
        match hE : findElseBlock L bmap blockEnd with
        | some eb =>
          javaRunBlock L bmap hb loc fuel (eb.2 + 1) endI
            (javaRunBlock L bmap hb loc fuel eb.1 eb.2 st1)
        | none => javaRunBlock L bmap hb loc fuel (blockEnd + 1) endI st1
    else if "for ".data.isPrefixOf line then
      match jForSplit line with
      | some (it, startE, op, limitE) =>
        let blockEnd := (braceMapGet bmap idx).getD idx
        let startValue := resolveNumeric startE st.vars
        let limitValue := resolveNumeric limitE st.vars
        let st2 := javaForIter L bmap hb loc fuel idx blockEnd line it op limitValue
          startValue st
        javaRunBlock L bmap hb loc fuel (blockEnd + 1) endI st2
      | none =>
        javaRunBlock L bmap hb loc fuel (idx + 1) endI (javaExecuteLine loc line st)
    else
      javaRunBlock L bmap hb loc fuel (idx + 1) endI (javaExecuteLine loc line st)
  else st
termination_by ((L.length + 1) - idx, 0)
decreasing_by
  · apply Prod.Lex.left
    omega
  · apply Prod.Lex.left
    omega
  · apply Prod.Lex.left
    have h1 := braceGetD_ge bmap hb idx
    have h2 := findElseBlock_some L bmap hb _ _ _ hE
    omega
  · apply Prod.Lex.left
    have h1 := braceGetD_ge bmap hb idx
    omega
  · apply Prod.Lex.left
    have h1 := braceGetD_ge bmap hb idx
    have h2 := findElseBlock_some L bmap hb _ _ _ hE
    omega
  · apply Prod.Lex.left
    have h1 := braceGetD_ge bmap hb idx
    have h2 := findElseBlock_some L bmap hb _ _ _ hE
    omega
  · apply Prod.Lex.left
    have h1 := braceGetD_ge bmap hb idx
    omega
  · apply Prod.Lex.left
    omega
  · apply Prod.Lex.left
    have h1 := braceGetD_ge bmap hb idx
    omega
  · apply Prod.Lex.left
    omega
  · apply Prod.Lex.left
    omega

/-- The Java engine's for-loop (`while (compare(i, limitValue, op)) ...`).
The source loop has no guard and can run forever; `fuel` bounds the modelled
iterations. -/
def javaForIter (L : List Str) (bmap : List (ℕ × ℕ))
    (hb : ∀ k v, braceMapGet bmap k = some v → k ≤ v) (loc : Locale) (fuel : ℕ)
    (forIdx blockEnd : ℕ) (lineText it op : Str) (limitValue : Frac) (i : Frac)
    (st : EngSt) : EngSt :=
  match fuel with
  | 0 => st
  | f + 1 =>
    if compare i limitValue op then
      let before := snapshotMap st.vars
      let outputsBefore := st.outputs
      let stV := { st with vars := mapSet st.vars it (TraceValue.num i) }
      let st1 := pushTrace stV lineText
        (goLoopLabel loc it (fracToStr i)) before
        (snapshotMap stV.vars) outputsBefore stV.outputs none none
      let st2 := javaRunBlock L bmap hb loc f (forIdx + 1) blockEnd st1
      javaForIter L bmap hb loc f forIdx blockEnd lineText it op limitValue
        (i.add Frac.one) st2
    else st
termination_by ((L.length + 1) - (forIdx + 1), fuel + 1)
decreasing_by
  · apply Prod.Lex.right
    omega
  · apply Prod.Lex.right
    omega

end

/-- `buildJavaTrace` (with an iteration allowance for its unguarded
for-loops). -/
def buildJavaTrace (fuel : ℕ) (code : Str) (loc : Locale) :
    List VisualTraceEntry :=
  let lines := parseJavaLines code
  let bmap := buildBraceMap lines
  (javaRunBlock lines bmap (buildBraceMap_le lines) loc fuel 0 lines.length
    initSt).trace

end App

namespace App

/-- Is there a word boundary before position 0 of `rest` given the previous
character class? (`\b` = word/non-word transition.) -/
def boundaryAfter (rest : Str) : Bool :=
  match rest with
  | [] => true
  | c :: _ => !isWordChar c

/-- Match `w₁\s+w₂\s+…\s+wₙ` starting here, returning the remainder. -/
def matchWordSeq : List Str → Str → Option Str
  | [], s => some s
  | [w], s => if w.isPrefixOf s then some (s.drop w.length) else none
  | w :: ws, s =>
    if w.isPrefixOf s then
      match s.drop w.length with
      | c :: r2 => if isJsSpace c then matchWordSeq ws (skipSpaces r2) else none
      | [] => none
    else none

/-- `\bw₁\s+…\s+wₙ\b` somewhere in the string. -/
def hasWordSeq (ws : List Str) : Str → Bool → Bool
  | [], _ => false
  | c :: rest, prevWord =>
    (!prevWord &&
      (match matchWordSeq ws (c :: rest) with
       | some r => boundaryAfter r
       | none => false)) ||
      hasWordSeq ws rest (isWordChar c)

/-- `w₁\s+…\s+wₙ\b` (no leading boundary) somewhere in the string. -/
def hasSeqNoLeadB (ws : List Str) : Str → Bool
  | [] => false
  | c :: rest =>
    (match matchWordSeq ws (c :: rest) with
     | some r => boundaryAfter r
     | none => false) ||
      hasSeqNoLeadB ws rest

/-- `pat\s` (a literal followed by one whitespace) somewhere, with an
optional leading word boundary requirement. -/
def hasPatThenSpace (pat : Str) (needLeadB : Bool) : Str → Bool → Bool
  | [], _ => false
  | c :: rest, prevWord =>
    ((!needLeadB || !prevWord) &&
      (match (c :: rest).drop pat.length with
       | c2 :: _ => pat.isPrefixOf (c :: rest) && isJsSpace c2
       | [] => false)) ||
      hasPatThenSpace pat needLeadB rest (isWordChar c)

/-- A literal occurrence with a required leading word boundary. -/
def hasPatLeadB (pat : Str) : Str → Bool → Bool
  | [], _ => false
  | c :: rest, prevWord =>
    (!prevWord && pat.isPrefixOf (c :: rest)) || hasPatLeadB pat rest (isWordChar c)

/-- `#include\s+<hdr>` somewhere. -/
def hasInclude (hdr : Str) : Str → Bool
  | [] => false
  | c :: rest =>
    (if "#include".data.isPrefixOf (c :: rest) then
      match (c :: rest).drop 8 with
      | c2 :: r2 => isJsSpace c2 && hdr.isPrefixOf (skipSpaces r2)
      | [] => false
    else false) ||
      hasInclude hdr rest

/-- `Console\.Write(Line|)\b` somewhere. -/
def hasConsoleWrite : Str → Bool
  | [] => false
  | c :: rest =>
    (if "Console.Write".data.isPrefixOf (c :: rest) then
      let r := (c :: rest).drop 13
      if "Line".data.isPrefixOf r then boundaryAfter (r.drop 4) else boundaryAfter r
    else false) ||
      hasConsoleWrite rest

/-- `println!` followed by a word character (that is where `println!\b`
places a boundary, since `!` is a non-word character). -/
def hasPrintlnBang : Str → Bool
  | [] => false
  | c :: rest =>
    (if "println!".data.isPrefixOf (c :: rest) then
      match (c :: rest).drop 8 with
      | c2 :: _ => isWordChar c2
      | [] => false
    else false) ||
      hasPrintlnBang rest

/-- `\btype\s+\w+\s*=` somewhere. -/
def hasTsTypeAlias : Str → Bool → Bool
  | [], _ => false
  | c :: rest, prevWord =>
    (!prevWord &&
      (if "type".data.isPrefixOf (c :: rest) then
        match (c :: rest).drop 4 with
        | c2 :: r2 =>
          if isJsSpace c2 then
            let w := (skipSpaces r2).takeWhile isWordChar
            !w.isEmpty && (match skipSpaces ((skipSpaces r2).drop w.length) with
              | '=' :: _ => true
              | _ => false)
          else false
        | [] => false
      else false)) ||
      hasTsTypeAlias rest (isWordChar c)

/-- `:\s*(string|number|boolean|any|unknown)\b` somewhere. -/
def hasTsAnnot : Str → Bool
  | [] => false
  | c :: rest =>
    (if c = ':' then
      let r := skipSpaces rest
      ["string".data, "number".data, "boolean".data, "any".data,
       "unknown".data].any (fun w =>
        w.isPrefixOf r && boundaryAfter (r.drop w.length))
    else false) ||
      hasTsAnnot rest

/-- `:\s*$` under the `m` flag: a colon followed only by whitespace up to a
line end (or end of string). -/
def hasColonEol : Str → Bool
  | [] => false
  | c :: rest =>
    (c = ':' && colonTail rest) || hasColonEol rest
where
  colonTail : Str → Bool
    | [] => true
    | c :: r => if c = '\n' then true else isJsSpace c && colonTail r

def toLowerCh (c : Char) : Char :=
  if 'A' ≤ c ∧ c ≤ 'Z' then Char.ofNat (c.toNat + 32) else c

/-- One of the SQL keywords with word boundaries, case-insensitively. -/
def hasSqlWord : Str → Bool → Bool
  | [], _ => false
  | c :: rest, prevWord =>
    (!prevWord &&
      (["select".data, "from".data, "where".data, "insert".data, "update".data,
        "delete".data].any (fun w =>
        w.isPrefixOf ((c :: rest).take w.length |>.map toLowerCh) &&
          boundaryAfter ((c :: rest).drop w.length)))) ||
      hasSqlWord rest (isWordChar c)

structure DetectedLanguage where
  id : Str
  label : Str
  runnable : Option Str
  deriving DecidableEq, Repr

/-- `detectLanguage`: significance-ordered pattern detection over the
trimmed source. -/
def detectLanguage (code : Str) (loc : Locale) : DetectedLanguage :=
  let sample := jsTrim code
  if sample = [] then
    ⟨"empty".data, locSel loc "Sin código".data "No code".data, none⟩
  else if hasWordSeq ["public".data, "class".data] sample false ||
      hasWordSeq ["public".data, "static".data, "void".data, "main".data] sample false ||
      containsSub sample "System.out.println".data then
    ⟨"java".data, "Java".data, none⟩
  else if hasWordSeq ["using".data, "System".data] sample false ||
      hasConsoleWrite sample then
    ⟨"csharp".data, "C#".data, none⟩
  else if hasInclude "<iostream>".data sample ||
      containsSub sample "std::cout".data ||
      containsSub sample "std::string".data then
    ⟨"cpp".data, "C++".data, none⟩
  else if hasInclude "<stdio.h>".data sample ||
      containsSub sample "printf(".data ||
      containsSub sample "scanf(".data then
    ⟨"c".data, "C".data, none⟩
  else if hasWordSeq ["package".data, "main".data] sample false ||
      hasWordSeq ["func".data, "main".data] sample false ||
      containsSub sample "fmt.Print".data then
    ⟨"go".data, "Go".data, none⟩
  else if hasWordSeq ["fn".data, "main".data] sample false ||
      hasPrintlnBang sample ||
      hasSeqNoLeadB ["let".data, "mut".data] sample then
    ⟨"rust".data, "Rust".data, none⟩
  else if hasWordSeq ["interface".data] sample false ||
      hasTsTypeAlias sample false || hasTsAnnot sample then
    ⟨"typescript".data, "TypeScript".data, none⟩
  else if hasPatThenSpace "def".data false sample false ||
      hasPatThenSpace "import".data true sample false ||
      hasPatLeadB "print(".data sample false ||
      hasWordSeq ["elif".data] sample false ||
      hasWordSeq ["None".data] sample false ||
      hasColonEol sample then
    ⟨"python".data, "Python".data, none⟩
  else if hasSqlWord sample false then
    ⟨"sql".data, "SQL".data, none⟩
  else
    ⟨"unknown".data,
      locSel loc "Lenguaje desconocido".data "Unknown language".data, none⟩

def MAX_STEPS : ℕ := 15

/-- `buildTraceForCode`: dispatch on the dialect id, truncate to the step
cap.  `javaFuel` is the iteration allowance of the Java engine's unguarded
for-loop (the only construct whose source loop can run forever). -/
def buildTraceForCode (javaFuel : ℕ) (code : Str) (languageId : Str)
    (loc : Locale) : List VisualTraceEntry :=
  if languageId = "java".data then
    (buildJavaTrace javaFuel code loc).take MAX_STEPS
  else if languageId = "c".data ∨ languageId = "cpp".data ∨
      languageId = "csharp".data ∨ languageId = "go".data ∨
      languageId = "rust".data then
    (buildCStyleTrace code loc).take MAX_STEPS
  else if languageId = "typescript".data then
    (buildGenericTrace code loc).take MAX_STEPS
  else (buildGenericTrace code loc).take MAX_STEPS

end App

namespace Miniko

/-- A toy-script trace entry (`MinikoTraceEntry`). -/
structure MinikoTraceEntry where
  step : ℕ
  line : Str
  state : Str
  note : Str
  deriving DecidableEq, Repr

/-- The Variable Store of the toy interpreter.  A key is `Option Str`
because `vars.set(tokens[1], …)` can be called with `tokens[1]`
undefined. -/
abbrev MVars := List (Option Str × JSNum)

def mGet (vars : MVars) (k : Option Str) : Option JSNum :=
  match vars with
  | [] => none
  | (k', v) :: rest => if k' = k then some v else mGet rest k

def mSet (vars : MVars) (k : Option Str) (v : JSNum) : MVars :=
  match vars with
  | [] => [(k, v)]
  | (k', v') :: rest =>
    if k' = k then (k', v) :: rest else (k', v') :: mSet rest k v

def natJGet (m : List (ℕ × JSNum)) (k : ℕ) : Option JSNum :=
  match m with
  | [] => none
  | (k', v) :: rest => if k' = k then some v else natJGet rest k

def natJSet (m : List (ℕ × JSNum)) (k : ℕ) (v : JSNum) : List (ℕ × JSNum) :=
  match m with
  | [] => [(k, v)]
  | (k', v') :: rest =>
    if k' = k then (k', v) :: rest else (k', v') :: natJSet rest k v

def natJDel (m : List (ℕ × JSNum)) (k : ℕ) : List (ℕ × JSNum) :=
  match m with
  | [] => []
  | (k', v) :: rest => if k' = k then rest else (k', v) :: natJDel rest k

/-- `line.replace(/\s+/g, ' ')`. -/
def collapseWs : Str → Bool → Str
  | [], _ => []
  | c :: rest, prevSpace =>
    if isJsSpace c then
      if prevSpace then collapseWs rest true else ' ' :: collapseWs rest true
    else c :: collapseWs rest false

/-- `tokenize`: collapse whitespace, trim, split on a single space. -/
def tokenize (line : Str) : List Str :=
  splitOnChar ' ' (jsTrim (collapseWs line false))

/-- `resolveValue`: empty/missing token is 0; a token `Number` can parse is
that number (including the infinities); otherwise a variable lookup
defaulting to 0. -/
def resolveValue (token : Option Str) (vars : MVars) : JSNum :=
  match token with
  | none => JSNum.fin Frac.zero
  | some t =>
    if t = [] then JSNum.fin Frac.zero
    else
      match jsNumberE t with
      | JSNum.nan => (mGet vars (some t)).getD (JSNum.fin Frac.zero)
      | v => v

def applyMath (cmd : Str) (base value : JSNum) : JSNum :=
  if cmd = "add".data then base.add value
  else if cmd = "sub".data then base.sub value
  else if cmd = "mul".data then base.mul value
  else if cmd = "div".data then
    if value.eqb (JSNum.fin Frac.zero) then base else base.div value
  else base

/-- `evaluateCondition` over `tokens.slice(1)`. -/
def evaluateCondition (tokens : List Str) (vars : MVars) : Bool :=
  let left := resolveValue (tokens.get? 0) vars
  let op := tokens.get? 1
  let right := resolveValue (tokens.get? 2) vars
  if op = some "==".data then left.eqb right
  else if op = some "!=".data then !(left.eqb right)
  else if op = some ">".data then right.ltb left
  else if op = some "<".data then left.ltb right
  else if op = some ">=".data then right.leb left
  else if op = some "<=".data then left.leb right
  else false

/-- `buildJumpMap`: one linear scan with two independent LIFO stacks. -/
def buildJumpMapGo : List Str → ℕ → List ℕ → List ℕ →
    (List (ℕ × ℕ) × List (ℕ × ℕ) × List (ℕ × ℕ)) →
    List (ℕ × ℕ) × List (ℕ × ℕ) × List (ℕ × ℕ)
  | [], _, _, _, maps => maps
  | raw :: rest, i, ifStack, loopStack, (ifE, loopE, endL) =>
    let line := jsTrim raw
    if "if ".data.isPrefixOf line then
      buildJumpMapGo rest (i + 1) (i :: ifStack) loopStack (ifE, loopE, endL)
    else if line = "endif".data then
      match ifStack with
      | [] => buildJumpMapGo rest (i + 1) [] loopStack (ifE, loopE, endL)
      | s :: st' =>
        buildJumpMapGo rest (i + 1) st' loopStack (App.natMapSet ifE s i, loopE, endL)
    else if "loop ".data.isPrefixOf line then
      buildJumpMapGo rest (i + 1) ifStack (i :: loopStack) (ifE, loopE, endL)
    else if line = "end".data then
      match loopStack with
      | [] => buildJumpMapGo rest (i + 1) ifStack [] (ifE, loopE, endL)
      | s :: st' =>
        buildJumpMapGo rest (i + 1) ifStack st'
          (ifE, App.natMapSet loopE s i, App.natMapSet endL i s)
    else buildJumpMapGo rest (i + 1) ifStack loopStack (ifE, loopE, endL)

def buildJumpMap (lines : List Str) :
    List (ℕ × ℕ) × List (ℕ × ℕ) × List (ℕ × ℕ) :=
  buildJumpMapGo lines 0 [] [] ([], [], [])

def optName (n : Option Str) : Str := n.getD "undefined".data

/-- `snapshot` of the toy store. -/
def snapshot (vars : MVars) : Str :=
  if vars.isEmpty then [lbrace, rbrace]
  else
    [lbrace, ' '] ++
      joinSep ", ".data
        (vars.map (fun p => optName p.1 ++ ": ".data ++ p.2.toStr)) ++
      [' ', rbrace]

/-- The interpreter state of one `runMiniko` call. -/
structure MState where
  pc : ℕ
  vars : MVars
  output : List Str
  trace : List MinikoTraceEntry
  step : ℕ
  loopCounters : List (ℕ × JSNum)
  deriving DecidableEq, Repr

/-- One command dispatch: from the program counter, store, output, loop
counters and tokens, compute the next program counter, store, output,
counters and the note text. -/
def execCmd (ifToEnd loopToEnd endToLoop : List (ℕ × ℕ)) (pc : ℕ) (vars : MVars)
    (output : List Str) (counters : List (ℕ × JSNum)) (tokens : List Str) :
    ℕ × MVars × List Str × List (ℕ × JSNum) × Str :=
  let cmd := tokens.get? 0
  if cmd = some "set".data then
    let name := tokens.get? 1
    let value := resolveValue (tokens.get? 2) vars
    (pc + 1, mSet vars name value, output, counters,
      "set ".data ++ optName name ++ " = ".data ++ value.toStr)
  else if cmd = some "add".data ∨ cmd = some "sub".data ∨
      cmd = some "mul".data ∨ cmd = some "div".data then
    let name := tokens.get? 1
    let base := (mGet vars name).getD (JSNum.fin Frac.zero)
    let value := resolveValue (tokens.get? 2) vars
    let next := applyMath ((tokens.get? 0).getD []) base value
    (pc + 1, mSet vars name next, output, counters,
      (tokens.get? 0).getD [] ++ [' '] ++ optName name ++ [' '] ++ value.toStr)
  else if cmd = some "print".data then
    let value := resolveValue (tokens.get? 1) vars
    (pc + 1, vars, output ++ [value.toStr], counters, "print ".data ++ value.toStr)
  else if cmd = some "if".data then
    let condition := evaluateCondition (tokens.drop 1) vars
    if !condition then
      (match App.braceMapGet ifToEnd pc with
        | some t => t + 1
        | none => pc + 1, vars, output, counters, "skip if".data)
    else (pc + 1, vars, output, counters, "enter if".data)
  else if cmd = some "endif".data then
    (pc + 1, vars, output, counters, "end if".data)
  else if cmd = some "loop".data then
    let count := JSNum.maxZero (resolveValue (tokens.get? 1) vars)
    let counters1 :=
      if (natJGet counters pc).isSome then counters else natJSet counters pc count
    let remaining := (natJGet counters1 pc).getD (JSNum.fin Frac.zero)
    if remaining.leb (JSNum.fin Frac.zero) then
      ((match App.braceMapGet loopToEnd pc with
        | some t => t + 1
        | none => pc + 1), vars, output, natJDel counters1 pc, "skip loop".data)
    else (pc + 1, vars, output, counters1, "loop x".data ++ remaining.toStr)
  else if cmd = some "end".data then
    match App.braceMapGet endToLoop pc with
    | some loopStart =>
      let remaining := ((natJGet counters loopStart).getD
        (JSNum.fin Frac.zero)).sub (JSNum.fin Frac.one)
      if remaining.leb (JSNum.fin Frac.zero) then
        (pc + 1, vars, output, natJDel counters loopStart, "end loop".data)
      else
        (loopStart + 1, vars, output, natJSet counters loopStart remaining,
          "repeat loop (".data ++ remaining.toStr ++ " left)".data)
    | none => (pc + 1, vars, output, counters, [])
  else (pc + 1, vars, output, counters, "unknown command".data)

/-- One iteration of the `while (pc < lines.length)` loop; `none` when the
loop has exited.  Blank and comment lines advance without a trace entry;
every other line appends exactly one entry carrying the current step and the
post-mutation store snapshot. -/
def stepM (lines : List Str) (ifToEnd loopToEnd endToLoop : List (ℕ × ℕ))
    (s : MState) : Option MState :=
  if h : s.pc < lines.length then
    let raw := lines.get ⟨s.pc, h⟩
    let line := jsTrim raw
    some (
      if line = [] ∨ line.head? = some '#' then { s with pc := s.pc + 1 }
      else
        let r := execCmd ifToEnd loopToEnd endToLoop s.pc s.vars s.output
          s.loopCounters (tokenize line)
        { pc := r.1, vars := r.2.1, output := r.2.2.1,
          trace := s.trace ++
            [⟨s.step, line, snapshot r.2.1, r.2.2.2.2⟩],
          step := s.step + 1,
          loopCounters := r.2.2.2.1 })
  else none

/-- Run the interpreter loop for at most `fuel` iterations; the boolean
reports whether the loop exited (pc beyond the program). -/
def runStepsF (lines : List Str) (ifToEnd loopToEnd endToLoop : List (ℕ × ℕ)) :
    ℕ → MState → MState × Bool
  | 0, s => (s, decide (lines.length ≤ s.pc))
  | fuel + 1, s =>
    match stepM lines ifToEnd loopToEnd endToLoop s with
    | none => (s, true)
    | some s' => runStepsF lines ifToEnd loopToEnd endToLoop fuel s'

def initState : MState := ⟨0, [], [], [], 1, []⟩

/-- `runMiniko`, driven by an iteration allowance: the final state and
whether the program-counter loop has exited within the allowance. -/
def runMiniko (fuel : ℕ) (source : Str) : MState × Bool :=
  let lines := splitOnChar '\n' source
  let maps := buildJumpMap lines
  runStepsF lines maps.1 maps.2.1 maps.2.2 fuel initState

/-- Termination of a run, as existence of a sufficient allowance. -/
def Halts (source : Str) : Prop := ∃ fuel, (runMiniko fuel source).2 = true

end Miniko

section MinikoChecks

example : Miniko.tokenize "set a 3".data = ["set".data, "a".data, "3".data] := by
  decide

example : (Miniko.buildJumpMap ["loop Infinity".data, "end".data]).2.2 = [(1, 0)] := by
  decide

example :
    (Miniko.runMiniko 12 "set a 3\nloop a\nprint a\nend".data).1.output =
      ["3".data, "3".data, "3".data] := by decide

example : (Miniko.runMiniko 12 "set a 3\nloop a\nprint a\nend".data).2 = true := by
  decide

end MinikoChecks

/-! ## Engine small-step lemmas (brace and Java dialects)

`cstyleRunBlock` and `javaRunBlock` are well-founded recursions; concrete
runs are evaluated through their equation lemmas. -/

theorem App.cstyleRunBlock_stop (L : List Str) (bmap : List (ℕ × ℕ))
    (hb : ∀ k v, App.braceMapGet bmap k = some v → k ≤ v) (loc : App.Locale)
    (idx endI : ℕ) (st : App.EngSt) (h : ¬(idx < endI ∧ idx < L.length)) :
    App.cstyleRunBlock L bmap hb loc idx endI st = st := by
  rw [App.cstyleRunBlock.eq_def, dif_neg h]

theorem App.javaRunBlock_stop (L : List Str) (bmap : List (ℕ × ℕ))
    (hb : ∀ k v, App.braceMapGet bmap k = some v → k ≤ v) (loc : App.Locale)
    (fuel idx endI : ℕ) (st : App.EngSt) (h : ¬(idx < endI ∧ idx < L.length)) :
    App.javaRunBlock L bmap hb loc fuel idx endI st = st := by
  rw [App.javaRunBlock.eq_def, dif_neg h]

/-! ## C7 — division safety -/

/-- C7: applying the division operator with a zero divisor returns the left
operand unchanged — `applyOperator x 0 "/" = x` in the dialect engines (for
any representation of zero) and `applyMath "div" x 0 = x` in the toy
interpreter — and division by a nonzero divisor stays finite: in the engines
the result is a well-formed fraction (positive denominator, the embedding has
no infinity or NaN), and in the toy interpreter dividing finite numbers never
produces `Infinity`, `-Infinity` or `NaN`. -/
theorem divisionSafety :
    (∀ x : Frac, App.applyOperator x Frac.zero "/".data = x) ∧
    (∀ x z : Frac, z.beq Frac.zero = true → App.applyOperator x z "/".data = x) ∧
    (∀ x : JSNum, Miniko.applyMath "div".data x (JSNum.fin Frac.zero) = x) ∧
    (∀ x z : JSNum, z.eqb (JSNum.fin Frac.zero) = true →
      Miniko.applyMath "div".data x z = x) ∧
    (∀ a b : Frac, 0 < a.den → 0 < b.den →
      0 < (App.applyOperator a b "/".data).den) ∧
    (∀ a b : Frac, ∃ c : Frac,
      Miniko.applyMath "div".data (JSNum.fin a) (JSNum.fin b) = JSNum.fin c) := by
  refine ⟨?_, ?_, ?_, ?_, ?_, ?_⟩
  · intro x
    simp [App.applyOperator, Frac.beq, Frac.zero]
  · intro x z h
    simp [App.applyOperator, h]
  · intro x
    simp [Miniko.applyMath, JSNum.eqb, Frac.beq, Frac.zero]
  · intro x z h
    simp [Miniko.applyMath, h]
  · intro a b ha hb
    have hred : App.applyOperator a b "/".data =
        if b.beq Frac.zero = true then a else a.div b := by
      simp [App.applyOperator]
    rw [hred]
    by_cases hz : b.beq Frac.zero = true
    · rw [if_pos hz]
      exact ha
    · rw [if_neg hz]
      have hbn : b.num ≠ 0 := fun h0 => hz (by simp [Frac.beq, h0, Frac.zero])
      unfold Frac.div
      apply Frac.norm_den_pos
      exact Nat.mul_pos ha (Int.natAbs_pos.mpr hbn)
  · intro a b
    by_cases hz : Frac.beq b Frac.zero = true
    · exact ⟨a, by simp [Miniko.applyMath, JSNum.eqb, hz]⟩
    · exact ⟨a.div b, by simp [Miniko.applyMath, JSNum.eqb, hz, JSNum.div]⟩

/-- Witness for C7 at `x = 5`, divisor `0/3` (a non-canonical zero). -/
theorem divisionSafety_witness :
    App.applyOperator ⟨5, 1⟩ ⟨0, 3⟩ "/".data = ⟨5, 1⟩ :=
  divisionSafety.2.1 ⟨5, 1⟩ ⟨0, 3⟩ (by decide)

/-! ## C6 — toy-script Scenario C -/

/-- C6: running the toy interpreter on `set a 3\nloop a\nprint a\nend`
halts (within 12 loop iterations) with Output Log `["3","3","3"]`; the `end`
line executes exactly three times, each decrementing the remaining counter
(notes `repeat loop (2 left)`, `repeat loop (1 left)`, `end loop`); the
counter entry is deleted and control falls through past the `end` line
(final program counter 4). -/
theorem toyScenarioC :
    (Miniko.runMiniko 12 "set a 3\nloop a\nprint a\nend".data).2 = true ∧
    (Miniko.runMiniko 12 "set a 3\nloop a\nprint a\nend".data).1.output =
      ["3".data, "3".data, "3".data] ∧
    ((Miniko.runMiniko 12 "set a 3\nloop a\nprint a\nend".data).1.trace.filter
      (fun e => e.line = "end".data)).map (fun e => e.note) =
      ["repeat loop (2 left)".data, "repeat loop (1 left)".data,
        "end loop".data] ∧
    (Miniko.runMiniko 12 "set a 3\nloop a\nprint a\nend".data).1.loopCounters
      = [] ∧
    (Miniko.runMiniko 12 "set a 3\nloop a\nprint a\nend".data).1.pc = 4 := by
  refine ⟨by decide, by decide, by decide, by decide, by decide⟩

/-! ## C9 — empty input -/

theorem buildGenericTrace_nil (loc : App.Locale) :
    App.buildGenericTrace [] loc = [] := by
  show (App.genericRunBlock (App.parseGenericLines []) loc 0
    (App.parseGenericLines []).length App.initSt).trace = []
  have hp : App.parseGenericLines [] = [] := by decide
  rw [hp, App.genericRunBlock_stop _ _ _ _ _ (by simp)]
  rfl

theorem buildCStyleTrace_nil (loc : App.Locale) :
    App.buildCStyleTrace [] loc = [] := by
  show (App.cstyleRunBlock (App.parseCStyleLines [])
    (App.buildBraceMap (App.parseCStyleLines []))
    (App.buildBraceMap_le (App.parseCStyleLines [])) loc 0
    (App.parseCStyleLines []).length App.initSt).trace = []
  have hp : App.parseCStyleLines [] = [] := by decide
  rw [App.cstyleRunBlock_stop _ _ _ _ _ _ _ (by rw [hp]; simp)]
  rfl

theorem buildJavaTrace_nil (fuel : ℕ) (loc : App.Locale) :
    App.buildJavaTrace fuel [] loc = [] := by
  show (App.javaRunBlock (App.parseJavaLines [])
    (App.buildBraceMap (App.parseJavaLines []))
    (App.buildBraceMap_le (App.parseJavaLines [])) loc fuel 0
    (App.parseJavaLines []).length App.initSt).trace = []
  have hp : App.parseJavaLines [] = [] := by decide
  rw [App.javaRunBlock_stop _ _ _ _ _ _ _ _ (by rw [hp]; simp)]
  rfl

/-- C9: on the empty source string the Dialect Classifier returns the
`"empty"` identifier (in either locale), and building a trace returns the
empty trace for every dialect id, every locale and every iteration
allowance — no entries, no failure. -/
theorem emptyInputBehavior :
    (∀ loc, (App.detectLanguage [] loc).id = "empty".data) ∧
    (∀ javaFuel langId loc, App.buildTraceForCode javaFuel [] langId loc = []) := by
  constructor
  · intro loc
    rfl
  · intro javaFuel langId loc
    unfold App.buildTraceForCode
    split_ifs <;>
      simp [buildGenericTrace_nil, buildCStyleTrace_nil, buildJavaTrace_nil]

/-! ## C10 — the toy interpreter does not always terminate -/

set_option maxHeartbeats 2000000 in
/-- From the `end` line with the loop counter at `Infinity`, one interpreter
step returns to the same control state: `Infinity - 1 = Infinity` is not
`<= 0`, so the counter is stored back unchanged and the program counter
returns past the `loop` line. -/
theorem minikoInfStep (o : List Str) (t : List Miniko.MinikoTraceEntry) (k : ℕ) :
    Miniko.stepM ["loop Infinity".data, "end".data] [] [(0, 1)] [(1, 0)]
      ⟨1, [], o, t, k, [(0, JSNum.inf)]⟩ =
      some ⟨1, [], o, t ++ [⟨k, "end".data, [lbrace, rbrace],
        "repeat loop (Infinity left)".data⟩], k + 1, [(0, JSNum.inf)]⟩ := rfl

theorem minikoInfLoop (fuel : ℕ) :
    ∀ (o : List Str) (t : List Miniko.MinikoTraceEntry) (k : ℕ),
    (Miniko.runStepsF ["loop Infinity".data, "end".data] [] [(0, 1)] [(1, 0)]
      fuel ⟨1, [], o, t, k, [(0, JSNum.inf)]⟩).2 = false := by
  induction fuel with
  | zero => intro o t k; rfl
  | succ f ih =>
    intro o t k
    rw [Miniko.runStepsF, minikoInfStep]
    exact ih o _ (k + 1)

set_option maxHeartbeats 2000000 in
/-- C10 is refuted: on the two-line program `loop Infinity\nend` the
program-counter loop of `runMiniko` never exits.  `Number('Infinity')` is
`Infinity`, the activation stores `Infinity` as the remaining count, and the
`end` handler computes `Infinity - 1 = Infinity`, which is never `<= 0`, so
control keeps returning to the loop body: no iteration allowance makes the
run halt. -/
theorem minikoInfiniteLoopDiverges :
    (∀ fuel : ℕ, (Miniko.runMiniko fuel "loop Infinity\nend".data).2 = false) ∧
    ¬ Miniko.Halts "loop Infinity\nend".data := by
  have key : ∀ fuel : ℕ,
      (Miniko.runMiniko fuel "loop Infinity\nend".data).2 = false := by
    intro fuel
    have hrun : Miniko.runMiniko fuel "loop Infinity\nend".data =
        Miniko.runStepsF ["loop Infinity".data, "end".data] [] [(0, 1)]
          [(1, 0)] fuel Miniko.initState := rfl
    rw [hrun]
    cases fuel with
    | zero => decide
    | succ f =>
      have hf2 : (Miniko.runStepsF ["loop Infinity".data, "end".data] []
          [(0, 1)] [(1, 0)] f ⟨1, [], [],
            [⟨1, "loop Infinity".data, [lbrace, rbrace],
              "loop xInfinity".data⟩], 2, [(0, JSNum.inf)]⟩).2 = false :=
        minikoInfLoop f [] [⟨1, "loop Infinity".data, [lbrace, rbrace],
          "loop xInfinity".data⟩] 2
      exact hf2
  refine ⟨key, ?_⟩
  rintro ⟨fuel, hf⟩
  rw [key fuel] at hf
  exact Bool.noConfusion hf

/-! ## C3 — `parseBinary` and the position of the split operator -/

/-- The split described by the spec's sentence: the FIRST position holding an
arithmetic operator with nonempty text on both sides (spec-modelled, for
comparison with the source's greedy matcher `parseBinarySplit`). -/
def specParseBinarySplit (s : Str) : Option (Str × Char × Str) :=
  (List.range s.length).findSome? (fun j =>
    if 1 ≤ j ∧ j + 1 < s.length then
      match s.get? j with
      | some c =>
        if App.isArithOp c then some (s.take j, c, s.drop (j + 1)) else none
      | none => none
    else none)

theorem list_drop_cons {α : Type} (s : List α) (j : ℕ) (c : α)
    (h : s.get? j = some c) : s.drop j = c :: s.drop (j + 1) := by
  induction s generalizing j with
  | nil => simp at h
  | cons a t ih =>
    cases j with
    | zero =>
      simp only [List.get?_cons_zero, Option.some.injEq] at h
      simp [h]
    | succ j =>
      simp only [List.get?_cons_succ] at h
      simpa using ih j h

theorem arithOp_not_space (c : Char) (hop : App.isArithOp c = true) :
    isJsSpace c = false := by
  revert hop
  simp only [App.isArithOp, Bool.or_eq_true, decide_eq_true_eq]
  rintro (((h | h) | h) | h) <;> subst h <;> decide

theorem parseBinaryCheck_hit (s : Str) (j : ℕ) (c : Char)
    (hc : s.get? j = some c) (hop : App.isArithOp c = true)
    (hj2 : j + 1 < s.length) :
    App.parseBinaryCheck s j = some (s.take j, c, s.drop (j + 1)) := by
  have hcs := arithOp_not_space c hop
  have hd : s.drop j = c :: s.drop (j + 1) := list_drop_cons s j c hc
  have hc2 : s[j]? = some c := by
    rw [← List.get?_eq_getElem?]
    exact hc
  unfold App.parseBinaryCheck
  rw [hd]
  simp [List.takeWhile_cons, hcs, hc, hc2, hop, hj2]

theorem parseBinaryCheck_miss (s : Str) (j : ℕ)
    (hlast : ∀ m c', j < m → m + 1 < s.length → s.get? m = some c' →
      App.isArithOp c' = false) :
    ∀ k, j < k → App.parseBinaryCheck s k = none := by
  intro k hk
  simp only [App.parseBinaryCheck]
  cases hm : s.get? (k + ((s.drop k).takeWhile isJsSpace).length) with
  | none => rfl
  | some c' =>
    by_cases hlt : k + ((s.drop k).takeWhile isJsSpace).length + 1 < s.length
    · have hfalse := hlast _ c' (by omega) hlt hm
      simp [hfalse]
    · simp [hlt]

theorem parseBinaryGo_skip (s : Str) (j : ℕ)
    (hlast : ∀ m c', j < m → m + 1 < s.length → s.get? m = some c' →
      App.isArithOp c' = false) :
    ∀ m, j ≤ m → App.parseBinaryGo s m = App.parseBinaryGo s j := by
  intro m
  induction m with
  | zero =>
    intro h
    have hz : j = 0 := by omega
    rw [hz]
  | succ m ih =>
    intro h
    rcases Nat.eq_or_lt_of_le h with he | hlt
    · rw [he]
    · rw [App.parseBinaryGo,
        parseBinaryCheck_miss s j hlast (m + 1) (by omega)]
      exact ih (by omega)

/-- C3, corrected: the first group of the regex
`^(.+)\s*([+\-*/])\s*(.+)$` is greedy, so `parseBinary` splits an
expression at the LAST position carrying an arithmetic operator (with at
least one character before it and one after it), resolves the two sides via
numeric resolution, and applies that operator.  Hypotheses: position `j`
holds operator `c` with room on both sides and no operator position lies to
its right. -/
theorem parseBinaryLastOperator (s : Str) (j : ℕ) (c : Char)
    (hc : s.get? j = some c) (hop : App.isArithOp c = true)
    (hj1 : 1 ≤ j) (hj2 : j + 1 < s.length)
    (hlast : ∀ m c', j < m → m + 1 < s.length → s.get? m = some c' →
      App.isArithOp c' = false) :
    App.parseBinarySplit s = some (s.take j, c, s.drop (j + 1)) ∧
    ∀ vars, App.parseBinary s vars =
      some ⟨fracToStr (App.resolveNumeric (jsTrim (s.take j)) vars), [c],
        fracToStr (App.resolveNumeric (jsTrim (s.drop (j + 1))) vars),
        App.applyOperator (App.resolveNumeric (jsTrim (s.take j)) vars)
          (App.resolveNumeric (jsTrim (s.drop (j + 1))) vars) [c]⟩ := by
  have hsplit : App.parseBinarySplit s = some (s.take j, c, s.drop (j + 1)) := by
    unfold App.parseBinarySplit
    rw [parseBinaryGo_skip s j hlast (s.length - 1) (by omega)]
    obtain ⟨jj, rfl⟩ : ∃ jj, j = jj + 1 := ⟨j - 1, by omega⟩
    rw [App.parseBinaryGo, parseBinaryCheck_hit s (jj + 1) c hc hop hj2]
  refine ⟨hsplit, fun vars => ?_⟩
  unfold App.parseBinary
  rw [hsplit]

section C3Witness

theorem parseBinaryLastOperator_witness :
    App.parseBinarySplit "9-3-2".data = some ("9-3".data, '-', "2".data) :=
  (parseBinaryLastOperator "9-3-2".data 3 '-' (by decide) (by decide)
    (by decide) (by decide)
    (fun m c' h1 h2 _ =>
      absurd h2 (by
        have hl : ("9-3-2".data).length = 5 := rfl
        omega))).1

end C3Witness

/-- C3's counterexample: on `1+2+3` the engine splits at the LAST `+`
(left side `1+2`, right side `3`), while the spec's first-operator split
would give left `1` and right `2+3`; the two disagree.  The engine then
resolves the non-numeric left side `1+2` to `0`, so the recorded operation
is `0 + 3 = 3`. -/
theorem parseBinaryFirstOp_counterexample :
    App.parseBinarySplit "1+2+3".data = some ("1+2".data, '+', "3".data) ∧
    specParseBinarySplit "1+2+3".data = some ("1".data, '+', "2+3".data) ∧
    App.parseBinarySplit "1+2+3".data ≠ specParseBinarySplit "1+2+3".data ∧
    App.parseBinary "1+2+3".data [] =
      some ⟨"0".data, "+".data, "3".data, ⟨3, 1⟩⟩ := by
  refine ⟨by decide, by decide, by decide, by decide⟩

/-! ## C4 — brace-mode malformed input -/

theorem cstyleRunBlock_closer (L : List Str) (bmap : List (ℕ × ℕ))
    (hb : ∀ k v, App.braceMapGet bmap k = some v → k ≤ v) (loc : App.Locale)
    (idx endI : ℕ) (st : App.EngSt) (h : idx < endI ∧ idx < L.length)
    (hline : L.get ⟨idx, h.2⟩ = [rbrace]) :
    App.cstyleRunBlock L bmap hb loc idx endI st =
      App.cstyleRunBlock L bmap hb loc (idx + 1) endI
        (App.cstyleExecuteLine loc [rbrace] st) := by
  rw [App.cstyleRunBlock.eq_def, dif_pos h]
  simp only [hline]
  simp

theorem cstyleRunBlock_ifFalseNoElse (L : List Str) (bmap : List (ℕ × ℕ))
    (hb : ∀ k v, App.braceMapGet bmap k = some v → k ≤ v) (loc : App.Locale)
    (idx endI : ℕ) (st : App.EngSt) (line : Str) (h : idx < endI ∧ idx < L.length)
    (hline : L.get ⟨idx, h.2⟩ = line)
    (hnb : ¬(line = [lbrace] ∨ line = [rbrace] ∨ line = [rbrace, ';']))
    (hif : "if ".data.isPrefixOf line = true)
    (hres : App.evaluateCondition (App.stripParenSuffix (App.stripIfParen line))
      st.vars = false)
    (hbm : App.braceMapGet bmap idx = none)
    (hE : App.findElseBlock L bmap idx = none) :
    App.cstyleRunBlock L bmap hb loc idx endI st =
      App.cstyleRunBlock L bmap hb loc (idx + 1) endI
        (App.pushTrace st line (App.condLabel loc false) (App.snapshotMap st.vars)
          (App.snapshotMap st.vars) st.outputs st.outputs none none) := by
  rw [App.cstyleRunBlock.eq_def, dif_pos h]
  simp only [hline]
  rw [if_neg hnb]
  simp only [hif, if_true, hres, Bool.false_eq_true, if_false, hbm,
    Option.getD_none, hE]
  split
  · rename_i eb heq
    rw [hbm, Option.getD_none, hE] at heq
    exact Option.noConfusion heq
  · rfl

theorem cstyleRunBlock_plainLine (L : List Str) (bmap : List (ℕ × ℕ))
    (hb : ∀ k v, App.braceMapGet bmap k = some v → k ≤ v) (loc : App.Locale)
    (idx endI : ℕ) (st : App.EngSt) (line : Str) (h : idx < endI ∧ idx < L.length)
    (hline : L.get ⟨idx, h.2⟩ = line)
    (hnb : ¬(line = [lbrace] ∨ line = [rbrace] ∨ line = [rbrace, ';']))
    (hnif : "if ".data.isPrefixOf line = false)
    (hnfor : "for ".data.isPrefixOf line = false) :
    App.cstyleRunBlock L bmap hb loc idx endI st =
      App.cstyleRunBlock L bmap hb loc (idx + 1) endI
        (App.cstyleExecuteLine loc line st) := by
  rw [App.cstyleRunBlock.eq_def, dif_pos h]
  simp only [hline]
  rw [if_neg hnb]
  simp only [hnif, Bool.false_eq_true, if_false, hnfor]

/-- C4, corrected: in brace mode an unmatched close brace is indeed ignored
by the Block Structure Resolver (a closer with an empty opener stack records
no pair and does not fail), and a standalone `}` line executes as one
fallback Execution entry; but an unmatched OPENER's block does not extend to
end-of-input — its `blockEnd` falls back to the opener's own line index, so
the block is EMPTY and the engine continues with the line right after the
opener: for a false `if` condition with no `else`, the lines that the spec
places inside the block are still executed. -/
theorem braceMalformedBlocks :
    (∀ (index : ℕ) (rest : Str) (m : List (ℕ × ℕ)),
      App.braceScanLine index (rbrace :: rest) ([], m) =
        App.braceScanLine index rest ([], m)) ∧
    (∀ (loc : App.Locale) (st : App.EngSt),
      App.cstyleExecuteLine loc [rbrace] st =
        App.pushTrace st [rbrace]
          (App.locSel loc "Ejecución".data "Execution".data)
          (App.snapshotMap st.vars) (App.snapshotMap st.vars) st.outputs
          st.outputs none none) ∧
    (∀ (L : List Str) (bmap : List (ℕ × ℕ))
      (hb : ∀ k v, App.braceMapGet bmap k = some v → k ≤ v)
      (loc : App.Locale) (idx endI : ℕ) (st : App.EngSt)
      (h : idx < endI ∧ idx < L.length), L.get ⟨idx, h.2⟩ = [rbrace] →
      App.cstyleRunBlock L bmap hb loc idx endI st =
        App.cstyleRunBlock L bmap hb loc (idx + 1) endI
          (App.cstyleExecuteLine loc [rbrace] st)) ∧
    (∀ (L : List Str) (bmap : List (ℕ × ℕ))
      (hb : ∀ k v, App.braceMapGet bmap k = some v → k ≤ v)
      (loc : App.Locale) (idx endI : ℕ) (st : App.EngSt) (line : Str)
      (h : idx < endI ∧ idx < L.length), L.get ⟨idx, h.2⟩ = line →
      ¬(line = [lbrace] ∨ line = [rbrace] ∨ line = [rbrace, ';']) →
      "if ".data.isPrefixOf line = true →
      App.evaluateCondition (App.stripParenSuffix (App.stripIfParen line))
        st.vars = false →
      App.braceMapGet bmap idx = none →
      App.findElseBlock L bmap idx = none →
      App.cstyleRunBlock L bmap hb loc idx endI st =
        App.cstyleRunBlock L bmap hb loc (idx + 1) endI
          (App.pushTrace st line (App.condLabel loc false)
            (App.snapshotMap st.vars) (App.snapshotMap st.vars) st.outputs
            st.outputs none none)) := by
  refine ⟨fun index rest m => rfl, fun loc st => rfl, ?_, ?_⟩
  · intro L bmap hb loc idx endI st h hline
    exact cstyleRunBlock_closer L bmap hb loc idx endI st h hline
  · intro L bmap hb loc idx endI st line h hline hnb hif hres hbm hE
    exact cstyleRunBlock_ifFalseNoElse L bmap hb loc idx endI st line h hline
      hnb hif hres hbm hE

/-- Witness for C4's amended behavior at the opener line of
`if (1 > 2) {` followed by `x = 5;` (no matching closer): the brace map
is empty, the condition is false, and the engine continues at line 1. -/
theorem braceMalformedBlocks_witness :
    App.cstyleRunBlock ["if (1 > 2) \x7b".data, "x = 5;".data]
      (App.buildBraceMap ["if (1 > 2) \x7b".data, "x = 5;".data])
      (App.buildBraceMap_le ["if (1 > 2) \x7b".data, "x = 5;".data])
      App.Locale.en 0 2 App.initSt =
      App.cstyleRunBlock ["if (1 > 2) \x7b".data, "x = 5;".data]
        (App.buildBraceMap ["if (1 > 2) \x7b".data, "x = 5;".data])
        (App.buildBraceMap_le ["if (1 > 2) \x7b".data, "x = 5;".data])
        App.Locale.en 1 2
        (App.pushTrace App.initSt "if (1 > 2) \x7b".data
          (App.condLabel App.Locale.en false)
          (App.snapshotMap App.initSt.vars) (App.snapshotMap App.initSt.vars)
          App.initSt.outputs App.initSt.outputs none none) :=
  braceMalformedBlocks.2.2.2 ["if (1 > 2) \x7b".data, "x = 5;".data]
    (App.buildBraceMap ["if (1 > 2) \x7b".data, "x = 5;".data])
    (App.buildBraceMap_le ["if (1 > 2) \x7b".data, "x = 5;".data])
    App.Locale.en 0 2 App.initSt "if (1 > 2) \x7b".data (by decide) (by decide)
    (by decide) (by decide) (by decide) (by decide) (by decide)

/-- C4's counterexample: on the source `if (1 > 2) \x7b` + `x = 5;` (an
opening brace with no matching closer) the spec says the block extends to
end-of-input, so the false condition should skip `x = 5;` and the trace
should hold one entry with no assignment.  The engine instead records the
false-condition entry and then EXECUTES `x = 5;`, assigning `x`. -/
theorem braceUnmatchedOpener_counterexample :
    (App.buildCStyleTrace "if (1 > 2) \x7b\nx = 5;".data App.Locale.en).map
      (fun e => (e.note, e.after)) =
      [("Condition: false".data, ([] : App.VarMap)),
       ("Assignment".data, [("x".data, App.TraceValue.num ⟨5, 1⟩)])] := by
  show ((App.cstyleRunBlock
      (App.parseCStyleLines "if (1 > 2) \x7b\nx = 5;".data)
      (App.buildBraceMap (App.parseCStyleLines "if (1 > 2) \x7b\nx = 5;".data))
      (App.buildBraceMap_le (App.parseCStyleLines "if (1 > 2) \x7b\nx = 5;".data))
      App.Locale.en 0
      (App.parseCStyleLines "if (1 > 2) \x7b\nx = 5;".data).length
      App.initSt).trace).map (fun e => (e.note, e.after)) =
      [("Condition: false".data, ([] : App.VarMap)),
       ("Assignment".data, [("x".data, App.TraceValue.num ⟨5, 1⟩)])]
  rw [cstyleRunBlock_ifFalseNoElse _ _ _ _ _ _ _ "if (1 > 2) \x7b".data
      (by decide) (by decide) (by decide) (by decide) (by decide) (by decide)
      (by decide),
    cstyleRunBlock_plainLine _ _ _ _ _ _ _ "x = 5;".data (by decide) (by decide)
      (by decide) (by decide) (by decide),
    App.cstyleRunBlock_stop _ _ _ _ _ _ _ (by decide)]
  decide

/-! ## C5 — the 100-round for-loop guard -/

theorem csForIter_alwaysTrue (L : List Str) (bmap : List (ℕ × ℕ))
    (hb : ∀ k v, App.braceMapGet bmap k = some v → k ≤ v) (loc : App.Locale)
    (forIdx blockEnd : ℕ) (cond update : Str)
    (hcond : ∀ vars, App.evaluateCondition cond vars = true) :
    ∀ (n guard : ℕ) (st : App.EngSt), guard + n = 100 →
      App.csForIter L bmap hb loc forIdx blockEnd cond update guard st =
        (fun s => App.cstyleExecuteLine loc (update ++ [';'])
          (App.cstyleRunBlock L bmap hb loc (forIdx + 1) blockEnd s))^[n] st := by
  intro n
  induction n with
  | zero =>
    intro guard st hg
    rw [App.csForIter.eq_def, dif_neg (fun hc => absurd hc.1 (by omega))]
    rfl
  | succ n ih =>
    intro guard st hg
    rw [App.csForIter.eq_def, dif_pos ⟨(by omega : guard < 100), hcond st.vars⟩,
      Function.iterate_succ_apply]
    exact ih (guard + 1) _ (by omega)

/-- C5: a three-clause C-style `for` whose condition never becomes false is
cut off by the 100-iteration guard: the engine executes the init clause
once, then exactly 100 rounds of body-then-update, and then leaves the loop,
continuing after the loop's block — it does not run forever. -/
theorem loopGuardTermination (L : List Str) (bmap : List (ℕ × ℕ))
    (hb : ∀ k v, App.braceMapGet bmap k = some v → k ≤ v) (loc : App.Locale)
    (idx endI : ℕ) (st : App.EngSt) (line init cond update : Str)
    (blockEnd : ℕ) (h : idx < endI ∧ idx < L.length)
    (hline : L.get ⟨idx, h.2⟩ = line)
    (hfor : "for ".data.isPrefixOf line = true)
    (hsplit : App.cForSplit line = some (init, cond, update))
    (hbm : App.braceMapGet bmap idx = some blockEnd)
    (hcond : ∀ vars, App.evaluateCondition cond vars = true) :
    App.cstyleRunBlock L bmap hb loc idx endI st =
      App.cstyleRunBlock L bmap hb loc (blockEnd + 1) endI
        ((fun s => App.cstyleExecuteLine loc (update ++ [';'])
            (App.cstyleRunBlock L bmap hb loc (idx + 1) blockEnd s))^[100]
          (if init ≠ [] then App.cstyleExecuteLine loc (init ++ [';']) st
           else st)) := by
  obtain ⟨rest, hrest⟩ := List.isPrefixOf_iff_prefix.mp hfor
  subst hrest
  have hnb : ¬("for ".data ++ rest = [lbrace] ∨ "for ".data ++ rest = [rbrace] ∨
      "for ".data ++ rest = [rbrace, ';']) := by
    intro hor
    rcases hor with hx | hx | hx <;> exact absurd (congrArg List.length hx) (by simp)
  have hnif : "if ".data.isPrefixOf ("for ".data ++ rest) = false := rfl
  rw [App.cstyleRunBlock.eq_def, dif_pos h]
  simp only [hline]
  rw [if_neg hnb]
  simp only [hnif, Bool.false_eq_true, if_false, hfor, if_true, hsplit, hbm,
    Option.getD_some]
  rw [csForIter_alwaysTrue L bmap hb loc idx blockEnd cond update hcond 100 0 _
    (by omega)]

/-- Witness for C5 on `for (i = 0; 0 < 1; i = i + 1) {` + `}`: the
condition `0 < 1` is true in every store, and the run equals init once, 100
body-update rounds, then continuation past the block. -/
theorem loopGuardTermination_witness :
    App.cstyleRunBlock ["for (i = 0; 0 < 1; i = i + 1) \x7b".data, "\x7d".data]
      (App.buildBraceMap
        ["for (i = 0; 0 < 1; i = i + 1) \x7b".data, "\x7d".data])
      (App.buildBraceMap_le
        ["for (i = 0; 0 < 1; i = i + 1) \x7b".data, "\x7d".data])
      App.Locale.en 0 2 App.initSt =
      App.cstyleRunBlock
        ["for (i = 0; 0 < 1; i = i + 1) \x7b".data, "\x7d".data]
        (App.buildBraceMap
          ["for (i = 0; 0 < 1; i = i + 1) \x7b".data, "\x7d".data])
        (App.buildBraceMap_le
          ["for (i = 0; 0 < 1; i = i + 1) \x7b".data, "\x7d".data])
        App.Locale.en 2 2
        ((fun s => App.cstyleExecuteLine App.Locale.en ("i = i + 1".data ++ [';'])
            (App.cstyleRunBlock
              ["for (i = 0; 0 < 1; i = i + 1) \x7b".data, "\x7d".data]
              (App.buildBraceMap
                ["for (i = 0; 0 < 1; i = i + 1) \x7b".data, "\x7d".data])
              (App.buildBraceMap_le
                ["for (i = 0; 0 < 1; i = i + 1) \x7b".data, "\x7d".data])
              App.Locale.en 1 1 s))^[100]
          (App.cstyleExecuteLine App.Locale.en ("i = 0".data ++ [';'])
            App.initSt)) :=
  loopGuardTermination _ _ _ App.Locale.en 0 2 App.initSt
    "for (i = 0; 0 < 1; i = i + 1) \x7b".data "i = 0".data "0 < 1".data
    "i = i + 1".data 1 (by decide) (by decide) (by decide) (by decide)
    (by decide) (fun vars => rfl)

/-! ## C8 — range-loop semantics of the indentation engine -/

/-- `r` remaining rounds of the range loop starting at iteration `i`: each
round binds the iterator, pushes the per-iteration entry, runs the body,
then moves to `i + 1`; zero rounds change nothing. -/
def rangeRounds (P : List App.PLine) (loc : App.Locale) (lineText iter : Str)
    (limit bodyStart bodyEnd : ℕ) : ℕ → ℕ → App.EngSt → App.EngSt
  | 0, _, st => st
  | r + 1, i, st =>
    rangeRounds P loc lineText iter limit bodyStart bodyEnd r (i + 1)
      (App.genericRunBlock P loc bodyStart bodyEnd
        (App.pushTrace
          { st with
            vars := App.mapSet st.vars iter (App.TraceValue.num (Frac.ofInt i)) }
          lineText (App.rangeLabel loc iter i limit)
          (App.snapshotMap st.vars)
          (App.snapshotMap
            (App.mapSet st.vars iter (App.TraceValue.num (Frac.ofInt i))))
          st.outputs st.outputs none none))

theorem genericRangeIter_rounds (P : List App.PLine) (loc : App.Locale)
    (lineText iter : Str) (limit bodyStart bodyEnd : ℕ) :
    ∀ (r i : ℕ) (st : App.EngSt), i + r = limit →
      App.genericRangeIter P loc lineText iter limit bodyStart bodyEnd i st =
        rangeRounds P loc lineText iter limit bodyStart bodyEnd r i st := by
  intro r
  induction r with
  | zero =>
    intro i st hi
    rw [App.genericRangeIter.eq_def, dif_neg (by omega)]
    rfl
  | succ r ih =>
    intro i st hi
    rw [App.genericRangeIter.eq_def, dif_pos (by omega : i < limit), rangeRounds]
    exact ih (i + 1) _ (by omega)

/-- C8: a `for iter in range(bound):` header line makes the indentation
engine iterate `limit = max(0, floor(resolveNumeric bound))` times and then
continue after the block (first conjunct); each round first binds the
iterator to the current index `i` and pushes exactly one per-iteration entry
(whose `after` snapshot holds the updated iterator) BEFORE running the body
for that iteration, then proceeds with `i + 1` (second conjunct); and after
the last iteration no trailing entry is pushed (third conjunct). -/
theorem rangeLoopSemantics (P : List App.PLine) (loc : App.Locale)
    (idx endI : ℕ) (st : App.EngSt) (pl : App.PLine) (iter boundRaw : Str)
    (h : idx < endI ∧ idx < P.length) (hline : P.get ⟨idx, h.2⟩ = pl)
    (hnif : "if ".data.isPrefixOf pl.text = false)
    (hsplit : App.forRangeSplit pl.text = some (iter, boundRaw)) :
    App.genericRunBlock P loc idx endI st =
      App.genericRunBlock P loc (App.findBlockEnd P (idx + 1) pl.indent) endI
        (rangeRounds P loc pl.text iter
          ((max 0 (App.resolveNumeric (jsTrim boundRaw) st.vars).floor).toNat)
          (idx + 1) (App.findBlockEnd P (idx + 1) pl.indent)
          ((max 0 (App.resolveNumeric (jsTrim boundRaw) st.vars).floor).toNat)
          0 st) ∧
    (∀ (limit bodyStart bodyEnd r i : ℕ) (s : App.EngSt),
      rangeRounds P loc pl.text iter limit bodyStart bodyEnd (r + 1) i s =
        rangeRounds P loc pl.text iter limit bodyStart bodyEnd r (i + 1)
          (App.genericRunBlock P loc bodyStart bodyEnd
            (App.pushTrace
              { s with
                vars := App.mapSet s.vars iter (App.TraceValue.num (Frac.ofInt i)) }
              pl.text (App.rangeLabel loc iter i limit)
              (App.snapshotMap s.vars)
              (App.snapshotMap
                (App.mapSet s.vars iter (App.TraceValue.num (Frac.ofInt i))))
              s.outputs s.outputs none none))) ∧
    (∀ (limit bodyStart bodyEnd i : ℕ) (s : App.EngSt),
      rangeRounds P loc pl.text iter limit bodyStart bodyEnd 0 i s = s) := by
  refine ⟨?_, fun limit bodyStart bodyEnd r i s => rfl,
    fun limit bodyStart bodyEnd i s => rfl⟩
  rw [App.genericRunBlock_range P loc idx endI st h iter boundRaw
    (by rw [hline, hnif]; simp) (by rw [hline]; exact hsplit)]
  rw [genericRangeIter_rounds P loc (P.get ⟨idx, h.2⟩).text iter
    ((max 0 (App.resolveNumeric (jsTrim boundRaw) st.vars).floor).toNat)
    (idx + 1) (App.findBlockEnd P (idx + 1) (P.get ⟨idx, h.2⟩).indent)
    ((max 0 (App.resolveNumeric (jsTrim boundRaw) st.vars).floor).toNat) 0 st
    (by omega)]
  simp only [hline]

/-- Witness for C8 on `for i in range(2):` with body `x = i`: the resolved
bound is 2, so the loop runs exactly two rounds and continues at the end of
the two-line program. -/
theorem rangeLoopSemantics_witness :
    App.genericRunBlock
      (App.parseGenericLines "for i in range(2):\n  x = i".data)
      App.Locale.en 0 2 App.initSt =
      App.genericRunBlock
        (App.parseGenericLines "for i in range(2):\n  x = i".data)
        App.Locale.en 2 2
        (rangeRounds (App.parseGenericLines "for i in range(2):\n  x = i".data)
          App.Locale.en "for i in range(2):".data "i".data 2 1 2 2 0
          App.initSt) :=
  (rangeLoopSemantics (App.parseGenericLines "for i in range(2):\n  x = i".data)
    App.Locale.en 0 2 App.initSt
    ⟨"for i in range(2):".data, "for i in range(2):".data, 0⟩
    "i".data "2".data (by decide) (by decide) (by decide) (by decide)).1

/-! ## C2 — step monotonicity

The invariant `Good`: the step counter is one past the trace length and the
recorded steps are exactly `1, 2, ..., length`.  Every engine operation
preserves it: `pushTrace` appends the current counter and increments it, and
nothing else touches the trace or the counter. -/

def Good (st : App.EngSt) : Prop :=
  st.step = st.trace.length + 1 ∧
  st.trace.map (fun e => e.step) = List.range' 1 st.trace.length

theorem range'_snoc (s n : ℕ) :
    List.range' s (n + 1) = List.range' s n ++ [s + n] := by
  induction n generalizing s with
  | zero => simp [List.range']
  | succ n ih =>
    rw [List.range'_succ, ih (s + 1), List.range'_succ]
    simp [Nat.add_assoc, Nat.add_comm 1 n]

theorem good_push (st : App.EngSt) (text action : Str)
    (before after : App.VarMap) (ob oa : List Str) (op : Option App.OpPayload)
    (ol : Option Str) (h : Good st) :
    Good (App.pushTrace st text action before after ob oa op ol) := by
  obtain ⟨h1, h2⟩ := h
  constructor
  · simp [App.pushTrace, h1]
  · simp only [App.pushTrace, List.map_append, List.length_append,
      List.map_cons, List.map_nil, List.length_cons, List.length_nil]
    rw [h2, h1, Nat.add_zero, range'_snoc]
    simp [Nat.add_comm]

theorem good_genericExecuteLine (loc : App.Locale) (text : Str)
    (st : App.EngSt) (h : Good st) :
    Good (App.genericExecuteLine loc text st) := by
  unfold App.genericExecuteLine
  repeat'
    first
    | exact good_push _ _ _ _ _ _ _ _ _ h
    | split
    | simp only []

theorem genericEngineGood (P : List App.PLine) (loc : App.Locale) :
    (∀ idx endI st, Good st → Good (App.genericRunBlock P loc idx endI st)) ∧
    (∀ lineText iter total bodyStart bodyEnd items i st, Good st →
      Good (App.genericListIter P loc lineText iter total bodyStart bodyEnd
        items i st)) ∧
    (∀ lineText iter limit bodyStart bodyEnd i st, Good st →
      Good (App.genericRangeIter P loc lineText iter limit bodyStart bodyEnd
        i st)) := by
  apply App.genericRunBlock.mutual_induct
  -- if, condition true, else-branch present
  · intro idx endI st h line nextIndex blockEnd hif condition result before
      outputsBefore st1 hres st2 elseIdx hElse ih1 ihdup ih2 hGood
    have hif2 : "if ".data.isPrefixOf (P.get ⟨idx, h.2⟩).text = true := hif
    have hres2 : App.evaluateCondition (App.ifCondition (P.get ⟨idx, h.2⟩).text)
      st.vars = true := hres
    have hElse2 : App.findElseIndex P
      (App.findBlockEnd P (idx + 1) (P.get ⟨idx, h.2⟩).indent)
      (P.get ⟨idx, h.2⟩).indent = some elseIdx := hElse
    rw [App.genericRunBlock.eq_def, dif_pos h]
    simp only [hif2, if_true]
    rw [if_pos hres2]
    split
    · rename_i e heq
      rw [hElse2] at heq
      injection heq with heq
      rw [← heq]
      exact ih2 (ih1 (good_push _ _ _ _ _ _ _ _ _ hGood))
    · rename_i heq
      exact Option.noConfusion (hElse2.symm.trans heq)
  -- if, condition true, no else
  · intro idx endI st h line nextIndex blockEnd hif condition result before
      outputsBefore st1 hres st2 hElse ih1 ihdup ih2 hGood
    have hif2 : "if ".data.isPrefixOf (P.get ⟨idx, h.2⟩).text = true := hif
    have hres2 : App.evaluateCondition (App.ifCondition (P.get ⟨idx, h.2⟩).text)
      st.vars = true := hres
    have hElse2 : App.findElseIndex P
      (App.findBlockEnd P (idx + 1) (P.get ⟨idx, h.2⟩).indent)
      (P.get ⟨idx, h.2⟩).indent = none := hElse
    rw [App.genericRunBlock.eq_def, dif_pos h]
    simp only [hif2, if_true]
    rw [if_pos hres2]
    split
    · rename_i e heq
      exact Option.noConfusion (hElse2.symm.trans heq)
    · exact ih2 (ih1 (good_push _ _ _ _ _ _ _ _ _ hGood))
  -- if, condition false, else-branch present
  · intro idx endI st h line nextIndex blockEnd hif condition result before
      outputsBefore st1 hres elseIdx hElse elseBlockEnd ih1 ihdup ih2 hGood
    have hif2 : "if ".data.isPrefixOf (P.get ⟨idx, h.2⟩).text = true := hif
    have hres2 : ¬App.evaluateCondition
      (App.ifCondition (P.get ⟨idx, h.2⟩).text) st.vars = true := hres
    have hElse2 : App.findElseIndex P
      (App.findBlockEnd P (idx + 1) (P.get ⟨idx, h.2⟩).indent)
      (P.get ⟨idx, h.2⟩).indent = some elseIdx := hElse
    rw [App.genericRunBlock.eq_def, dif_pos h]
    simp only [hif2, if_true]
    rw [if_neg hres2]
    split
    · rename_i e heq
      rw [hElse2] at heq
      injection heq with heq
      rw [← heq]
      exact ih2 (ih1 (good_push _ _ _ _ _ _ _ _ _ hGood))
    · rename_i heq
      exact Option.noConfusion (hElse2.symm.trans heq)
  -- if, condition false, no else
  · intro idx endI st h line nextIndex blockEnd hif condition result before
      outputsBefore st1 hres hElse ih1 hGood
    have hif2 : "if ".data.isPrefixOf (P.get ⟨idx, h.2⟩).text = true := hif
    have hres2 : ¬App.evaluateCondition
      (App.ifCondition (P.get ⟨idx, h.2⟩).text) st.vars = true := hres
    have hElse2 : App.findElseIndex P
      (App.findBlockEnd P (idx + 1) (P.get ⟨idx, h.2⟩).indent)
      (P.get ⟨idx, h.2⟩).indent = none := hElse
    rw [App.genericRunBlock.eq_def, dif_pos h]
    simp only [hif2, if_true]
    rw [if_neg hres2]
    split
    · rename_i e heq
      exact Option.noConfusion (hElse2.symm.trans heq)
    · exact ih1 (good_push _ _ _ _ _ _ _ _ _ hGood)
  -- range loop header
  · intro idx endI st h line nextIndex blockEnd hnif it bnd hsplit countValue
      limit st' ih3 ihdup ih1 hGood
    have hnif2 : ¬"if ".data.isPrefixOf (P.get ⟨idx, h.2⟩).text = true := hnif
    have hsplit2 : App.forRangeSplit (P.get ⟨idx, h.2⟩).text = some (it, bnd) :=
      hsplit
    rw [App.genericRunBlock.eq_def, dif_pos h]
    simp only [hnif2, Bool.false_eq_true, if_false, hsplit2]
    exact ih1 (ih3 hGood)
  -- list loop header
  · intro idx endI st h line nextIndex blockEnd hnif hr it lst hsplit list st'
      ih2 ihdup ih1 hGood
    have hnif2 : ¬"if ".data.isPrefixOf (P.get ⟨idx, h.2⟩).text = true := hnif
    have hr2 : App.forRangeSplit (P.get ⟨idx, h.2⟩).text = none := hr
    have hsplit2 : App.forListSplit (P.get ⟨idx, h.2⟩).text = some (it, lst) :=
      hsplit
    rw [App.genericRunBlock.eq_def, dif_pos h]
    simp only [hnif2, Bool.false_eq_true, if_false, hr2, hsplit2]
    exact ih1 (ih2 hGood)
  -- plain statement
  · intro idx endI st h line hnif hr hl ih hGood
    have hnif2 : ¬"if ".data.isPrefixOf (P.get ⟨idx, h.2⟩).text = true := hnif
    have hr2 : App.forRangeSplit (P.get ⟨idx, h.2⟩).text = none := hr
    have hl2 : App.forListSplit (P.get ⟨idx, h.2⟩).text = none := hl
    rw [App.genericRunBlock.eq_def, dif_pos h]
    simp only [hnif2, Bool.false_eq_true, if_false, hr2, hl2]
    exact ih (good_genericExecuteLine loc _ st hGood)
  -- stop
  · intro idx endI st hn hGood
    rw [App.genericRunBlock_stop P loc _ _ _ hn]
    exact hGood
  -- list iteration: exhausted
  · intro lineText iter total bodyStart bodyEnd i st hGood
    rw [App.genericListIter.eq_def]
    exact hGood
  -- list iteration: one item
  · intro lineText iter total bodyStart bodyEnd i st item rest before
      outputsBefore stV st1 st2 ih1 ihdup ih2 hGood
    rw [App.genericListIter.eq_def]
    exact ih2 (ih1 (good_push _ _ _ _ _ _ _ _ _ hGood))
  -- range iteration: one round
  · intro lineText iter limit bodyStart bodyEnd i st hi before outputsBefore
      stV st1 st2 ih1 ihdup ih2 hGood
    rw [App.genericRangeIter.eq_def, dif_pos hi]
    exact ih2 (ih1 (good_push _ _ _ _ _ _ _ _ _ hGood))
  -- range iteration: done
  · intro lineText iter limit bodyStart bodyEnd i st hn hGood
    rw [App.genericRangeIter.eq_def, dif_neg hn]
    exact hGood

theorem good_cstyleExecuteLine (loc : App.Locale) (text : Str)
    (st : App.EngSt) (h : Good st) :
    Good (App.cstyleExecuteLine loc text st) := by
  unfold App.cstyleExecuteLine App.cstyleExecuteLine.cstyleDeclAssignTail
    App.cstyleExecuteLine.cstylePlainAssignTail
  repeat'
    first
    | exact good_push _ _ _ _ _ _ _ _ _ h
    | split
    | simp only []

theorem cstyleEngineGood (L : List Str) (bmap : List (ℕ × ℕ))
    (hb : ∀ k v, App.braceMapGet bmap k = some v → k ≤ v) (loc : App.Locale) :
    (∀ idx endI st, Good st → Good (App.cstyleRunBlock L bmap hb loc idx endI st)) ∧
    (∀ forIdx blockEnd lineText iter total items i st, Good st →
      Good (App.rustListIter L bmap hb loc forIdx blockEnd lineText iter total
        items i st)) ∧
    (∀ forIdx blockEnd lineText iter a b i st, Good st →
      Good (App.rustRangeIter L bmap hb loc forIdx blockEnd lineText iter a b
        i st)) ∧
    (∀ forIdx blockEnd lineText iter cond update guard st, Good st →
      Good (App.goForIter L bmap hb loc forIdx blockEnd lineText iter cond
        update guard st)) ∧
    (∀ forIdx blockEnd cond update guard st, Good st →
      Good (App.csForIter L bmap hb loc forIdx blockEnd cond update guard
        st)) := by
  apply App.cstyleRunBlock.mutual_induct
  -- structural brace line
  · intro idx endI st h line hbr ih hGood
    have hbr2 : L.get ⟨idx, h.2⟩ = [lbrace] ∨ L.get ⟨idx, h.2⟩ = [rbrace] ∨
      L.get ⟨idx, h.2⟩ = [rbrace, ';'] := hbr
    rw [App.cstyleRunBlock.eq_def, dif_pos h, if_pos hbr2]
    exact ih (good_cstyleExecuteLine loc _ st hGood)
  -- if, true, else present
  · intro idx endI st h line hnb hif condition result before outputsBefore st1
      blockEnd hres st2 eb hElse ih1 ihdup ih2 hGood
    have hnb2 : ¬(L.get ⟨idx, h.2⟩ = [lbrace] ∨ L.get ⟨idx, h.2⟩ = [rbrace] ∨
      L.get ⟨idx, h.2⟩ = [rbrace, ';']) := hnb
    have hif2 : "if ".data.isPrefixOf (L.get ⟨idx, h.2⟩) = true := hif
    have hres2 : App.evaluateCondition
      (App.stripParenSuffix (App.stripIfParen (L.get ⟨idx, h.2⟩))) st.vars =
        true := hres
    have hElse2 : App.findElseBlock L bmap
      ((App.braceMapGet bmap idx).getD idx) = some eb := hElse
    rw [App.cstyleRunBlock.eq_def, dif_pos h, if_neg hnb2]
    simp only [hif2, if_true]
    rw [if_pos hres2]
    split
    · rename_i e heq
      have he : some eb = some e := hElse2.symm.trans heq
      injection he with he
      rw [← he]
      exact ih2 (ih1 (good_push _ _ _ _ _ _ _ _ _ hGood))
    · rename_i heq
      exact Option.noConfusion (hElse2.symm.trans heq)
  -- if, true, no else
  · intro idx endI st h line hnb hif condition result before outputsBefore st1
      blockEnd hres st2 hElse ih1 ihdup ih2 hGood
    have hnb2 : ¬(L.get ⟨idx, h.2⟩ = [lbrace] ∨ L.get ⟨idx, h.2⟩ = [rbrace] ∨
      L.get ⟨idx, h.2⟩ = [rbrace, ';']) := hnb
    have hif2 : "if ".data.isPrefixOf (L.get ⟨idx, h.2⟩) = true := hif
    have hres2 : App.evaluateCondition
      (App.stripParenSuffix (App.stripIfParen (L.get ⟨idx, h.2⟩))) st.vars =
        true := hres
    have hElse2 : App.findElseBlock L bmap
      ((App.braceMapGet bmap idx).getD idx) = none := hElse
    rw [App.cstyleRunBlock.eq_def, dif_pos h, if_neg hnb2]
    simp only [hif2, if_true]
    rw [if_pos hres2]
    split
    · rename_i e heq
      exact Option.noConfusion (hElse2.symm.trans heq)
    · exact ih2 (ih1 (good_push _ _ _ _ _ _ _ _ _ hGood))
  -- if, false, else present
  · intro idx endI st h line hnb hif condition result before outputsBefore st1
      blockEnd hres eb hElse ih1 ihdup ih2 hGood
    have hnb2 : ¬(L.get ⟨idx, h.2⟩ = [lbrace] ∨ L.get ⟨idx, h.2⟩ = [rbrace] ∨
      L.get ⟨idx, h.2⟩ = [rbrace, ';']) := hnb
    have hif2 : "if ".data.isPrefixOf (L.get ⟨idx, h.2⟩) = true := hif
    have hres2 : ¬App.evaluateCondition
      (App.stripParenSuffix (App.stripIfParen (L.get ⟨idx, h.2⟩))) st.vars =
        true := hres
    have hElse2 : App.findElseBlock L bmap
      ((App.braceMapGet bmap idx).getD idx) = some eb := hElse
    rw [App.cstyleRunBlock.eq_def, dif_pos h, if_neg hnb2]
    simp only [hif2, if_true]
    rw [if_neg hres2]
    split
    · rename_i e heq
      have he : some eb = some e := hElse2.symm.trans heq
      injection he with he
      rw [← he]
      exact ih2 (ih1 (good_push _ _ _ _ _ _ _ _ _ hGood))
    · rename_i heq
      exact Option.noConfusion (hElse2.symm.trans heq)
  -- if, false, no else
  · intro idx endI st h line hnb hif condition result before outputsBefore st1
      blockEnd hres hElse ih1 hGood
    have hnb2 : ¬(L.get ⟨idx, h.2⟩ = [lbrace] ∨ L.get ⟨idx, h.2⟩ = [rbrace] ∨
      L.get ⟨idx, h.2⟩ = [rbrace, ';']) := hnb
    have hif2 : "if ".data.isPrefixOf (L.get ⟨idx, h.2⟩) = true := hif
    have hres2 : ¬App.evaluateCondition
      (App.stripParenSuffix (App.stripIfParen (L.get ⟨idx, h.2⟩))) st.vars =
        true := hres
    have hElse2 : App.findElseBlock L bmap
      ((App.braceMapGet bmap idx).getD idx) = none := hElse
    rw [App.cstyleRunBlock.eq_def, dif_pos h, if_neg hnb2]
    simp only [hif2, if_true]
    rw [if_neg hres2]
    split
    · rename_i e heq
      exact Option.noConfusion (hElse2.symm.trans heq)
    · exact ih1 (good_push _ _ _ _ _ _ _ _ _ hGood)
  -- C-style three-clause for
  · intro idx endI st h line hnb hnif hfor init cond update hsplit blockEnd
      st1 st2 ih5 ihdup ih1 hGood
    have hnb2 : ¬(L.get ⟨idx, h.2⟩ = [lbrace] ∨ L.get ⟨idx, h.2⟩ = [rbrace] ∨
      L.get ⟨idx, h.2⟩ = [rbrace, ';']) := hnb
    have hnif2 : ¬"if ".data.isPrefixOf (L.get ⟨idx, h.2⟩) = true := hnif
    have hfor2 : "for ".data.isPrefixOf (L.get ⟨idx, h.2⟩) = true := hfor
    have hsplit2 : App.cForSplit (L.get ⟨idx, h.2⟩) = some (init, cond, update) :=
      hsplit
    rw [App.cstyleRunBlock.eq_def, dif_pos h, if_neg hnb2]
    simp only [hnif2, Bool.false_eq_true, if_false, hfor2, if_true, hsplit2]
    refine ih1 (ih5 ?_)
    unfold st1
    split
    · exact good_cstyleExecuteLine loc _ st hGood
    · exact hGood
  -- Go-style for
  · intro idx endI st h line hnb hnif hfor hcf it startE cond update hsplit
      blockEnd startValue st1 st2 ih4 ihdup ih1 hGood
    have hnb2 : ¬(L.get ⟨idx, h.2⟩ = [lbrace] ∨ L.get ⟨idx, h.2⟩ = [rbrace] ∨
      L.get ⟨idx, h.2⟩ = [rbrace, ';']) := hnb
    have hnif2 : ¬"if ".data.isPrefixOf (L.get ⟨idx, h.2⟩) = true := hnif
    have hfor2 : "for ".data.isPrefixOf (L.get ⟨idx, h.2⟩) = true := hfor
    have hcf2 : App.cForSplit (L.get ⟨idx, h.2⟩) = none := hcf
    have hsplit2 : App.goForSplit (L.get ⟨idx, h.2⟩) =
      some (it, startE, cond, update) := hsplit
    rw [App.cstyleRunBlock.eq_def, dif_pos h, if_neg hnb2]
    simp only [hnif2, Bool.false_eq_true, if_false, hfor2, if_true, hcf2,
      hsplit2]
    exact ih1 (ih4 hGood)
  -- Rust inclusive range for
  · intro idx endI st h line hnb hnif hfor hcf hgf it a b hsplit blockEnd st2
      ih3 ihdup ih1 hGood
    have hnb2 : ¬(L.get ⟨idx, h.2⟩ = [lbrace] ∨ L.get ⟨idx, h.2⟩ = [rbrace] ∨
      L.get ⟨idx, h.2⟩ = [rbrace, ';']) := hnb
    have hnif2 : ¬"if ".data.isPrefixOf (L.get ⟨idx, h.2⟩) = true := hnif
    have hfor2 : "for ".data.isPrefixOf (L.get ⟨idx, h.2⟩) = true := hfor
    have hcf2 : App.cForSplit (L.get ⟨idx, h.2⟩) = none := hcf
    have hgf2 : App.goForSplit (L.get ⟨idx, h.2⟩) = none := hgf
    have hsplit2 : App.rustForSplit (L.get ⟨idx, h.2⟩) = some (it, a, b) :=
      hsplit
    rw [App.cstyleRunBlock.eq_def, dif_pos h, if_neg hnb2]
    simp only [hnif2, Bool.false_eq_true, if_false, hfor2, if_true, hcf2,
      hgf2, hsplit2]
    exact ih1 (ih3 hGood)
  -- Rust collection for
  · intro idx endI st h line hnb hnif hfor hcf hgf hrf it lst hsplit blockEnd
      list st2 ih2 ihdup ih1 hGood
    have hnb2 : ¬(L.get ⟨idx, h.2⟩ = [lbrace] ∨ L.get ⟨idx, h.2⟩ = [rbrace] ∨
      L.get ⟨idx, h.2⟩ = [rbrace, ';']) := hnb
    have hnif2 : ¬"if ".data.isPrefixOf (L.get ⟨idx, h.2⟩) = true := hnif
    have hfor2 : "for ".data.isPrefixOf (L.get ⟨idx, h.2⟩) = true := hfor
    have hcf2 : App.cForSplit (L.get ⟨idx, h.2⟩) = none := hcf
    have hgf2 : App.goForSplit (L.get ⟨idx, h.2⟩) = none := hgf
    have hrf2 : App.rustForSplit (L.get ⟨idx, h.2⟩) = none := hrf
    have hsplit2 : App.rustListSplit (L.get ⟨idx, h.2⟩) = some (it, lst) :=
      hsplit
    rw [App.cstyleRunBlock.eq_def, dif_pos h, if_neg hnb2]
    simp only [hnif2, Bool.false_eq_true, if_false, hfor2, if_true, hcf2,
      hgf2, hrf2, hsplit2]
    exact ih1 (ih2 hGood)
  -- for-prefixed line that no loop form parses
  · intro idx endI st h line hnb hnif hfor hcf hgf hrf hrl ih hGood
    have hnb2 : ¬(L.get ⟨idx, h.2⟩ = [lbrace] ∨ L.get ⟨idx, h.2⟩ = [rbrace] ∨
      L.get ⟨idx, h.2⟩ = [rbrace, ';']) := hnb
    have hnif2 : ¬"if ".data.isPrefixOf (L.get ⟨idx, h.2⟩) = true := hnif
    have hfor2 : "for ".data.isPrefixOf (L.get ⟨idx, h.2⟩) = true := hfor
    have hcf2 : App.cForSplit (L.get ⟨idx, h.2⟩) = none := hcf
    have hgf2 : App.goForSplit (L.get ⟨idx, h.2⟩) = none := hgf
    have hrf2 : App.rustForSplit (L.get ⟨idx, h.2⟩) = none := hrf
    have hrl2 : App.rustListSplit (L.get ⟨idx, h.2⟩) = none := hrl
    rw [App.cstyleRunBlock.eq_def, dif_pos h, if_neg hnb2]
    simp only [hnif2, Bool.false_eq_true, if_false, hfor2, if_true, hcf2,
      hgf2, hrf2, hrl2]
    exact ih (good_cstyleExecuteLine loc _ st hGood)
  -- plain statement
  · intro idx endI st h line hnb hnif hnfor ih hGood
    have hnb2 : ¬(L.get ⟨idx, h.2⟩ = [lbrace] ∨ L.get ⟨idx, h.2⟩ = [rbrace] ∨
      L.get ⟨idx, h.2⟩ = [rbrace, ';']) := hnb
    have hnif2 : ¬"if ".data.isPrefixOf (L.get ⟨idx, h.2⟩) = true := hnif
    have hnfor2 : ¬"for ".data.isPrefixOf (L.get ⟨idx, h.2⟩) = true := hnfor
    rw [App.cstyleRunBlock.eq_def, dif_pos h, if_neg hnb2]
    simp only [hnif2, Bool.false_eq_true, if_false, hnfor2]
    exact ih (good_cstyleExecuteLine loc _ st hGood)
  -- stop
  · intro idx endI st hn hGood
    rw [App.cstyleRunBlock_stop L bmap hb loc _ _ _ hn]
    exact hGood
  -- rust list iteration: exhausted
  · intro forIdx blockEnd lineText iter total i st hGood
    rw [App.rustListIter.eq_def]
    exact hGood
  -- rust list iteration: one item
  · intro forIdx blockEnd lineText iter total i st item rest before
      outputsBefore stV st1 st2 ih1 ihdup ih2 hGood
    rw [App.rustListIter.eq_def]
    exact ih2 (ih1 (good_push _ _ _ _ _ _ _ _ _ hGood))
  -- rust range iteration: one round
  · intro forIdx blockEnd lineText iter a b i st hi before outputsBefore stV
      st1 st2 ih1 ihdup ih2 hGood
    rw [App.rustRangeIter.eq_def, dif_pos hi]
    exact ih2 (ih1 (good_push _ _ _ _ _ _ _ _ _ hGood))
  -- rust range iteration: done
  · intro forIdx blockEnd lineText iter a b i st hn hGood
    rw [App.rustRangeIter.eq_def, dif_neg hn]
    exact hGood
  -- go for iteration: one round
  · intro forIdx blockEnd lineText iter cond update guard st hg before
      outputsBefore st1 st2 st3 ih1 ihdup ih2 hGood
    rw [App.goForIter.eq_def, dif_pos hg]
    refine ih2 ?_
    have hst2 : Good st2 := ih1 (good_push _ _ _ _ _ _ _ _ _ hGood)
    unfold st3
    split
    · exact hst2
    · split
      · exact hst2
      · exact good_cstyleExecuteLine loc _ _ hst2
  -- go for iteration: done
  · intro forIdx blockEnd lineText iter cond update guard st hn hGood
    rw [App.goForIter.eq_def, dif_neg hn]
    exact hGood
  -- guarded three-clause for iteration: one round
  · intro forIdx blockEnd cond update guard st hg st1 st2 ih1 ih2 hGood
    rw [App.csForIter.eq_def, dif_pos hg]
    exact ih2 (good_cstyleExecuteLine loc _ _ (ih1 hGood))
  -- guarded three-clause for iteration: done
  · intro forIdx blockEnd cond update guard st hn hGood
    rw [App.csForIter.eq_def, dif_neg hn]
    exact hGood

theorem good_javaExecuteLine (loc : App.Locale) (text : Str) (st : App.EngSt)
    (h : Good st) : Good (App.javaExecuteLine loc text st) := by
  unfold App.javaExecuteLine App.javaExecuteLine.javaIntAssignTail
    App.javaExecuteLine.javaAssignTail
  repeat'
    first
    | exact good_push _ _ _ _ _ _ _ _ _ h
    | split
    | simp only []

theorem javaEngineGood (L : List Str) (bmap : List (ℕ × ℕ))
    (hb : ∀ k v, App.braceMapGet bmap k = some v → k ≤ v) (loc : App.Locale) :
    (∀ fuel idx endI st, Good st →
      Good (App.javaRunBlock L bmap hb loc fuel idx endI st)) ∧
    (∀ fuel forIdx blockEnd lineText it op limitValue i st, Good st →
      Good (App.javaForIter L bmap hb loc fuel forIdx blockEnd lineText it op
        limitValue i st)) := by
  apply App.javaRunBlock.mutual_induct
  -- structural brace line: skipped without an entry
  · intro fuel idx endI st h line hbr ih hGood
    have hbr2 : L.get ⟨idx, h.2⟩ = [lbrace] ∨ L.get ⟨idx, h.2⟩ = [rbrace] ∨
      L.get ⟨idx, h.2⟩ = [rbrace, ';'] := hbr
    rw [App.javaRunBlock.eq_def, dif_pos h, if_pos hbr2]
    exact ih hGood
  -- if, true, else present
  · intro fuel idx endI st h line hnb hif condition resolvedCondition result
      before outputsBefore st1 blockEnd hres st2 eb hElse ih1 ihdup ih2 hGood
    have hnb2 : ¬(L.get ⟨idx, h.2⟩ = [lbrace] ∨ L.get ⟨idx, h.2⟩ = [rbrace] ∨
      L.get ⟨idx, h.2⟩ = [rbrace, ';']) := hnb
    have hif2 : "if ".data.isPrefixOf (L.get ⟨idx, h.2⟩) = true := hif
    have hres2 : App.evaluateCondition (App.javaCondResolve st.vars
      (App.stripParenSuffix (App.stripIfParen (L.get ⟨idx, h.2⟩)))) st.vars =
        true := hres
    have hElse2 : App.findElseBlock L bmap
      ((App.braceMapGet bmap idx).getD idx) = some eb := hElse
    rw [App.javaRunBlock.eq_def, dif_pos h, if_neg hnb2]
    simp only [hif2, if_true]
    rw [if_pos hres2]
    split
    · rename_i e heq
      have he : some eb = some e := hElse2.symm.trans heq
      injection he with he
      rw [← he]
      exact ih2 (ih1 (good_push _ _ _ _ _ _ _ _ _ hGood))
    · rename_i heq
      exact Option.noConfusion (hElse2.symm.trans heq)
  -- if, true, no else
  · intro fuel idx endI st h line hnb hif condition resolvedCondition result
      before outputsBefore st1 blockEnd hres st2 hElse ih1 ihdup ih2 hGood
    have hnb2 : ¬(L.get ⟨idx, h.2⟩ = [lbrace] ∨ L.get ⟨idx, h.2⟩ = [rbrace] ∨
      L.get ⟨idx, h.2⟩ = [rbrace, ';']) := hnb
    have hif2 : "if ".data.isPrefixOf (L.get ⟨idx, h.2⟩) = true := hif
    have hres2 : App.evaluateCondition (App.javaCondResolve st.vars
      (App.stripParenSuffix (App.stripIfParen (L.get ⟨idx, h.2⟩)))) st.vars =
        true := hres
    have hElse2 : App.findElseBlock L bmap
      ((App.braceMapGet bmap idx).getD idx) = none := hElse
    rw [App.javaRunBlock.eq_def, dif_pos h, if_neg hnb2]
    simp only [hif2, if_true]
    rw [if_pos hres2]
    split
    · rename_i e heq
      exact Option.noConfusion (hElse2.symm.trans heq)
    · exact ih2 (ih1 (good_push _ _ _ _ _ _ _ _ _ hGood))
  -- if, false, else present
  · intro fuel idx endI st h line hnb hif condition resolvedCondition result
      before outputsBefore st1 blockEnd hres eb hElse ih1 ihdup ih2 hGood
    have hnb2 : ¬(L.get ⟨idx, h.2⟩ = [lbrace] ∨ L.get ⟨idx, h.2⟩ = [rbrace] ∨
      L.get ⟨idx, h.2⟩ = [rbrace, ';']) := hnb
    have hif2 : "if ".data.isPrefixOf (L.get ⟨idx, h.2⟩) = true := hif
    have hres2 : ¬App.evaluateCondition (App.javaCondResolve st.vars
      (App.stripParenSuffix (App.stripIfParen (L.get ⟨idx, h.2⟩)))) st.vars =
        true := hres
    have hElse2 : App.findElseBlock L bmap
      ((App.braceMapGet bmap idx).getD idx) = some eb := hElse
    rw [App.javaRunBlock.eq_def, dif_pos h, if_neg hnb2]
    simp only [hif2, if_true]
    rw [if_neg hres2]
    split
    · rename_i e heq
      have he : some eb = some e := hElse2.symm.trans heq
      injection he with he
      rw [← he]
      exact ih2 (ih1 (good_push _ _ _ _ _ _ _ _ _ hGood))
    · rename_i heq
      exact Option.noConfusion (hElse2.symm.trans heq)
  -- if, false, no else
  · intro fuel idx endI st h line hnb hif condition resolvedCondition result
      before outputsBefore st1 blockEnd hres hElse ih1 hGood
    have hnb2 : ¬(L.get ⟨idx, h.2⟩ = [lbrace] ∨ L.get ⟨idx, h.2⟩ = [rbrace] ∨
      L.get ⟨idx, h.2⟩ = [rbrace, ';']) := hnb
    have hif2 : "if ".data.isPrefixOf (L.get ⟨idx, h.2⟩) = true := hif
    have hres2 : ¬App.evaluateCondition (App.javaCondResolve st.vars
      (App.stripParenSuffix (App.stripIfParen (L.get ⟨idx, h.2⟩)))) st.vars =
        true := hres
    have hElse2 : App.findElseBlock L bmap
      ((App.braceMapGet bmap idx).getD idx) = none := hElse
    rw [App.javaRunBlock.eq_def, dif_pos h, if_neg hnb2]
    simp only [hif2, if_true]
    rw [if_neg hres2]
    split
    · rename_i e heq
      exact Option.noConfusion (hElse2.symm.trans heq)
    · exact ih1 (good_push _ _ _ _ _ _ _ _ _ hGood)
  -- Java for header
  · intro fuel idx endI st h line hnb hnif hfor it startE cond update hsplit
      blockEnd startValue limitValue st2 ih2 ihdup ih1 hGood
    have hnb2 : ¬(L.get ⟨idx, h.2⟩ = [lbrace] ∨ L.get ⟨idx, h.2⟩ = [rbrace] ∨
      L.get ⟨idx, h.2⟩ = [rbrace, ';']) := hnb
    have hnif2 : ¬"if ".data.isPrefixOf (L.get ⟨idx, h.2⟩) = true := hnif
    have hfor2 : "for ".data.isPrefixOf (L.get ⟨idx, h.2⟩) = true := hfor
    have hsplit2 : App.jForSplit (L.get ⟨idx, h.2⟩) =
      some (it, startE, cond, update) := hsplit
    rw [App.javaRunBlock.eq_def, dif_pos h, if_neg hnb2]
    simp only [hnif2, Bool.false_eq_true, if_false, hfor2, if_true, hsplit2]
    exact ih1 (ih2 hGood)
  -- for-prefixed line the loop form does not parse
  · intro fuel idx endI st h line hnb hnif hfor hjf ih hGood
    have hnb2 : ¬(L.get ⟨idx, h.2⟩ = [lbrace] ∨ L.get ⟨idx, h.2⟩ = [rbrace] ∨
      L.get ⟨idx, h.2⟩ = [rbrace, ';']) := hnb
    have hnif2 : ¬"if ".data.isPrefixOf (L.get ⟨idx, h.2⟩) = true := hnif
    have hfor2 : "for ".data.isPrefixOf (L.get ⟨idx, h.2⟩) = true := hfor
    have hjf2 : App.jForSplit (L.get ⟨idx, h.2⟩) = none := hjf
    rw [App.javaRunBlock.eq_def, dif_pos h, if_neg hnb2]
    simp only [hnif2, Bool.false_eq_true, if_false, hfor2, if_true, hjf2]
    exact ih (good_javaExecuteLine loc _ st hGood)
  -- plain statement
  · intro fuel idx endI st h line hnb hnif hnfor ih hGood
    have hnb2 : ¬(L.get ⟨idx, h.2⟩ = [lbrace] ∨ L.get ⟨idx, h.2⟩ = [rbrace] ∨
      L.get ⟨idx, h.2⟩ = [rbrace, ';']) := hnb
    have hnif2 : ¬"if ".data.isPrefixOf (L.get ⟨idx, h.2⟩) = true := hnif
    have hnfor2 : ¬"for ".data.isPrefixOf (L.get ⟨idx, h.2⟩) = true := hnfor
    rw [App.javaRunBlock.eq_def, dif_pos h, if_neg hnb2]
    simp only [hnif2, Bool.false_eq_true, if_false, hnfor2]
    exact ih (good_javaExecuteLine loc _ st hGood)
  -- stop
  · intro fuel idx endI st hn hGood
    rw [App.javaRunBlock_stop L bmap hb loc fuel _ _ _ hn]
    exact hGood
  -- for iteration: out of fuel
  · intro forIdx blockEnd lineText it op limitValue i st hGood
    rw [App.javaForIter.eq_def]
    exact hGood
  -- for iteration: one round
  · intro forIdx blockEnd lineText it op limitValue i st f hcmp before
      outputsBefore stV st1 st2 ih1 ihdup ih2 hGood
    rw [App.javaForIter.eq_def]
    simp only [hcmp, if_true]
    exact ih2 (ih1 (good_push _ _ _ _ _ _ _ _ _ hGood))
  -- for iteration: condition now false
  · intro forIdx blockEnd lineText it op limitValue i st f hcmp hGood
    rw [App.javaForIter.eq_def]
    simp only [hcmp, Bool.false_eq_true, if_false]
    exact hGood

/-- The same step invariant for the toy interpreter's state. -/
def MGood (s : Miniko.MState) : Prop :=
  s.step = s.trace.length + 1 ∧
  s.trace.map (fun e => e.step) = List.range' 1 s.trace.length

theorem mgood_step (lines : List Str) (m1 m2 m3 : List (ℕ × ℕ))
    (s s' : Miniko.MState) (h : Miniko.stepM lines m1 m2 m3 s = some s')
    (hg : MGood s) : MGood s' := by
  unfold Miniko.stepM at h
  split at h
  · injection h with h
    subst h
    split
    · exact hg
    · obtain ⟨h1, h2⟩ := hg
      constructor
      · simp [h1]
      · simp only [List.map_append, List.map_cons, List.map_nil,
          List.length_append, List.length_cons, List.length_nil]
        rw [h2, h1, Nat.add_zero, range'_snoc]
        simp [Nat.add_comm]
  · exact Option.noConfusion h

theorem mgood_runSteps (lines : List Str) (m1 m2 m3 : List (ℕ × ℕ)) :
    ∀ (fuel : ℕ) (s : Miniko.MState), MGood s →
      MGood (Miniko.runStepsF lines m1 m2 m3 fuel s).1 := by
  intro fuel
  induction fuel with
  | zero => intro s hg; exact hg
  | succ f ih =>
    intro s hg
    rw [Miniko.runStepsF]
    cases hstep : Miniko.stepM lines m1 m2 m3 s with
    | none => exact hg
    | some s' => exact ih s' (mgood_step _ _ _ _ _ _ hstep hg)

theorem take_range' : ∀ (k s n : ℕ),
    (List.range' s n).take k = List.range' s (min k n) := by
  intro k
  induction k with
  | zero => intro s n; simp
  | succ k ih =>
    intro s n
    cases n with
    | zero => simp
    | succ n =>
      rw [List.range'_succ, List.take_succ_cons, ih (s + 1) n,
        Nat.succ_min_succ, List.range'_succ]

/-- C2: for every iteration allowance, source text, dialect id and locale,
the `step` fields of the trace built by `buildTraceForCode` are exactly
`1, 2, 3, ...` in order, with no gaps, even after the caller's truncation to
the step cap; and likewise for the trace returned by the toy interpreter
`runMiniko` for every source and allowance. -/
theorem stepMonotonicity :
    (∀ javaFuel code languageId loc,
      (App.buildTraceForCode javaFuel code languageId loc).map
        (fun e => e.step) =
        List.range' 1 (App.buildTraceForCode javaFuel code languageId
          loc).length) ∧
    (∀ fuel source,
      ((Miniko.runMiniko fuel source).1.trace).map (fun e => e.step) =
        List.range' 1 ((Miniko.runMiniko fuel source).1.trace).length) := by
  have hInit : Good App.initSt := ⟨rfl, rfl⟩
  constructor
  · intro javaFuel code languageId loc
    have hgen2 : (App.buildGenericTrace code loc).map (fun e => e.step) =
        List.range' 1 (App.buildGenericTrace code loc).length :=
      ((genericEngineGood (App.parseGenericLines code) loc).1 0
        (App.parseGenericLines code).length App.initSt hInit).2
    have hcs2 : (App.buildCStyleTrace code loc).map (fun e => e.step) =
        List.range' 1 (App.buildCStyleTrace code loc).length :=
      ((cstyleEngineGood (App.parseCStyleLines code)
        (App.buildBraceMap (App.parseCStyleLines code))
        (App.buildBraceMap_le (App.parseCStyleLines code)) loc).1 0
        (App.parseCStyleLines code).length App.initSt hInit).2
    have hja2 : (App.buildJavaTrace javaFuel code loc).map (fun e => e.step) =
        List.range' 1 (App.buildJavaTrace javaFuel code loc).length :=
      ((javaEngineGood (App.parseJavaLines code)
        (App.buildBraceMap (App.parseJavaLines code))
        (App.buildBraceMap_le (App.parseJavaLines code)) loc).1 javaFuel 0
        (App.parseJavaLines code).length App.initSt hInit).2
    unfold App.buildTraceForCode
    split_ifs
    · rw [List.map_take, hja2, take_range', List.length_take]
    · rw [List.map_take, hcs2, take_range', List.length_take]
    · rw [List.map_take, hgen2, take_range', List.length_take]
    · rw [List.map_take, hgen2, take_range', List.length_take]
  · intro fuel source
    exact (mgood_runSteps _ _ _ _ fuel Miniko.initState ⟨rfl, rfl⟩).2

/-! ## C1 — snapshot independence

The value-level embedding above cannot express JavaScript object identity,
so the aliasing behaviour of `snapshotMap` is modelled explicitly: a heap of
`Map` objects addressed by index, with the live Variable Store at address
`live`.  `variables.set(...)` mutates the cell at `live` in place;
`snapshotMap(variables)` (called by `pushTrace` for the `before`/`after`
fields) allocates a FRESH address holding a key-by-key copy of the live
contents.  A recorded trace entry keeps only such snapshot addresses, which
are never the live address, and later operations write only to the live
address or to fresh addresses. -/

namespace SnapModel

structure Heap where
  cells : List App.VarMap
  live : ℕ
  deriving DecidableEq, Repr

def lookup (h : Heap) (a : ℕ) : Option App.VarMap := h.cells.get? a

/-- `variables.set(name, value)`: in-place mutation of the live `Map`. -/
def setVar (h : Heap) (k : Str) (v : App.TraceValue) : Heap :=
  { h with
    cells := h.cells.set h.live
      (App.mapSet ((h.cells.get? h.live).getD []) k v) }

/-- `snapshotMap(variables)`: allocate a fresh object holding the copy, and
return its address. -/
def snapshotAlloc (h : Heap) : Heap × ℕ :=
  ({ h with
    cells := h.cells ++ [App.snapshotMap ((h.cells.get? h.live).getD [])] },
    h.cells.length)

/-- What a run does to the heap after an entry has been recorded: mutate the
live store (assignments, loop-variable updates) or take further snapshots
(later `pushTrace` calls). -/
inductive Op where
  | assign (k : Str) (v : App.TraceValue)
  | snap
  deriving DecidableEq, Repr

def applyOp (h : Heap) : Op → Heap
  | .assign k v => setVar h k v
  | .snap => (snapshotAlloc h).1

def applyOps (h : Heap) (ops : List Op) : Heap := ops.foldl applyOp h

end SnapModel

theorem snapModel_applyOp_live (h : SnapModel.Heap) (op : SnapModel.Op) :
    (SnapModel.applyOp h op).live = h.live := by
  cases op <;> rfl

theorem snapModel_applyOp_len (h : SnapModel.Heap) (op : SnapModel.Op) :
    h.cells.length ≤ (SnapModel.applyOp h op).cells.length := by
  cases op with
  | assign k v => simp [SnapModel.applyOp, SnapModel.setVar]
  | snap => simp [SnapModel.applyOp, SnapModel.snapshotAlloc]

theorem snapModel_applyOp_frame (h : SnapModel.Heap) (op : SnapModel.Op)
    (a : ℕ) (hne : a ≠ h.live) (hlt : a < h.cells.length) :
    SnapModel.lookup (SnapModel.applyOp h op) a = SnapModel.lookup h a := by
  cases op with
  | assign k v =>
    simp only [SnapModel.applyOp, SnapModel.setVar, SnapModel.lookup]
    exact List.get?_set_ne _ _ (Ne.symm hne)
  | snap =>
    simp only [SnapModel.applyOp, SnapModel.snapshotAlloc, SnapModel.lookup]
    exact List.get?_append hlt

/-- C1: snapshot independence in the heap model.  (i) A snapshot allocation
returns a fresh address distinct from the live store's, holding
`snapshotMap` of the live contents; (ii) `snapshotMap` copies the contents
exactly (it is the identity on the value level); (iii) frame property: any
sequence of later operations — live-store mutations and further snapshot
allocations — leaves the contents recorded at any already-allocated
non-live address (in particular every recorded `before`/`after` snapshot)
unchanged. -/
theorem snapshotIndependence :
    (∀ h : SnapModel.Heap, h.live < h.cells.length →
      (SnapModel.snapshotAlloc h).2 ≠ h.live ∧
      SnapModel.lookup (SnapModel.snapshotAlloc h).1
        (SnapModel.snapshotAlloc h).2 =
        (SnapModel.lookup h h.live).map App.snapshotMap) ∧
    (∀ vars : App.VarMap, App.snapshotMap vars = vars) ∧
    (∀ (h : SnapModel.Heap) (ops : List SnapModel.Op) (a : ℕ),
      a ≠ h.live → a < h.cells.length →
      SnapModel.lookup (SnapModel.applyOps h ops) a = SnapModel.lookup h a) := by
  refine ⟨?_, ?_, ?_⟩
  · intro h hl
    constructor
    · exact fun he => absurd (he ▸ hl) (lt_irrefl _)
    · simp only [SnapModel.snapshotAlloc, SnapModel.lookup]
      rw [List.get?_concat_length]
      cases hx : h.cells.get? h.live with
      | none =>
        rw [List.get?_eq_none] at hx
        omega
      | some v => simp [hx]
  · intro vars
    simp [App.snapshotMap]
  · intro h ops
    induction ops generalizing h with
    | nil => intro a _ _; rfl
    | cons op rest ih =>
      intro a hne hlt
      have h1 := snapModel_applyOp_frame h op a hne hlt
      have h2 := ih (SnapModel.applyOp h op) a
        (by rw [snapModel_applyOp_live]; exact hne)
        (lt_of_lt_of_le hlt (snapModel_applyOp_len h op))
      exact h2.trans h1

/-- Witness for C1: a heap whose live store maps `x` to 1 with a recorded
snapshot at address 1; assigning `x := 2` and snapshotting again leave the
recorded snapshot's contents unchanged. -/
theorem snapshotIndependence_witness :
    SnapModel.lookup
      (SnapModel.applyOps
        ⟨[[("x".data, App.TraceValue.num ⟨1, 1⟩)],
          [("x".data, App.TraceValue.num ⟨1, 1⟩)]], 0⟩
        [SnapModel.Op.assign "x".data (App.TraceValue.num ⟨2, 1⟩),
          SnapModel.Op.snap]) 1 =
      some [("x".data, App.TraceValue.num ⟨1, 1⟩)] := by
  rw [snapshotIndependence.2.2
    ⟨[[("x".data, App.TraceValue.num ⟨1, 1⟩)],
      [("x".data, App.TraceValue.num ⟨1, 1⟩)]], 0⟩
    [SnapModel.Op.assign "x".data (App.TraceValue.num ⟨2, 1⟩),
      SnapModel.Op.snap] 1 (by decide) (by decide)]
  rfl

